import Mathlib

/-! # Memory management core of the teaching kernel

A shallow embedding of

* `ContFramePool` (`mp2/MP2_Sources/cont_frame_pool.C`): the contiguous frame allocator,
* `VMPool` (`mp4/MP4_Sources/vm_pool.C`): the virtual region allocator,
* `PageTable` (`mp4/MP4_Sources/page_table.C`): the two-level page table with a recursive
  self-map,
* the constructor and the fault handler of the earlier `PageTable`
  (`mp3/MP3_Sources/page_table.C`), which reaches the tables through plain pointers,

followed by the properties established about them.

Conventions.  The target is a 32-bit machine: `unsigned long` and `unsigned int` are 32-bit
words, so arithmetic that can wrap is written with an explicit `% 2^32`.  Frame indices inside
a pool never exceed `nframes + 1`, and are kept as plain naturals.  Raw memory reached
through a pointer (`bitmap`, the region array, physical memory) is a function from the
index or address to the stored value.
-/

/-! ## Outcome of running a piece of kernel code -/

/-- Outcome of a kernel routine: it returns, it stops the machine on a failed assertion (or
a null pointer), it raises a page fault while the fault handler itself runs, or the bounded
loop that models a `while` ran out of iterations. -/
inductive Exec (α : Type) where
  | ok (val : α)
  | fatal
  | fault
  | nofuel
deriving DecidableEq

namespace Exec

/-- True on the outcome of a failed assertion. -/
def isFatal {α : Type} : Exec α → Bool
  | fatal => true
  | _ => false

/-- The value returned, if the routine returned. -/
def toOption {α : Type} : Exec α → Option α
  | ok a => some a
  | _ => none

/-- Apply a function to the returned value. -/
def map {α β : Type} (f : α → β) : Exec α → Exec β
  | ok a => ok (f a)
  | fatal => fatal
  | fault => fault
  | nofuel => nofuel

/-- Run the rest of a routine on the returned value; any other outcome ends the routine. -/
def bind {α β : Type} (x : Exec α) (f : α → Exec β) : Exec β :=
  match x with
  | ok a => f a
  | fatal => fatal
  | fault => fault
  | nofuel => nofuel

end Exec

/-- The modulus of a 32-bit machine word. -/
def WORD : Nat := 4294967296

/-- Decrement `x--` of a 32-bit counter: `x - 1` modulo `2^32`. -/
def dec32 (x : Nat) : Nat := (WORD - 1 + x) % WORD

/-- Increment `x++` of a 32-bit counter: `x + 1` modulo `2^32`. -/
def inc32 (x : Nat) : Nat := (1 + x) % WORD

/-- Addition `x + y` of 32-bit words (the sum is written `y + x`). -/
def add32 (x y : Nat) : Nat := (y + x) % WORD

/-- Subtraction `x - y` of 32-bit words. -/
def sub32 (x y : Nat) : Nat := (WORD - y % WORD + x % WORD) % WORD

/-- Multiplication `x * y` of 32-bit words. -/
def mul32 (x y : Nat) : Nat := (x * y) % WORD

/-! ## ContFramePool -/

/-- The enumeration `ContFramePool::FrameState`. -/
inductive FrameState where
  | Free
  | Used
  | HoS
deriving DecidableEq, Repr

/-- The data members of a `ContFramePool` object, as the methods use them (the class
declaration, `cont_frame_pool.H`, is not among the sources).  `bitmap` is the byte memory
the `bitmap` pointer addresses (`bitmap i` is `bitmap[i]`); `nFreeFrames` is a 32-bit
counter. -/
structure ContFramePool where
  base_frame_no : Nat
  nframes : Nat
  nFreeFrames : Nat
  info_frame_no : Nat
  bitmap : Nat → Nat

namespace ContFramePool

/-- Method `ContFramePool::get_state`.  A byte read yields an `unsigned char`; `none` is the
`default:` branch, whose `assert(false)` stops the kernel. -/
def get_state (p : ContFramePool) (_frame_no : Nat) : Option FrameState :=
  let bitmap_index := _frame_no / 4
  let mask := 0x3
  let target := ((p.bitmap bitmap_index % 256) >>> ((_frame_no % 4) * 2)) % 256
  match target &&& mask with
  | 0 => some FrameState.Free
  | 1 => some FrameState.Used
  | 2 => some FrameState.HoS
  | _ => none

/-- Method `ContFramePool::set_state`: clear the two bits of the frame, then xor the new code in. -/
def set_state (p : ContFramePool) (_frame_no : Nat) (_state : FrameState) : ContFramePool :=
  let bitmap_index := _frame_no / 4
  let mask_init := (0x3 <<< ((_frame_no % 4) * 2)) % 256
  let cleared := (p.bitmap bitmap_index % 256) &&& (255 - mask_init)
  let mask :=
    match _state with
    | FrameState.Free => (0x0 <<< ((_frame_no % 4) * 2)) % 256
    | FrameState.Used => (0x1 <<< ((_frame_no % 4) * 2)) % 256
    | FrameState.HoS => (0x2 <<< ((_frame_no % 4) * 2)) % 256
  { p with bitmap := Function.update p.bitmap bitmap_index (cleared ^^^ mask) }

/-- The constructor's loop `for (fno = 0; fno < nframes; fno++) set_state(fno, Free)`. -/
def mark_all_free (p : ContFramePool) : ContFramePool :=
  (List.range p.nframes).foldl (fun q fno => q.set_state fno FrameState.Free) p

/-- The constructor `ContFramePool::ContFramePool`, without the registry update (see `register`).  `mem` is
the content of memory at the address the bitmap pointer is set to. -/
def construct (_base_frame_no _n_frames _info_frame_no : Nat) (mem : Nat → Nat) :
    ContFramePool :=
  let p : ContFramePool :=
    { base_frame_no := _base_frame_no, nframes := _n_frames, nFreeFrames := _n_frames,
      info_frame_no := _info_frame_no, bitmap := mem }
  let p := p.mark_all_free
  if _info_frame_no = 0 then
    { p.set_state 0 FrameState.HoS with nFreeFrames := dec32 p.nFreeFrames }
  else p

/-- The inner loop of `get_frames`:
`while (cur_frame < nframes && get_state(cur_frame) == Free) { count++; if (count == n)
{ found = true; break; } cur_frame++; }`.  Returns `cur_frame` and `found`. -/
def get_frames_inner (p : ContFramePool) (_n_frames : Nat) :
    Nat → Nat → Nat → Exec (Nat × Bool)
  | 0, _, _ => Exec.nofuel
  | fuel + 1, cur_frame, count =>
    if cur_frame < p.nframes then
      match p.get_state cur_frame with
      | none => Exec.fatal
      | some FrameState.Free =>
        if count + 1 = _n_frames then Exec.ok (cur_frame, true)
        else get_frames_inner p _n_frames fuel (cur_frame + 1) (count + 1)
      | some _ => Exec.ok (cur_frame, false)
    else Exec.ok (cur_frame, false)

/-- The outer loop of `get_frames`: `while (start_frame <= nframes) { ... }`.  Returns
`some start_frame` when `found`, `none` otherwise. -/
def get_frames_outer (p : ContFramePool) (_n_frames : Nat) : Nat → Nat → Exec (Option Nat)
  | 0, _ => Exec.nofuel
  | fuel + 1, start_frame =>
    if start_frame ≤ p.nframes then
      match p.get_frames_inner _n_frames (p.nframes + 1) start_frame 0 with
      | Exec.ok (_, true) => Exec.ok (some start_frame)
      | Exec.ok (cur_frame, false) => get_frames_outer p _n_frames fuel (cur_frame + 1)
      | Exec.fatal => Exec.fatal
      | Exec.fault => Exec.fault
      | Exec.nofuel => Exec.nofuel
    else Exec.ok none

/-- The search of `get_frames` from `start_frame = 0`; the iteration bounds `nframes + 1`
(inner) and `nframes + 2` (outer) are never reached, see `get_frames_outer_total`. -/
def get_frames_search (p : ContFramePool) (_n_frames : Nat) : Exec (Option Nat) :=
  p.get_frames_outer _n_frames (p.nframes + 2) 0

/-- The marking done once a run is found: head of sequence at `start_frame`, then
`for (i = 1; i < n; i++) set_state(start_frame + i, Used)`, one `nFreeFrames--` each. -/
def mark_run (p : ContFramePool) (start_frame _n_frames : Nat) : ContFramePool :=
  let p1 : ContFramePool :=
    { p.set_state start_frame FrameState.HoS with nFreeFrames := dec32 p.nFreeFrames }
  (List.range' 1 (_n_frames - 1)).foldl
    (fun q i =>
      { q.set_state (start_frame + i) FrameState.Used with nFreeFrames := dec32 q.nFreeFrames })
    p1

/-- Method `ContFramePool::get_frames`: the returned frame number and the pool afterwards. -/
def get_frames (p : ContFramePool) (_n_frames : Nat) : Exec (Nat × ContFramePool) :=
  if _n_frames > p.nFreeFrames then Exec.ok (0, p)
  else
    match p.get_frames_search _n_frames with
    | Exec.ok (some start_frame) =>
      Exec.ok (p.base_frame_no + start_frame, p.mark_run start_frame _n_frames)
    | Exec.ok none => Exec.ok (0, p)
    | Exec.fatal => Exec.fatal
    | Exec.fault => Exec.fault
    | Exec.nofuel => Exec.nofuel

/-- Method `ContFramePool::mark_inaccessible`.  The caller passes a frame of the pool, so
`_base_frame_no - base_frame_no` does not wrap. -/
def mark_inaccessible (p : ContFramePool) (_base_frame_no _n_frames : Nat) : ContFramePool :=
  p.mark_run (_base_frame_no - p.base_frame_no) _n_frames

/-- The loop of `release_frame_within_pool`:
`while (cur_frame < nframes && get_state(cur_frame) == Used) { set_state(cur_frame, Free);
nFreeFrames++; cur_frame++; }`. -/
def release_loop : Nat → ContFramePool → Nat → Exec ContFramePool
  | 0, _, _ => Exec.nofuel
  | fuel + 1, p, cur_frame =>
    if cur_frame < p.nframes then
      match p.get_state cur_frame with
      | none => Exec.fatal
      | some FrameState.Used =>
        release_loop fuel
          { p.set_state cur_frame FrameState.Free with nFreeFrames := inc32 p.nFreeFrames }
          (cur_frame + 1)
      | some _ => Exec.ok p
    else Exec.ok p

/-- Method `ContFramePool::release_frame_within_pool`.  It is called with a frame number
not below `base_frame_no` (`release_frames` has tested that), so the subtraction does not
wrap.  A state other than HeadOfSequence fails the assertion. -/
def release_frame_within_pool (p : ContFramePool) (_first_frame_no : Nat) :
    Exec ContFramePool :=
  let cur_frame := _first_frame_no - p.base_frame_no
  match p.get_state cur_frame with
  | some FrameState.HoS =>
    release_loop (p.nframes + 1)
      { p.set_state cur_frame FrameState.Free with nFreeFrames := inc32 p.nFreeFrames }
      (cur_frame + 1)
  | _ => Exec.fatal

/-- Method `ContFramePool::needed_info_frames`. -/
def needed_info_frames (_n_frames : Nat) : Nat :=
  let frames_per_bitmap := 4096 * 8 / 2
  _n_frames / frames_per_bitmap + (if _n_frames % frames_per_bitmap > 0 then 1 else 0)

end ContFramePool

/-- The constructor's registry update: the new pool is linked behind the last pool of the
list that starts at `pool_head`. -/
def ContFramePool.register (registry : List ContFramePool) (p : ContFramePool) :
    List ContFramePool :=
  registry ++ [p]

/-- Method `ContFramePool::release_frames` (static): walk the registry from `pool_head` until the
range test lets a pool through, then release inside that pool.  Walking past the last pool
follows a null pointer. -/
def ContFramePool.release_frames : List ContFramePool → Nat → Exec (List ContFramePool)
  | [], _ => Exec.fatal
  | cur_pool :: rest, _first_frame_no =>
    if _first_frame_no < cur_pool.base_frame_no ∨
        _first_frame_no > cur_pool.base_frame_no + cur_pool.nframes then
      (ContFramePool.release_frames rest _first_frame_no).map (fun r => cur_pool :: r)
    else
      (cur_pool.release_frame_within_pool _first_frame_no).map (fun q => q :: rest)

/-! ## Auxiliary notions used in the statements -/

namespace ContFramePool

/-- The two-bit code of a state. -/
def stateCode : FrameState → Nat
  | FrameState.Free => 0
  | FrameState.Used => 1
  | FrameState.HoS => 2

/-- The state a two-bit code stands for. -/
def decodeState : Nat → Option FrameState
  | 0 => some FrameState.Free
  | 1 => some FrameState.Used
  | 2 => some FrameState.HoS
  | _ => none

/-- The two-bit field `k` of a byte, as `get_state` extracts it. -/
def fieldOf (byte k : Nat) : Nat :=
  (((byte % 256) >>> (k * 2)) % 256) &&& 3

/-- The byte written by `set_state` for field `k` and code `c`. -/
def setField (byte k c : Nat) : Nat :=
  ((byte % 256) &&& (255 - (3 <<< (k * 2)) % 256)) ^^^ ((c <<< (k * 2)) % 256)

/-- A run of `n` free frames inside the pool, starting at index `s`. -/
def FreeRun (p : ContFramePool) (n s : Nat) : Prop :=
  s + n ≤ p.nframes ∧ ∀ i, s ≤ i → i < s + n → p.get_state i = some FrameState.Free

/-- Every frame of the pool carries one of the three states (no `11` pattern). -/
def ValidStates (p : ContFramePool) : Prop :=
  ∀ i, i < p.nframes → p.get_state i ≠ none

/-- One pass of the marking loop of `mark_run`. -/
def markStep (s : Nat) (q : ContFramePool) (i : Nat) : ContFramePool :=
  { q.set_state (s + i) FrameState.Used with nFreeFrames := dec32 q.nFreeFrames }

/-- The number of frames of the pool whose state is Free. -/
def countFree (p : ContFramePool) : Nat :=
  Nat.count (fun i => p.get_state i = some FrameState.Free) p.nframes

/-- The pool states reachable from the construction of a pool by calls of `get_frames` and
releases of frames of the pool. -/
inductive Reachable (b n info : Nat) (mem : Nat → Nat) : ContFramePool → Prop
  | construct : Reachable b n info mem (ContFramePool.construct b n info mem)
  | get_frames (p p' : ContFramePool) (k r : Nat) :
      Reachable b n info mem p → p.get_frames k = Exec.ok (r, p') → Reachable b n info mem p'
  | release_frames (p p' : ContFramePool) (f : Nat) :
      Reachable b n info mem p → p.base_frame_no ≤ f → f < p.base_frame_no + p.nframes →
      p.release_frame_within_pool f = Exec.ok p' → Reachable b n info mem p'

/-- The pool states reachable from the construction of a pool by calls of `get_frames`, of
`mark_inaccessible` on a range of frames inside the pool, and by releases of frames of the
pool. -/
inductive ReachableMark (b n info : Nat) (mem : Nat → Nat) : ContFramePool → Prop
  | construct : ReachableMark b n info mem (ContFramePool.construct b n info mem)
  | get_frames (p p' : ContFramePool) (k r : Nat) :
      ReachableMark b n info mem p → p.get_frames k = Exec.ok (r, p') →
      ReachableMark b n info mem p'
  | mark_inaccessible (p : ContFramePool) (start k : Nat) :
      ReachableMark b n info mem p → p.base_frame_no ≤ start →
      start + k ≤ p.base_frame_no + p.nframes →
      ReachableMark b n info mem (p.mark_inaccessible start k)
  | release_frames (p p' : ContFramePool) (f : Nat) :
      ReachableMark b n info mem p → p.base_frame_no ≤ f → f < p.base_frame_no + p.nframes →
      p.release_frame_within_pool f = Exec.ok p' → ReachableMark b n info mem p'

/-- No Used frame of the pool is without a head: frame index 0 is not Used, and a Used
frame at an index `i > 0` directly follows a frame that is Used or HeadOfSequence. -/
def RunStructure (p : ContFramePool) : Prop :=
  (0 < p.nframes → p.get_state 0 ≠ some FrameState.Used) ∧
  ∀ i, 0 < i → i < p.nframes → p.get_state i = some FrameState.Used →
    p.get_state (i - 1) = some FrameState.Used ∨ p.get_state (i - 1) = some FrameState.HoS

/-- The pool states reachable from the construction of a pool by calls of `get_frames`, of
`mark_inaccessible(start, k)` with `k >= 1` on a range of Free frames of the pool, and by
releases of frames of the pool. -/
inductive ReachableMarkFree (b n info : Nat) (mem : Nat → Nat) : ContFramePool → Prop
  | construct : ReachableMarkFree b n info mem (ContFramePool.construct b n info mem)
  | get_frames (p p' : ContFramePool) (k r : Nat) :
      ReachableMarkFree b n info mem p → p.get_frames k = Exec.ok (r, p') →
      ReachableMarkFree b n info mem p'
  | mark_inaccessible (p : ContFramePool) (start k : Nat) :
      ReachableMarkFree b n info mem p → p.base_frame_no ≤ start → 1 ≤ k →
      p.FreeRun k (start - p.base_frame_no) →
      ReachableMarkFree b n info mem (p.mark_inaccessible start k)
  | release_frames (p p' : ContFramePool) (f : Nat) :
      ReachableMarkFree b n info mem p → p.base_frame_no ≤ f →
      f < p.base_frame_no + p.nframes →
      p.release_frame_within_pool f = Exec.ok p' → ReachableMarkFree b n info mem p'

/-- Every cell of the bitmap memory holds a byte. -/
def Bytes (p : ContFramePool) : Prop :=
  ∀ m, p.bitmap m < 256

/-- A self-hosted pool of 8 frames at frame 0, on zeroed memory. -/
def pool8 : ContFramePool := construct 0 8 0 (fun _ => 0)

/-- The pool of the scenario: base 0, 1024 frames, info frame unset, on zeroed memory. -/
def pool1024 : ContFramePool := construct 0 1024 0 (fun _ => 0)

/-- A pool of 8 frames at frame 0 whose bitmap is kept outside the pool, in frame 9. -/
def poolZero : ContFramePool := construct 0 8 9 (fun _ => 0)

/-- A pool over the frames 1..7 whose bitmap is kept outside the pool, in frame 8, with all
seven frames taken by one allocation. -/
def poolFull : ContFramePool := (construct 1 7 8 (fun _ => 0)).mark_run 0 7

/-- A self-hosted pool over frames 0..3. -/
def poolLow : ContFramePool := construct 0 4 0 (fun _ => 0)

/-- A pool over frames 4..7, directly behind `poolLow`, whose bitmap is kept in frame 1. -/
def poolHigh : ContFramePool := construct 4 4 1 (fun _ => 0)

end ContFramePool

/-! ## VMPool -/

/-- Modelled from the spec: `Machine::PAGE_SIZE` (`machine.H` is not among the sources);
pages and frames are 4096 bytes. -/
def PAGE_SIZE : Nat := 4096

/-- The struct `AllocatedRegion`: one entry of the region array. -/
structure AllocatedRegion where
  base_address : Nat
  size : Nat
deriving DecidableEq, Repr

/-- The data members of a `VMPool` object that the allocator reads and writes.
`allocated_region_array i` is the array slot `allocated_region_array[i]` in the first page
of the window.  The `frame_pool` and `page_table` pointers are not part of the record: the
page table is passed to the one method that calls into it. -/
structure VMPool where
  base_address : Nat
  size : Nat
  allocated_region_array : Nat → AllocatedRegion
  total_regions : Nat

namespace VMPool

/-- The constructor `VMPool::VMPool`, without the registration with the page table (see
`PageTable.register_pool`).  `slots` is the content of the window's first page. -/
def construct (_base_address _size : Nat) (slots : Nat → AllocatedRegion) : VMPool :=
  { base_address := _base_address, size := _size, allocated_region_array := slots,
    total_regions := 0 }

/-- The value `(unsigned long) allocating_frames * PAGE_SIZE` with
`allocating_frames = (_size - 1) / PAGE_SIZE + 1`, in 32-bit arithmetic. -/
def allocating_size (_size : Nat) : Nat :=
  mul32 (sub32 _size 1 / PAGE_SIZE + 1) PAGE_SIZE

/-- The address just behind region `i`: `array[i].base_address + array[i].size`. -/
def region_end (vp : VMPool) (i : Nat) : Nat :=
  add32 (vp.allocated_region_array i).base_address (vp.allocated_region_array i).size

/-- The test of the scan in `allocate`:
`array[i].base_address - (array[i-1].base_address + array[i-1].size) >= allocating_size`. -/
def gap_fits (vp : VMPool) (asize i : Nat) : Bool :=
  decide (asize ≤ sub32 (vp.allocated_region_array i).base_address (vp.region_end (i - 1)))

/-- The scan `for (i = 1; i < total_regions; i++)` of `allocate`, left at the first `i`
whose test succeeds. -/
def find_gap (vp : VMPool) (asize : Nat) : Option Nat :=
  (List.range' 1 (vp.total_regions - 1)).find? (fun i => vp.gap_fits asize i)

/-- The shift `for (j = total_regions; j > i; j--) array[j] = array[j-1]`. -/
def shift_right (arr : Nat → AllocatedRegion) (i total : Nat) : Nat → AllocatedRegion :=
  (List.range' (i + 1) (total - i)).reverse.foldl
    (fun a j => Function.update a j (a (j - 1))) arr

/-- The end of `allocate`: `total_regions++; return array[total_regions-1].base_address`. -/
def allocate_finish (vp : VMPool) (arr : Nat → AllocatedRegion) : Nat × VMPool :=
  let total_regions := vp.total_regions + 1
  ((arr (total_regions - 1)).base_address,
    { vp with allocated_region_array := arr, total_regions := total_regions })

/-- Method `VMPool::allocate`: the returned address and the pool afterwards. -/
def allocate (vp : VMPool) (_size : Nat) : Nat × VMPool :=
  let asize := allocating_size _size
  if vp.total_regions = 0 then
    vp.allocate_finish (Function.update vp.allocated_region_array 0
      { base_address := add32 vp.base_address PAGE_SIZE, size := asize })
  else
    match vp.find_gap asize with
    | some i =>
      let arr := shift_right vp.allocated_region_array i vp.total_regions
      vp.allocate_finish (Function.update arr i
        { base_address := add32 (arr (i - 1)).base_address (arr (i - 1)).size, size := asize })
    | none =>
      if sub32 (add32 vp.base_address vp.size) (vp.region_end (vp.total_regions - 1)) < asize
      then (0, vp)
      else
        vp.allocate_finish (Function.update vp.allocated_region_array vp.total_regions
          { base_address := vp.region_end (vp.total_regions - 1), size := asize })

/-- The search of `release`: the first `i < total_regions` with
`array[i].base_address == _start_address`; `none` stands for `region_to_delete == -1`. -/
def find_region (vp : VMPool) (_start_address : Nat) : Option Nat :=
  (List.range vp.total_regions).find?
    (fun i => decide ((vp.allocated_region_array i).base_address = _start_address))

/-- The loop of `release` that calls `page_table->free_page(base + i * PAGE_SIZE)` for the
indices `i` given, in order.  `free_page` is the method of the page table object `pt`. -/
def free_pages {σ : Type} (free_page : σ → Nat → Exec σ) (base : Nat) : List Nat → σ → Exec σ
  | [], pt => Exec.ok pt
  | i :: rest, pt =>
    match free_page pt (add32 base (mul32 i PAGE_SIZE)) with
    | Exec.ok pt' => free_pages free_page base rest pt'
    | Exec.fatal => Exec.fatal
    | Exec.fault => Exec.fault
    | Exec.nofuel => Exec.nofuel

/-- The shift `for (i = region_to_delete; i < total_regions - 1; i++) array[i] = array[i+1]`. -/
def shift_left (arr : Nat → AllocatedRegion) (region_to_delete total : Nat) :
    Nat → AllocatedRegion :=
  (List.range' region_to_delete (total - 1 - region_to_delete)).foldl
    (fun a i => Function.update a i (a (i + 1))) arr

/-- Method `VMPool::release`, run against a page table object `pt` with method `free_page`. -/
def release {σ : Type} (free_page : σ → Nat → Exec σ) (vp : VMPool) (pt : σ)
    (_start_address : Nat) : Exec (VMPool × σ) :=
  match vp.find_region _start_address with
  | none => Exec.ok (vp, pt)
  | some region_to_delete =>
    let r := vp.allocated_region_array region_to_delete
    match free_pages free_page r.base_address (List.range (r.size / PAGE_SIZE)) pt with
    | Exec.ok pt' =>
      Exec.ok
        ({ vp with
            allocated_region_array :=
              shift_left vp.allocated_region_array region_to_delete vp.total_regions,
            total_regions := vp.total_regions - 1 }, pt')
    | Exec.fatal => Exec.fatal
    | Exec.fault => Exec.fault
    | Exec.nofuel => Exec.nofuel

/-- Method `VMPool::is_legitimate`. -/
def is_legitimate (vp : VMPool) (_address : Nat) : Bool :=
  if _address < vp.base_address ∨ _address ≥ add32 vp.base_address vp.size then false
  else true

/-- The region table: the first `total_regions` slots of the array, in order. -/
def regions (vp : VMPool) : List AllocatedRegion :=
  (List.range vp.total_regions).map vp.allocated_region_array

/-- A page table object that only records the addresses `free_page` is called with. -/
def recordPage (trace : List Nat) (page : Nat) : Exec (List Nat) :=
  Exec.ok (trace ++ [page])

/-- The region table is sorted, non-overlapping and inside a window that does not wrap,
and region bases are 32-bit addresses behind the start of the window. -/
def Sorted (vp : VMPool) : Prop :=
  vp.base_address + vp.size ≤ WORD ∧
  (∀ i, i < vp.total_regions →
    vp.base_address < (vp.allocated_region_array i).base_address ∧
    (vp.allocated_region_array i).base_address < WORD ∧
    (vp.allocated_region_array i).base_address + (vp.allocated_region_array i).size
      ≤ vp.base_address + vp.size) ∧
  (∀ i, i < vp.total_regions → 1 ≤ i →
    (vp.allocated_region_array (i - 1)).base_address +
      (vp.allocated_region_array (i - 1)).size
      ≤ (vp.allocated_region_array i).base_address)

/-- The number of bytes between the end of region `i - 1` and the start of region `i`. -/
def gap (vp : VMPool) (i : Nat) : Nat :=
  (vp.allocated_region_array i).base_address -
    ((vp.allocated_region_array (i - 1)).base_address +
      (vp.allocated_region_array (i - 1)).size)

/-- The number of bytes between the end of the last region and the end of the window. -/
def tail_gap (vp : VMPool) : Nat :=
  vp.base_address + vp.size -
    ((vp.allocated_region_array (vp.total_regions - 1)).base_address +
      (vp.allocated_region_array (vp.total_regions - 1)).size)

/-- An empty pool over the window `[0x40000000, 0x41000000)`. -/
def vmEmpty : VMPool := construct 0x40000000 0x1000000 (fun _ => ⟨0, 0⟩)

/-- The pool after two `allocate(4096)`: regions at `0x40001000` and `0x40002000`. -/
def vmTwo : VMPool := ((vmEmpty.allocate 4096).2.allocate 4096).2

/-- The pool after three `allocate(4096)`: regions at `0x40001000`, `0x40002000` and
`0x40003000`. -/
def vmThree : VMPool := (vmTwo.allocate 4096).2

/-- The pool `vmThree` after `release(0x40002000)`: a one page gap between its two regions. -/
def vmGap : VMPool :=
  { vmThree with
    allocated_region_array := shift_left vmThree.allocated_region_array 1 3,
    total_regions := 2 }

/-- The pool `vmTwo` after `release(0x40001000)`: one region at `0x40002000`, behind a free
page. -/
def vmLead : VMPool :=
  { vmTwo with
    allocated_region_array := shift_left vmTwo.allocated_region_array 0 2,
    total_regions := 1 }

/-- A pool over the two-page window `[0x40000000, 0x40002000)`: one page behind the
metadata page. -/
def vmSmall : VMPool := construct 0x40000000 0x2000 (fun _ => ⟨0, 0⟩)

/-- An empty pool over the window `[0xFFFF0000, 2^32)`, which ends at the top of the address
space. -/
def vmTop : VMPool := construct 0xFFFF0000 0x10000 (fun _ => ⟨0, 0⟩)

/-- The pool states reachable from the construction of a pool over the window `[B, B + S)`
by calls of `release` and of `allocate(size)` with `1 <= size <= 2^32 - 4096` (the sizes
whose rounding to whole pages is a 32-bit value), where a call of `allocate` on the empty
table is made only with a rounded size that fits behind the metadata page. -/
inductive ReachableFit (B S : Nat) (slots : Nat → AllocatedRegion) : VMPool → Prop
  | construct : ReachableFit B S slots (VMPool.construct B S slots)
  | allocate (vp : VMPool) (_size : Nat) :
      ReachableFit B S slots vp → 1 ≤ _size → _size ≤ WORD - 4096 →
      (vp.total_regions = 0 → PAGE_SIZE + allocating_size _size ≤ S) →
      ReachableFit B S slots (vp.allocate _size).2
  | release {σ : Type} (free_page : σ → Nat → Exec σ) (vp vp' : VMPool) (pt pt' : σ)
      (a : Nat) :
      ReachableFit B S slots vp → vp.release free_page pt a = Exec.ok (vp', pt') →
      ReachableFit B S slots vp'

end VMPool

/-! ## PageTable (the version with VM pools and the recursive self-map) -/

/-- The kernel state the page table code works on.  `mem a` is the 32-bit word stored at
the physical byte address `a`; `cr3` is the page directory base register; `page_directory`
is the member of that name of the `PageTable` object the methods are called on (for the
static handler of MP3, of `current_page_table`); `pools` is the frame pool registry in
registration order, and `kernel_mem_pool` and `process_mem_pool` the positions in it of the
pools the statics `PageTable::kernel_mem_pool` and `PageTable::process_mem_pool` point to;
`vm_pools` is the list that starts at `vm_pool_head`, in registration order (MP4 only).
The bitmap of a frame pool is carried by the pool object (`ContFramePool.bitmap`) and not
read from `mem`; the page table methods agree with the machine as long as no word they
write lies in a frame that holds the bitmap of a pool. -/
structure PagingState where
  mem : Nat → Nat
  cr3 : Nat
  page_directory : Nat
  pools : List ContFramePool
  kernel_mem_pool : Nat
  process_mem_pool : Nat
  vm_pools : List VMPool

namespace PageTable

/-- Modelled from the spec: the address translation done by the hardware (two levels, 1024
entries each, bit 0 of an entry = present, bits 12..31 = frame base; directory index =
`addr >> 22`, table index = `(addr >> 12) & 0x3FF`, offset = `addr & 0xFFF`).  `none` is a
page fault. -/
def translate (s : PagingState) (addr : Nat) : Option Nat :=
  let pde := s.mem (s.cr3 + 4 * (addr >>> 22))
  if pde &&& 1 = 0 then none
  else
    let pte := s.mem ((pde &&& 0xFFFFF000) + 4 * ((addr >>> 12) &&& 0x3FF))
    if pte &&& 1 = 0 then none
    else some ((pte &&& 0xFFFFF000) + (addr &&& 0xFFF))

/-- A read of the word at a virtual address while paging is on. -/
def vread (s : PagingState) (addr : Nat) : Exec Nat :=
  match translate s addr with
  | some pa => Exec.ok (s.mem pa)
  | none => Exec.fault

/-- A write of a word at a virtual address while paging is on. -/
def vwrite (s : PagingState) (addr w : Nat) : Exec PagingState :=
  match translate s addr with
  | some pa => Exec.ok { s with mem := Function.update s.mem pa w }
  | none => Exec.fault

/-- The call `process_mem_pool->get_frames(n)`; a pointer that names no pool of the
registry is a null pointer. -/
def process_get_frames (s : PagingState) (n : Nat) : Exec (Nat × PagingState) :=
  match s.pools.get? s.process_mem_pool with
  | none => Exec.fatal
  | some pool =>
    (pool.get_frames n).map
      (fun r => (r.1, { s with pools := s.pools.set s.process_mem_pool r.2 }))

/-- Method `PageTable::register_pool`: the pool is linked behind the last pool of the list. -/
def register_pool (s : PagingState) (_vm_pool : VMPool) : PagingState :=
  { s with vm_pools := s.vm_pools ++ [_vm_pool] }

/-- The pool search of `handle_fault`:
`while (curr_pool != NULL) { if (curr_pool->is_legitimate(a)) { found = true; break; }
curr_pool = curr_pool->next; }`.  Returns `found` and whether `curr_pool != NULL` holds
when the loop is left. -/
def search_pools : List VMPool → Nat → Bool × Bool
  | [], _ => (false, false)
  | curr_pool :: next, fault_address =>
    if curr_pool.is_legitimate fault_address then (true, true)
    else search_pools next fault_address

/-- The loop `for (i = 0; i < 1024; i++) PT_recursive_addr[i] = 0 | 2` of `handle_fault`,
over the indices given. -/
def init_table (PT_recursive_addr : Nat) : List Nat → PagingState → Exec PagingState
  | [], s => Exec.ok s
  | i :: rest, s =>
    (vwrite s (PT_recursive_addr + 4 * i) (0 ||| 2)).bind (init_table PT_recursive_addr rest)

/-- Method `PageTable::handle_fault`, with `fault_address` the content of CR2. -/
def handle_fault (s : PagingState) (fault_address : Nat) : Exec PagingState :=
  let page_directory_index := fault_address >>> 22
  let page_table_index := (fault_address >>> 12) &&& 0x3FF
  let PD_recursive_addr := 0xFFFFF000
  let PT_recursive_addr := 0xFFC00000 ||| (page_directory_index <<< 12)
  let found := (search_pools s.vm_pools fault_address).1
  let curr_pool_not_null := (search_pools s.vm_pools fault_address).2
  if !found && curr_pool_not_null then Exec.fatal
  else
    (vread s (PD_recursive_addr + 4 * page_directory_index)).bind fun pde =>
      if pde &&& 1 = 0 then
        (process_get_frames s 1).bind fun r =>
          (vwrite r.2 (PD_recursive_addr + 4 * page_directory_index)
            (mul32 r.1 PAGE_SIZE ||| 3)).bind fun s2 =>
            init_table PT_recursive_addr (List.range 1024) s2
      else
        (process_get_frames s 1).bind fun r =>
          vwrite r.2 (PT_recursive_addr + 4 * page_table_index) (mul32 r.1 PAGE_SIZE ||| 3)

/-- One pass of the constructor's loop `page_table[i] = address | 3; address += PAGE_SIZE`,
on the memory and the variable `address`. -/
def identity_step (page_table : Nat) (st : (Nat → Nat) × Nat) (i : Nat) : (Nat → Nat) × Nat :=
  (Function.update st.1 (page_table + 4 * i) (st.2 ||| 3), add32 st.2 PAGE_SIZE)

/-- The constructor `PageTable::PageTable` of MP4.  Both frames come from the process pool.
The constructor runs before paging is enabled, so its pointers address physical memory. -/
def construct (s : PagingState) : Exec PagingState :=
  (process_get_frames s 1).bind fun r1 =>
    let page_directory := mul32 r1.1 PAGE_SIZE
    (process_get_frames r1.2 1).bind fun r2 =>
      let page_table := mul32 r2.1 PAGE_SIZE
      let mem1 := ((List.range 1024).foldl (identity_step page_table) (r2.2.mem, 0)).1
      let mem2 := Function.update mem1 (page_directory + 4 * 0) page_table
      let mem3 := Function.update mem2 (page_directory + 4 * 0)
        (mem2 (page_directory + 4 * 0) ||| 3)
      let mem4 := (List.range' 1 1023).foldl
        (fun m i => Function.update m (page_directory + 4 * i)
          (if i = 1023 then page_directory ||| 3 else 0 ||| 2)) mem3
      Exec.ok { r2.2 with mem := mem4, page_directory := page_directory }

/-- A state for examples, as left by the construction of a page table on the process pool
`pool8` and one earlier fault: frames 1, 2 and 3 are taken; the page directory lies at
`0x1000` and maps the identity table at `0x2000` at entry 0, a page table at `0x3000` at
entry 512 and itself at entry 1023; every other word is `2` (not present).  One VM pool,
with the window `[0x40000000, 0x41000000)`, is registered. -/
def exampleState : PagingState :=
  { mem := fun a =>
      if a = 0x1000 then 0x2000 ||| 3
      else if a = 0x1000 + 4 * 512 then 0x3000 ||| 3
      else if a = 0x1000 + 4 * 1023 then 0x1000 ||| 3
      else if 0x2000 ≤ a ∧ a < 0x3000 ∧ a % 4 = 0 then ((a - 0x2000) / 4 * 4096) ||| 3
      else 2,
    cr3 := 0x1000,
    page_directory := 0x1000,
    pools := [((ContFramePool.pool8.mark_run 1 1).mark_run 2 1).mark_run 3 1],
    kernel_mem_pool := 0,
    process_mem_pool := 0,
    vm_pools := [VMPool.vmEmpty] }

/-- Method `PageTable::load`: `current_page_table = this` and
`write_cr3(page_directory)`. -/
def load (s : PagingState) : PagingState :=
  { s with cr3 := s.page_directory }

/-- Method `PageTable::free_page`.  The static `release_frames` walks the registry of
frame pools. -/
def free_page (s : PagingState) (_page_no : Nat) : Exec PagingState :=
  let pd_index := _page_no >>> 22
  let pt_index := (_page_no >>> 12) &&& 0x3FF
  let PT_recursive_addr := 0xFFC00000 ||| (pd_index <<< 12)
  (vread s (PT_recursive_addr + 4 * pt_index)).bind fun pte =>
    if pte &&& 1 = 1 then
      (vread s (PT_recursive_addr + 4 * pt_index)).bind fun frame_word =>
        (ContFramePool.release_frames s.pools (frame_word / PAGE_SIZE)).bind fun pools' =>
          (vwrite { s with pools := pools' } (PT_recursive_addr + 4 * pt_index) 2).bind
            fun s2 => Exec.ok (load s2)
    else Exec.ok s

/-- The recursive self-map is in place: entry 1023 of the active page directory is
present and its frame base is the directory itself. -/
def SelfMapped (s : PagingState) : Prop :=
  s.mem (s.cr3 + 4 * 1023) &&& 1 ≠ 0 ∧ s.mem (s.cr3 + 4 * 1023) &&& 0xFFFFF000 = s.cr3

/-- The state `exampleState` with the VM pool window moved to `[0x80000000, 0x81000000)`,
inside the range of the present directory entry 512. -/
def exampleStateHigh : PagingState :=
  { exampleState with vm_pools := [VMPool.construct 0x80000000 0x1000000 (fun _ => ⟨0, 0⟩)] }

/-- The state `exampleStateHigh` with a process pool that has no free frame left: the pool
`poolFull` over the frames 1..7, which hold the directory and the page tables.  Its bitmap
lies in frame 8, at `0x8000`, where `mem` holds the two bitmap bytes `0x56` and `0x15`;
frame 0 belongs to no pool. -/
def exampleStateFull : PagingState :=
  { exampleStateHigh with
    mem := Function.update exampleStateHigh.mem 0x8000 0x1556,
    pools := [ContFramePool.poolFull] }

/-- The state `exampleStateHigh` after the fault at `0x80000000`: frame 4 is taken from the
process pool and mapped by entry 0 of the table at `0x3000`. -/
def exampleStateMapped : PagingState :=
  { exampleStateHigh with
    mem := Function.update exampleStateHigh.mem 0x3000 (0x4000 ||| 3),
    pools := [(((ContFramePool.pool8.mark_run 1 1).mark_run 2 1).mark_run 3 1).mark_run 4 1] }

/-- The page directory is well formed: the recursive self-map is in place, the page table
object is the loaded one (`page_directory` is the directory base register), and the
present directory entries below the self-map reference page tables that are not the
directory and that differ from each other. -/
def WellFormed (s : PagingState) : Prop :=
  SelfMapped s ∧ s.page_directory = s.cr3 ∧
  (∀ d, d < 1023 → s.mem (s.cr3 + 4 * d) &&& 1 ≠ 0 →
    s.mem (s.cr3 + 4 * d) &&& 0xFFFFF000 ≠ s.cr3) ∧
  (∀ d e, d < 1023 → e < 1023 → d ≠ e → s.mem (s.cr3 + 4 * d) &&& 1 ≠ 0 →
    s.mem (s.cr3 + 4 * e) &&& 1 ≠ 0 →
    s.mem (s.cr3 + 4 * d) &&& 0xFFFFF000 ≠ s.mem (s.cr3 + 4 * e) &&& 0xFFFFF000)

/-- Frame `f` holds neither the page directory nor a page table that a present directory
entry below the self-map references. -/
def FreshFrame (s : PagingState) (f : Nat) : Prop :=
  mul32 f PAGE_SIZE ≠ s.cr3 ∧
  ∀ d, d < 1023 → s.mem (s.cr3 + 4 * d) &&& 1 ≠ 0 →
    s.mem (s.cr3 + 4 * d) &&& 0xFFFFF000 ≠ mul32 f PAGE_SIZE

/-- The states that the page table methods reach from `s` without `free_page` being called
for the page of `addr`: by `handle_fault` for an address that faults, while the frames the
process pool hands out hold neither the directory nor a page table in use; by `free_page`
for another page below the window of the recursive self-map; by `load`; and by
`register_pool`. -/
inductive LaterState (addr : Nat) (s : PagingState) : PagingState → Prop where
  | refl : LaterState addr s s
  | fault (u u' : PagingState) (a : Nat) : LaterState addr s u → a < WORD →
      translate u a = none →
      (∀ pool f pool', u.pools.get? u.process_mem_pool = some pool →
        pool.get_frames 1 = Exec.ok (f, pool') → FreshFrame u f) →
      handle_fault u a = Exec.ok u' → LaterState addr s u'
  | free (u u' : PagingState) (a : Nat) : LaterState addr s u → a < 0xFFC00000 →
      (a >>> 22 ≠ addr >>> 22 ∨ (a >>> 12) &&& 0x3FF ≠ (addr >>> 12) &&& 0x3FF) →
      free_page u a = Exec.ok u' → LaterState addr s u'
  | load (u : PagingState) : LaterState addr s u → LaterState addr s (load u)
  | register (u : PagingState) (vm_pool : VMPool) : LaterState addr s u →
      LaterState addr s (register_pool u vm_pool)

end PageTable

/-! ## PageTable (MP3)

The fault handler of MP3 reaches the page directory and the page tables through ordinary
pointers: the words are read and written at the virtual addresses that equal their physical
addresses, and the tables come from the kernel pool. -/

namespace PageTableMP3

open PageTable

/-- The call `kernel_mem_pool->get_frames(n)`; a pointer that names no pool of the registry
is a null pointer. -/
def kernel_get_frames (s : PagingState) (n : Nat) : Exec (Nat × PagingState) :=
  match s.pools.get? s.kernel_mem_pool with
  | none => Exec.fatal
  | some pool =>
    (pool.get_frames n).map
      (fun r => (r.1, { s with pools := s.pools.set s.kernel_mem_pool r.2 }))

/-- The loop `for (i = 0; i < 1024; i++) new_page_table[i] = 0 | 2` of `handle_fault`, over
the indices given. -/
def init_table (new_page_table : Nat) : List Nat → PagingState → Exec PagingState
  | [], s => Exec.ok s
  | i :: rest, s =>
    (vwrite s (new_page_table + 4 * i) (0 ||| 2)).bind (init_table new_page_table rest)

/-- Method `PageTable::handle_fault` of MP3, with `fault_address` the content of CR2. -/
def handle_fault (s : PagingState) (fault_address : Nat) : Exec PagingState :=
  let page_directory_index := fault_address >>> 22
  let page_table_index := (fault_address >>> 12) &&& 0x3FF
  (vread s (s.page_directory + 4 * page_directory_index)).bind fun w =>
    let page_table := w &&& 0xFFFFF000
    (vread s (s.page_directory + 4 * page_directory_index)).bind fun pde =>
      if pde &&& 1 = 0 then
        (kernel_get_frames s 1).bind fun r =>
          let new_page_table := mul32 r.1 PAGE_SIZE
          (vwrite r.2 (r.2.page_directory + 4 * page_directory_index)
            new_page_table).bind fun s2 =>
            (vread s2 (s2.page_directory + 4 * page_directory_index)).bind fun w2 =>
              (vwrite s2 (s2.page_directory + 4 * page_directory_index)
                (w2 ||| 3)).bind fun s3 =>
                init_table new_page_table (List.range 1024) s3
      else
        (process_get_frames s 1).bind fun r =>
          vwrite r.2 (page_table + 4 * page_table_index) (mul32 r.1 PAGE_SIZE ||| 3)

/-- The constructor `PageTable::PageTable` of MP3.  Both frames come from the kernel pool.
The constructor runs before paging is enabled, so its pointers address physical memory. -/
def construct (s : PagingState) : Exec PagingState :=
  (kernel_get_frames s 1).bind fun r1 =>
    let page_directory := mul32 r1.1 PAGE_SIZE
    (kernel_get_frames r1.2 1).bind fun r2 =>
      let page_table := mul32 r2.1 PAGE_SIZE
      let mem1 := ((List.range 1024).foldl (identity_step page_table) (r2.2.mem, 0)).1
      let mem2 := Function.update mem1 (page_directory + 4 * 0) page_table
      let mem3 := Function.update mem2 (page_directory + 4 * 0)
        (mem2 (page_directory + 4 * 0) ||| 3)
      let mem4 := (List.range' 1 1023).foldl
        (fun m i => Function.update m (page_directory + 4 * i) (0 ||| 2)) mem3
      Exec.ok { r2.2 with mem := mem4, page_directory := page_directory }

end PageTableMP3

/-! # Properties -/

/-! ## The packed two-bit states -/

namespace ContFramePool

set_option maxRecDepth 100000 in
theorem fieldOf_setField_small : ∀ b, b < 256 → ∀ k, k < 4 → ∀ j, j < 4 → ∀ c, c < 3 →
    fieldOf (setField b k c) j = if k = j then c else fieldOf b j := by
  decide

theorem fieldOf_setField (b k j c : Nat) (hk : k < 4) (hj : j < 4) (hc : c < 3) :
    fieldOf (setField b k c) j = if k = j then c else fieldOf b j := by
  have h := fieldOf_setField_small (b % 256) (Nat.mod_lt _ (by norm_num)) k hk j hj c hc
  simpa [fieldOf, setField, Nat.mod_mod] using h

theorem stateCode_lt (s : FrameState) : stateCode s < 3 := by
  cases s <;> decide

theorem decodeState_stateCode (s : FrameState) : decodeState (stateCode s) = some s := by
  cases s <;> rfl

theorem get_state_eq (p : ContFramePool) (i : Nat) :
    p.get_state i = decodeState (fieldOf (p.bitmap (i / 4)) (i % 4)) := rfl

theorem set_state_bitmap (p : ContFramePool) (i : Nat) (s : FrameState) :
    (p.set_state i s).bitmap =
      Function.update p.bitmap (i / 4) (setField (p.bitmap (i / 4)) (i % 4) (stateCode s)) := by
  cases s <;> rfl

@[simp] theorem set_state_base (p : ContFramePool) (i : Nat) (s : FrameState) :
    (p.set_state i s).base_frame_no = p.base_frame_no := rfl

@[simp] theorem set_state_nframes (p : ContFramePool) (i : Nat) (s : FrameState) :
    (p.set_state i s).nframes = p.nframes := rfl

@[simp] theorem set_state_nFreeFrames (p : ContFramePool) (i : Nat) (s : FrameState) :
    (p.set_state i s).nFreeFrames = p.nFreeFrames := rfl

@[simp] theorem set_state_info (p : ContFramePool) (i : Nat) (s : FrameState) :
    (p.set_state i s).info_frame_no = p.info_frame_no := rfl

/-- Reading a frame only looks at the bitmap. -/
theorem get_state_congr (p q : ContFramePool) (h : p.bitmap = q.bitmap) (i : Nat) :
    p.get_state i = q.get_state i := by
  rw [get_state_eq, get_state_eq, h]

theorem get_state_set_state_same (p : ContFramePool) (i : Nat) (s : FrameState) :
    (p.set_state i s).get_state i = some s := by
  rw [get_state_eq, set_state_bitmap, Function.update_same,
    fieldOf_setField _ _ _ _ (Nat.mod_lt _ (by norm_num)) (Nat.mod_lt _ (by norm_num))
      (stateCode_lt s), if_pos rfl, decodeState_stateCode]

theorem get_state_set_state_ne (p : ContFramePool) (i j : Nat) (s : FrameState) (h : j ≠ i) :
    (p.set_state i s).get_state j = p.get_state j := by
  rw [get_state_eq, get_state_eq, set_state_bitmap]
  by_cases hb : j / 4 = i / 4
  · rw [hb, Function.update_same,
      fieldOf_setField _ _ _ _ (Nat.mod_lt _ (by norm_num)) (Nat.mod_lt _ (by norm_num))
        (stateCode_lt s)]
    have hne : ¬ (i % 4 = j % 4) := by omega
    rw [if_neg hne]
  · rw [Function.update_noteq hb]

theorem get_state_set_state (p : ContFramePool) (i j : Nat) (s : FrameState) :
    (p.set_state i s).get_state j = if j = i then some s else p.get_state j := by
  by_cases h : j = i
  · subst h; simp [get_state_set_state_same]
  · simp [h, get_state_set_state_ne]

/-- Changing the counter does not change any frame state. -/
@[simp] theorem get_state_with_nFree (p : ContFramePool) (k i : Nat) :
    ({ p with nFreeFrames := k } : ContFramePool).get_state i = p.get_state i := rfl

/-! ## The search loops of `get_frames` -/


theorem get_frames_inner_true (p : ContFramePool) (n : Nat) :
    ∀ fuel cur count c, p.get_frames_inner n fuel cur count = Exec.ok (c, true) →
      cur ≤ c ∧ c < p.nframes ∧
      (∀ i, cur ≤ i → i ≤ c → p.get_state i = some FrameState.Free) ∧
      count + (c - cur) + 1 = n := by
  intro fuel
  induction fuel with
  | zero => intro cur count c h; simp [get_frames_inner] at h
  | succ fuel ih =>
    intro cur count c h
    rw [get_frames_inner] at h
    split at h
    · rename_i hlt
      split at h
      · cases h
      · rename_i hfree
        split at h
        · rename_i hcnt
          cases h
          refine ⟨le_refl _, hlt, ?_, by omega⟩
          intro i h1 h2
          have : i = cur := by omega
          subst this; exact hfree
        · obtain ⟨h1, h2, h3, h4⟩ := ih _ _ _ h
          refine ⟨by omega, h2, ?_, by omega⟩
          intro i hi1 hi2
          by_cases hic : i = cur
          · subst hic; exact hfree
          · exact h3 i (by omega) hi2
      · cases h
    · cases h

theorem get_frames_inner_false (p : ContFramePool) (n : Nat) :
    ∀ fuel cur count c, p.get_frames_inner n fuel cur count = Exec.ok (c, false) →
      cur ≤ c ∧
      (∀ i, cur ≤ i → i < c → p.get_state i = some FrameState.Free) ∧
      (c < p.nframes → p.get_state c ≠ some FrameState.Free) ∧
      (count < n → count + (c - cur) < n) := by
  intro fuel
  induction fuel with
  | zero => intro cur count c h; simp [get_frames_inner] at h
  | succ fuel ih =>
    intro cur count c h
    rw [get_frames_inner] at h
    split at h
    · rename_i hlt
      split at h
      · cases h
      · rename_i hfree
        split at h
        · cases h
        · rename_i hcnt
          obtain ⟨h1, h2, h3, h4⟩ := ih _ _ _ h
          refine ⟨by omega, ?_, h3, by omega⟩
          intro i hi1 hi2
          by_cases hic : i = cur
          · subst hic; exact hfree
          · exact h2 i (by omega) hi2
      · rename_i st hne hst
        cases h
        refine ⟨le_refl _, ?_, ?_, by omega⟩
        · intro i h1 h2; omega
        · intro _ hf
          rw [hst] at hf
          cases hf
          exact hne rfl
    · rename_i hge
      cases h
      refine ⟨le_refl _, ?_, ?_, by omega⟩
      · intro i h1 h2; omega
      · intro h; exact absurd h hge

theorem get_frames_inner_total (p : ContFramePool) (n : Nat) (hv : p.ValidStates) :
    ∀ fuel cur count, 0 < fuel → p.nframes < fuel + cur →
      ∃ c b, p.get_frames_inner n fuel cur count = Exec.ok (c, b) := by
  intro fuel
  induction fuel with
  | zero =>
    intro cur count h0
    exact absurd h0 (by omega)
  | succ fuel ih =>
    intro cur count _ h
    rw [get_frames_inner]
    split
    · rename_i hlt
      split
      · rename_i hnone
        exact absurd hnone (hv cur hlt)
      · split
        · exact ⟨_, _, rfl⟩
        · exact ih _ _ (by omega) (by omega)
      · exact ⟨_, _, rfl⟩
    · exact ⟨_, _, rfl⟩


theorem get_frames_outer_some (p : ContFramePool) (n : Nat) (hn : 1 ≤ n) :
    ∀ fuel start s, p.get_frames_outer n fuel start = Exec.ok (some s) →
      start ≤ s ∧ p.FreeRun n s ∧ ∀ t, start ≤ t → t < s → ¬ p.FreeRun n t := by
  intro fuel
  induction fuel with
  | zero => intro start s h; simp [get_frames_outer] at h
  | succ fuel ih =>
    intro start s h
    rw [get_frames_outer] at h
    split at h
    · split at h
      · rename_i c hin
        cases h
        obtain ⟨h1, h2, h3, h4⟩ := p.get_frames_inner_true n _ _ _ _ hin
        refine ⟨le_refl _, ⟨by omega, ?_⟩, ?_⟩
        · intro i hi1 hi2
          exact h3 i hi1 (by omega)
        · intro t ht1 ht2; omega
      · rename_i c hin
        obtain ⟨h1, h2, h3, h4⟩ := p.get_frames_inner_false n _ _ _ _ hin
        obtain ⟨g1, g2, g3⟩ := ih _ _ h
        refine ⟨by omega, g2, ?_⟩
        intro t ht1 ht2
        by_cases htc : t ≤ c
        · intro hrun
          have hc : c < t + n := by have := h4 (by omega); omega
          have hcn : c < p.nframes := by have := hrun.1; omega
          exact h3 hcn (hrun.2 c htc hc)
        · exact g3 t (by omega) ht2
      · cases h
      · cases h
      · cases h
    · cases h

theorem get_frames_outer_none (p : ContFramePool) (n : Nat) (hn : 1 ≤ n) :
    ∀ fuel start, p.get_frames_outer n fuel start = Exec.ok none →
      ∀ t, start ≤ t → ¬ p.FreeRun n t := by
  intro fuel
  induction fuel with
  | zero => intro start h; simp [get_frames_outer] at h
  | succ fuel ih =>
    intro start h
    rw [get_frames_outer] at h
    split at h
    · split at h
      · cases h
      · rename_i c hin
        obtain ⟨h1, h2, h3, h4⟩ := p.get_frames_inner_false n _ _ _ _ hin
        have g := ih _ h
        intro t ht1
        by_cases htc : t ≤ c
        · intro hrun
          have hc : c < t + n := by have := h4 (by omega); omega
          have hcn : c < p.nframes := by have := hrun.1; omega
          exact h3 hcn (hrun.2 c htc hc)
        · exact g t (by omega)
      · cases h
      · cases h
      · cases h
    · rename_i hgt
      intro t ht hrun
      have := hrun.1
      omega

theorem get_frames_outer_total (p : ContFramePool) (n : Nat) (hv : p.ValidStates) :
    ∀ fuel start, p.nframes + 2 ≤ fuel + start → 0 < fuel →
      ∃ r, p.get_frames_outer n fuel start = Exec.ok r := by
  intro fuel
  induction fuel with
  | zero => intro start _ h0; exact absurd h0 (by omega)
  | succ fuel ih =>
    intro start h _
    rw [get_frames_outer]
    split
    · rename_i hle
      obtain ⟨c, b, hin⟩ := p.get_frames_inner_total n hv (p.nframes + 1) start 0 (by omega)
        (by omega)
      rw [hin]
      cases b
      · have hc := (p.get_frames_inner_false n _ _ _ _ hin).1
        exact ih _ (by omega) (by omega)
      · exact ⟨_, rfl⟩
    · exact ⟨_, rfl⟩

/-! ## The marking loop -/


theorem dec32_of_pos (x : Nat) (h0 : 0 < x) (hx : x < WORD) : dec32 x = x - 1 := by
  unfold dec32 WORD at *
  omega

theorem inc32_of_lt (x : Nat) (hx : x + 1 < WORD) : inc32 x = x + 1 := by
  unfold inc32 WORD at *
  omega

theorem mark_fold (s : Nat) : ∀ m (q : ContFramePool),
    ((List.range' 1 m).foldl (markStep s) q).base_frame_no = q.base_frame_no ∧
    ((List.range' 1 m).foldl (markStep s) q).nframes = q.nframes ∧
    ((List.range' 1 m).foldl (markStep s) q).info_frame_no = q.info_frame_no ∧
    (∀ i, ((List.range' 1 m).foldl (markStep s) q).get_state i =
      if s < i ∧ i ≤ s + m then some FrameState.Used else q.get_state i) ∧
    (m ≤ q.nFreeFrames → q.nFreeFrames < WORD →
      ((List.range' 1 m).foldl (markStep s) q).nFreeFrames = q.nFreeFrames - m) := by
  intro m
  induction m with
  | zero =>
    intro q
    refine ⟨rfl, rfl, rfl, ?_, ?_⟩
    · intro i
      have : ¬ (s < i ∧ i ≤ s + 0) := by omega
      rw [if_neg this]; rfl
    · intro _ _; simp
  | succ m ih =>
    intro q
    obtain ⟨h1, h2, h3, h4, h5⟩ := ih q
    have hcat : List.range' 1 (m + 1) = List.range' 1 m ++ [1 + m] := by
      have h := @List.range'_concat 1 1 m
      rwa [one_mul] at h
    rw [hcat, List.foldl_append]
    simp only [List.foldl_cons, List.foldl_nil]
    refine ⟨h1, h2, h3, ?_, ?_⟩
    · intro i
      show (((List.range' 1 m).foldl (markStep s) q).set_state (s + (1 + m))
        FrameState.Used).get_state i = _
      rw [get_state_set_state, h4]
      by_cases hi : i = s + (1 + m)
      · have : s < i ∧ i ≤ s + (m + 1) := by omega
        rw [if_pos hi, if_pos this]
      · by_cases hr : s < i ∧ i ≤ s + m
        · have : s < i ∧ i ≤ s + (m + 1) := by omega
          rw [if_neg hi, if_pos hr, if_pos this]
        · have : ¬ (s < i ∧ i ≤ s + (m + 1)) := by omega
          rw [if_neg hi, if_neg hr, if_neg this]
    · intro hm hw
      show dec32 ((List.range' 1 m).foldl (markStep s) q).nFreeFrames = _
      rw [h5 (by omega) hw, dec32_of_pos _ (by omega) (by omega)]
      omega

theorem mark_run_eq (p : ContFramePool) (s n : Nat) :
    p.mark_run s n = (List.range' 1 (n - 1)).foldl (markStep s)
      { p.set_state s FrameState.HoS with nFreeFrames := dec32 p.nFreeFrames } := rfl

theorem mark_run_get_state (p : ContFramePool) (s n i : Nat) :
    (p.mark_run s n).get_state i =
      if i = s then some FrameState.HoS
      else if s < i ∧ i < s + n then some FrameState.Used else p.get_state i := by
  rw [mark_run_eq, (mark_fold s (n - 1) _).2.2.2.1 i]
  have e : ({ p.set_state s FrameState.HoS with nFreeFrames := dec32 p.nFreeFrames } :
      ContFramePool).get_state i = (p.set_state s FrameState.HoS).get_state i :=
    rfl
  rw [e]
  by_cases hi : i = s
  · subst hi
    have : ¬ (i < i ∧ i ≤ i + (n - 1)) := by omega
    rw [if_neg this, if_pos rfl, get_state_set_state_same]
  · by_cases hr : s < i ∧ i < s + n
    · have : s < i ∧ i ≤ s + (n - 1) := by omega
      rw [if_pos this, if_neg hi, if_pos hr]
    · have : ¬ (s < i ∧ i ≤ s + (n - 1)) := by omega
      rw [if_neg this, if_neg hi, if_neg hr, get_state_set_state_ne _ _ _ _ hi]

theorem mark_run_nFreeFrames (p : ContFramePool) (s n : Nat) (hn : 1 ≤ n)
    (hle : n ≤ p.nFreeFrames) (hw : p.nFreeFrames < WORD) :
    (p.mark_run s n).nFreeFrames = p.nFreeFrames - n := by
  rw [mark_run_eq, (mark_fold s (n - 1) _).2.2.2.2]
  · show dec32 p.nFreeFrames - (n - 1) = _
    rw [dec32_of_pos _ (by omega) hw]; omega
  · show n - 1 ≤ dec32 p.nFreeFrames
    rw [dec32_of_pos _ (by omega) hw]; omega
  · show dec32 p.nFreeFrames < WORD
    rw [dec32_of_pos _ (by omega) hw]; omega

@[simp] theorem mark_run_base (p : ContFramePool) (s n : Nat) :
    (p.mark_run s n).base_frame_no = p.base_frame_no := by
  rw [mark_run_eq, (mark_fold s (n - 1) _).1]; rfl

@[simp] theorem mark_run_nframes (p : ContFramePool) (s n : Nat) :
    (p.mark_run s n).nframes = p.nframes := by
  rw [mark_run_eq, (mark_fold s (n - 1) _).2.1]; rfl

@[simp] theorem mark_run_info (p : ContFramePool) (s n : Nat) :
    (p.mark_run s n).info_frame_no = p.info_frame_no := by
  rw [mark_run_eq, (mark_fold s (n - 1) _).2.2.1]; rfl

/-! ## `get_frames` -/

theorem get_frames_of_search_some (p : ContFramePool) (n s : Nat) (hle : n ≤ p.nFreeFrames)
    (h : p.get_frames_search n = Exec.ok (some s)) :
    p.get_frames n = Exec.ok (p.base_frame_no + s, p.mark_run s n) := by
  unfold get_frames
  rw [if_neg (by omega), h]

theorem get_frames_of_search_none (p : ContFramePool) (n : Nat)
    (h : p.get_frames_search n = Exec.ok none) :
    p.get_frames n = Exec.ok (0, p) := by
  unfold get_frames
  split
  · rfl
  · rw [h]

theorem get_frames_of_guard (p : ContFramePool) (n : Nat) (h : p.nFreeFrames < n) :
    p.get_frames n = Exec.ok (0, p) := by
  unfold get_frames
  rw [if_pos h]

theorem get_frames_search_some_spec (p : ContFramePool) (n s : Nat) (hn : 1 ≤ n)
    (h : p.get_frames_search n = Exec.ok (some s)) :
    p.FreeRun n s ∧ ∀ t, t < s → ¬ p.FreeRun n t := by
  obtain ⟨_, h2, h3⟩ := p.get_frames_outer_some n hn _ _ _ h
  exact ⟨h2, fun t ht => h3 t (Nat.zero_le _) ht⟩

theorem get_frames_search_none_spec (p : ContFramePool) (n : Nat) (hn : 1 ≤ n)
    (h : p.get_frames_search n = Exec.ok none) :
    ∀ t, ¬ p.FreeRun n t :=
  fun t => p.get_frames_outer_none n hn _ _ h t (Nat.zero_le _)

theorem get_frames_search_total (p : ContFramePool) (n : Nat) (hv : p.ValidStates) :
    ∃ r, p.get_frames_search n = Exec.ok r :=
  p.get_frames_outer_total n hv (p.nframes + 2) 0 (by omega) (by omega)

theorem get_frames_search_eq_some (p : ContFramePool) (n s : Nat) (hn : 1 ≤ n)
    (hv : p.ValidStates) (hrun : p.FreeRun n s) (hmin : ∀ t, t < s → ¬ p.FreeRun n t) :
    p.get_frames_search n = Exec.ok (some s) := by
  obtain ⟨r, hr⟩ := p.get_frames_search_total n hv
  cases r with
  | none => exact absurd hrun (p.get_frames_search_none_spec n hn hr s)
  | some s' =>
    obtain ⟨h1, h2⟩ := p.get_frames_search_some_spec n s' hn hr
    have : s' = s := by
      rcases Nat.lt_trichotomy s' s with hlt | heq | hgt
      · exact absurd h1 (hmin s' hlt)
      · exact heq
      · exact absurd hrun (h2 s hgt)
    rw [hr, this]

theorem get_frames_search_eq_none (p : ContFramePool) (n : Nat) (hn : 1 ≤ n)
    (hv : p.ValidStates) (hno : ∀ t, ¬ p.FreeRun n t) :
    p.get_frames_search n = Exec.ok none := by
  obtain ⟨r, hr⟩ := p.get_frames_search_total n hv
  cases r with
  | none => exact hr
  | some s' => exact absurd (p.get_frames_search_some_spec n s' hn hr).1 (hno s')

theorem get_frames_outer_some_pos (p : ContFramePool) (n : Nat) :
    ∀ fuel start s, p.get_frames_outer n fuel start = Exec.ok (some s) → 1 ≤ n := by
  intro fuel
  induction fuel with
  | zero => intro start s h; simp [get_frames_outer] at h
  | succ fuel ih =>
    intro start s h
    rw [get_frames_outer] at h
    split at h
    · split at h
      · rename_i c hin
        have := (p.get_frames_inner_true n _ _ _ _ hin).2.2.2
        omega
      · exact ih _ _ h
      · cases h
      · cases h
      · cases h
    · cases h

/-- What a returning `get_frames` has done: nothing, with result 0, or the marking of a
free run. -/
theorem get_frames_ok_cases (p p' : ContFramePool) (n r : Nat)
    (h : p.get_frames n = Exec.ok (r, p')) :
    (r = 0 ∧ p' = p) ∨
    ∃ s, 1 ≤ n ∧ n ≤ p.nFreeFrames ∧ p.FreeRun n s ∧ p' = p.mark_run s n ∧
      r = p.base_frame_no + s := by
  unfold get_frames at h
  split at h
  · cases h; exact Or.inl ⟨rfl, rfl⟩
  · rename_i hle
    split at h
    · rename_i s hs
      cases h
      have hn : 1 ≤ n := p.get_frames_outer_some_pos n _ _ _ hs
      exact Or.inr ⟨s, hn, by omega, (p.get_frames_search_some_spec n s hn hs).1, rfl, rfl⟩
    · cases h; exact Or.inl ⟨rfl, rfl⟩
    · cases h
    · cases h
    · cases h

/-- C1. When `get_frames(n)`, `n >= 1`, succeeds, i.e. returns anything but the failure
result (0 with the pool untouched), the returned frame is `base_frame_no + s` for a start
index `s` such that: the run `s .. s+n-1` lies inside the pool and was entirely Free before
the call; afterwards frame `s` is HeadOfSequence, frames `s+1 .. s+n-1` are Used, every
other frame keeps its state, and `nFreeFrames` has gone down by exactly `n`. -/
theorem get_frames_success (p p' : ContFramePool) (n r : Nat) (hn : 1 ≤ n)
    (hw : p.nFreeFrames < WORD) (h : p.get_frames n = Exec.ok (r, p'))
    (hsucc : (r, p') ≠ (0, p)) :
    ∃ s, r = p.base_frame_no + s ∧
      s + n ≤ p.nframes ∧
      (∀ i, s ≤ i → i < s + n → p.get_state i = some FrameState.Free) ∧
      p'.get_state s = some FrameState.HoS ∧
      (∀ i, s < i → i < s + n → p'.get_state i = some FrameState.Used) ∧
      (∀ i, (i < s ∨ s + n ≤ i) → p'.get_state i = p.get_state i) ∧
      p'.nFreeFrames + n = p.nFreeFrames ∧
      p'.base_frame_no = p.base_frame_no ∧ p'.nframes = p.nframes := by
  rcases get_frames_ok_cases p p' n r h with ⟨h0, hp⟩ | ⟨s, _, hle, hrun, hp, hr⟩
  · exact absurd (by rw [h0, hp]) hsucc
  · subst hp
    refine ⟨s, hr, hrun.1, hrun.2, ?_, ?_, ?_, ?_, p.mark_run_base s n, p.mark_run_nframes s n⟩
    · rw [mark_run_get_state, if_pos rfl]
    · intro i h1 h2
      rw [mark_run_get_state, if_neg (by omega), if_pos ⟨h1, h2⟩]
    · intro i hi
      rw [mark_run_get_state, if_neg (by omega), if_neg (by omega)]
    · rw [p.mark_run_nFreeFrames s n hn hle hw]; omega

/-- C2. First fit at the lowest address: when `1 <= n <= nFreeFrames`, every frame of the
pool carries a valid state and some run of `n` Free frames lies inside the pool,
`get_frames(n)` returns `base_frame_no + smin` for the smallest start `smin` of such a
run. -/
theorem get_frames_first_fit (p : ContFramePool) (n : Nat) (hn : 1 ≤ n)
    (hle : n ≤ p.nFreeFrames) (hv : p.ValidStates) (hex : ∃ s, p.FreeRun n s) :
    ∃ smin p', p.get_frames n = Exec.ok (p.base_frame_no + smin, p') ∧
      p.FreeRun n smin ∧ ∀ t, t < smin → ¬ p.FreeRun n t := by
  obtain ⟨r, hr⟩ := p.get_frames_search_total n hv
  cases r with
  | none =>
    obtain ⟨s, hs⟩ := hex
    exact absurd hs (p.get_frames_search_none_spec n hn hr s)
  | some smin =>
    obtain ⟨h1, h2⟩ := p.get_frames_search_some_spec n smin hn hr
    exact ⟨smin, _, p.get_frames_of_search_some n smin hle hr, h1, h2⟩

/-- C3. Exhaustion is a recoverable sentinel: for `n >= 1`, when `n` exceeds `nFreeFrames`,
or when the frame states are valid and no `n` consecutive frames of the pool are all Free,
`get_frames(n)` returns 0 and leaves the pool (bitmap and `nFreeFrames`) as it was. -/
theorem get_frames_exhausted (p : ContFramePool) (n : Nat) (hn : 1 ≤ n)
    (h : p.nFreeFrames < n ∨ (p.ValidStates ∧ ∀ s, ¬ p.FreeRun n s)) :
    p.get_frames n = Exec.ok (0, p) := by
  rcases h with h | ⟨hv, hno⟩
  · exact p.get_frames_of_guard n h
  · exact p.get_frames_of_search_none n (p.get_frames_search_eq_none n hn hv hno)

/-! ## Construction -/

theorem mark_all_free_fold (p : ContFramePool) : ∀ m,
    ((List.range m).foldl (fun q fno => q.set_state fno FrameState.Free) p).base_frame_no
      = p.base_frame_no ∧
    ((List.range m).foldl (fun q fno => q.set_state fno FrameState.Free) p).nframes
      = p.nframes ∧
    ((List.range m).foldl (fun q fno => q.set_state fno FrameState.Free) p).nFreeFrames
      = p.nFreeFrames ∧
    ((List.range m).foldl (fun q fno => q.set_state fno FrameState.Free) p).info_frame_no
      = p.info_frame_no ∧
    ∀ i, ((List.range m).foldl (fun q fno => q.set_state fno FrameState.Free) p).get_state i
      = if i < m then some FrameState.Free else p.get_state i := by
  intro m
  induction m with
  | zero =>
    refine ⟨rfl, rfl, rfl, rfl, ?_⟩
    intro i
    rw [if_neg (by omega)]; rfl
  | succ m ih =>
    obtain ⟨h1, h2, h3, h4, h5⟩ := ih
    rw [List.range_succ, List.foldl_append]
    simp only [List.foldl_cons, List.foldl_nil]
    refine ⟨by rw [set_state_base, h1], by rw [set_state_nframes, h2],
      by rw [set_state_nFreeFrames, h3], by rw [set_state_info, h4], ?_⟩
    intro i
    rw [get_state_set_state, h5]
    by_cases hi : i = m
    · rw [if_pos hi, if_pos (by omega)]
    · by_cases hlt : i < m
      · rw [if_neg hi, if_pos hlt, if_pos (by omega)]
      · rw [if_neg hi, if_neg hlt, if_neg (by omega)]

theorem construct_self_hosted (b n : Nat) (mem : Nat → Nat) :
    (construct b n 0 mem).base_frame_no = b ∧
    (construct b n 0 mem).nframes = n ∧
    (construct b n 0 mem).nFreeFrames = dec32 n ∧
    (construct b n 0 mem).info_frame_no = 0 ∧
    ∀ i, i < n → (construct b n 0 mem).get_state i =
      if i = 0 then some FrameState.HoS else some FrameState.Free := by
  obtain ⟨h1, h2, h3, h4, h5⟩ := mark_all_free_fold
    { base_frame_no := b, nframes := n, nFreeFrames := n, info_frame_no := 0, bitmap := mem } n
  unfold construct mark_all_free
  simp only [if_true]
  refine ⟨h1, h2, by rw [h3], h4, ?_⟩
  intro i hi
  have e : ∀ (q : ContFramePool) (k : Nat),
      ({ q.set_state 0 FrameState.HoS with nFreeFrames := k } : ContFramePool).get_state i
        = (q.set_state 0 FrameState.HoS).get_state i := fun _ _ => rfl
  rw [e, get_state_set_state]
  by_cases h0 : i = 0
  · rw [if_pos h0, if_pos h0]
  · rw [if_neg h0, if_neg h0, h5, if_pos hi]

theorem construct_external (b n info : Nat) (mem : Nat → Nat) (hinfo : info ≠ 0) :
    (construct b n info mem).base_frame_no = b ∧
    (construct b n info mem).nframes = n ∧
    (construct b n info mem).nFreeFrames = n ∧
    (construct b n info mem).info_frame_no = info ∧
    ∀ i, i < n → (construct b n info mem).get_state i = some FrameState.Free := by
  obtain ⟨h1, h2, h3, h4, h5⟩ := mark_all_free_fold
    { base_frame_no := b, nframes := n, nFreeFrames := n, info_frame_no := info, bitmap := mem } n
  unfold construct mark_all_free
  simp only [if_neg hinfo]
  refine ⟨h1, h2, h3, h4, ?_⟩
  intro i hi
  rw [h5, if_pos hi]

theorem validStates_construct (b n info : Nat) (mem : Nat → Nat) :
    (construct b n info mem).ValidStates := by
  intro i hi
  by_cases hinfo : info = 0
  · subst hinfo
    obtain ⟨_, h2, _, _, h5⟩ := construct_self_hosted b n mem
    rw [h2] at hi
    rw [h5 i hi]
    split <;> simp
  · obtain ⟨_, h2, _, _, h5⟩ := construct_external b n info mem hinfo
    rw [h2] at hi
    rw [h5 i hi]
    simp

theorem validStates_set_state (p : ContFramePool) (hv : p.ValidStates) (j : Nat)
    (s : FrameState) : (p.set_state j s).ValidStates := by
  intro i hi
  rw [get_state_set_state]
  split
  · simp
  · exact hv i hi

theorem validStates_mark_run (p : ContFramePool) (hv : p.ValidStates) (s n : Nat) :
    (p.mark_run s n).ValidStates := by
  intro i hi
  rw [mark_run_get_state]
  rw [mark_run_nframes] at hi
  split
  · simp
  · split
    · simp
    · exact hv i hi

/-! ## Release -/

theorem inc32_iterate (k x : Nat) (h : x + k < WORD) : inc32^[k] x = x + k := by
  induction k generalizing x with
  | zero => rfl
  | succ k ih =>
    rw [Function.iterate_succ_apply, inc32_of_lt x (by omega), ih (x + 1) (by omega)]
    omega

theorem release_loop_spec : ∀ fuel (p : ContFramePool) (cur : Nat), 0 < fuel →
    p.nframes < fuel + cur → cur ≤ p.nframes → p.ValidStates →
    ∃ k p', release_loop fuel p cur = Exec.ok p' ∧
      cur + k ≤ p.nframes ∧
      (∀ i, cur ≤ i → i < cur + k → p.get_state i = some FrameState.Used) ∧
      (cur + k < p.nframes → p.get_state (cur + k) ≠ some FrameState.Used) ∧
      (∀ i, p'.get_state i =
        if cur ≤ i ∧ i < cur + k then some FrameState.Free else p.get_state i) ∧
      p'.nFreeFrames = inc32^[k] p.nFreeFrames ∧
      p'.nframes = p.nframes ∧ p'.base_frame_no = p.base_frame_no ∧
      p'.info_frame_no = p.info_frame_no := by
  intro fuel
  induction fuel with
  | zero => intro p cur h0; exact absurd h0 (by omega)
  | succ fuel ih =>
    intro p cur _ hfuel hcur hv
    rw [release_loop]
    by_cases hlt : cur < p.nframes
    · rw [if_pos hlt]
      cases hst : p.get_state cur with
      | none => exact absurd hst (hv cur hlt)
      | some st =>
        cases st with
        | Used =>
          simp only []
          obtain ⟨k, p', h1, h2, h3, h4, h5, h6, h7, h8, h9⟩ :=
            ih { p.set_state cur FrameState.Free with nFreeFrames := inc32 p.nFreeFrames }
              (cur + 1) (by omega) (by show p.nframes < fuel + (cur + 1); omega)
              (by show cur + 1 ≤ p.nframes; omega)
              (fun i hi => validStates_set_state p hv cur FrameState.Free i hi)
          have e : ∀ i, ({ p.set_state cur FrameState.Free with
              nFreeFrames := inc32 p.nFreeFrames } : ContFramePool).get_state i
                = if i = cur then some FrameState.Free else p.get_state i :=
            fun i => get_state_set_state p cur i FrameState.Free
          refine ⟨k + 1, p', h1, by have : cur + 1 + k ≤ p.nframes := h2
                                    omega, ?_, ?_, ?_, ?_, h7, h8, h9⟩
          · intro i hi1 hi2
            by_cases hic : i = cur
            · rw [hic]; exact hst
            · have := h3 i (by omega) (by omega)
              rw [e, if_neg hic] at this
              exact this
          · intro hlt2
            have := h4 (by show cur + 1 + k < p.nframes; omega)
            rw [e, if_neg (by omega)] at this
            rw [show cur + (k + 1) = cur + 1 + k by omega]
            exact this
          · intro i
            rw [h5 i, e]
            by_cases hic : i = cur
            · rw [if_neg (by omega), if_pos hic, if_pos (by omega)]
            · by_cases hr : cur + 1 ≤ i ∧ i < cur + 1 + k
              · rw [if_pos hr, if_pos (by omega)]
              · rw [if_neg hr, if_neg hic, if_neg (by omega)]
          · rw [h6, Function.iterate_succ_apply]
        | Free =>
          simp only []
          refine ⟨0, p, rfl, by omega, ?_, ?_, ?_, rfl, rfl, rfl, rfl⟩
          · intro i h1 h2; omega
          · intro _; rw [Nat.add_zero, hst]; simp
          · intro i; rw [if_neg (by omega)]
        | HoS =>
          simp only []
          refine ⟨0, p, rfl, by omega, ?_, ?_, ?_, rfl, rfl, rfl, rfl⟩
          · intro i h1 h2; omega
          · intro _; rw [Nat.add_zero, hst]; simp
          · intro i; rw [if_neg (by omega)]
    · rw [if_neg hlt]
      refine ⟨0, p, rfl, by omega, ?_, ?_, ?_, rfl, rfl, rfl, rfl⟩
      · intro i h1 h2; omega
      · intro h; omega
      · intro i; rw [if_neg (by omega)]


theorem release_frame_within_pool_not_head (p : ContFramePool) (f : Nat)
    (h : p.get_state (f - p.base_frame_no) ≠ some FrameState.HoS) :
    p.release_frame_within_pool f = Exec.fatal := by
  cases hst : p.get_state (f - p.base_frame_no) with
  | none => simp only [release_frame_within_pool, hst]
  | some st =>
    cases st with
    | Free => simp only [release_frame_within_pool, hst]
    | Used => simp only [release_frame_within_pool, hst]
    | HoS => exact absurd hst h

theorem release_frame_within_pool_head (p : ContFramePool) (f : Nat)
    (hf : f - p.base_frame_no < p.nframes) (hv : p.ValidStates)
    (h : p.get_state (f - p.base_frame_no) = some FrameState.HoS) :
    ∃ k p', p.release_frame_within_pool f = Exec.ok p' ∧ 1 ≤ k ∧
      (f - p.base_frame_no) + k ≤ p.nframes ∧
      (∀ i, f - p.base_frame_no < i → i < (f - p.base_frame_no) + k →
        p.get_state i = some FrameState.Used) ∧
      ((f - p.base_frame_no) + k < p.nframes →
        p.get_state ((f - p.base_frame_no) + k) ≠ some FrameState.Used) ∧
      (∀ i, p'.get_state i =
        if f - p.base_frame_no ≤ i ∧ i < (f - p.base_frame_no) + k then some FrameState.Free
        else p.get_state i) ∧
      p'.nFreeFrames = inc32^[k] p.nFreeFrames ∧
      p'.nframes = p.nframes ∧ p'.base_frame_no = p.base_frame_no ∧
      p'.info_frame_no = p.info_frame_no := by
  generalize hc : f - p.base_frame_no = c at hf h
  obtain ⟨k, p', h1, h2, h3, h4, h5, h6, h7, h8, h9⟩ :=
    release_loop_spec (p.nframes + 1)
      { p.set_state c FrameState.Free with nFreeFrames := inc32 p.nFreeFrames }
      (c + 1) (by omega) (by show p.nframes < p.nframes + 1 + (c + 1); omega)
      (by show c + 1 ≤ p.nframes; omega)
      (fun i hi => validStates_set_state p hv c FrameState.Free i hi)
  have e : ∀ i, ({ p.set_state c FrameState.Free with
      nFreeFrames := inc32 p.nFreeFrames } : ContFramePool).get_state i
        = if i = c then some FrameState.Free else p.get_state i :=
    fun i => get_state_set_state p c i FrameState.Free
  refine ⟨k + 1, p', ?_, by omega, by have : c + 1 + k ≤ p.nframes := h2
                                      omega, ?_, ?_, ?_, ?_, h7, h8, h9⟩
  · unfold release_frame_within_pool
    simp only [hc, h]
    exact h1
  · intro i hi1 hi2
    have := h3 i (by omega) (by omega)
    rw [e, if_neg (by omega)] at this
    exact this
  · intro hlt
    have := h4 (by show c + 1 + k < p.nframes; omega)
    rw [e, if_neg (by omega)] at this
    rw [show c + (k + 1) = c + 1 + k by omega]
    exact this
  · intro i
    rw [h5 i, e]
    by_cases hic : i = c
    · rw [if_neg (by omega), if_pos hic, if_pos (by omega)]
    · by_cases hr : c + 1 ≤ i ∧ i < c + 1 + k
      · rw [if_pos hr, if_pos (by omega)]
      · rw [if_neg hr, if_neg hic, if_neg (by omega)]
  · rw [h6, Function.iterate_succ_apply]

/-- C4. Release inside the owning pool, for a frame `f` of the pool, valid frame states and
a counter that cannot wrap: the release is fatal exactly when `f` is not HeadOfSequence;
otherwise `f` and the `k - 1` Used frames directly behind it, up to the first frame that is
not Used or the end of the pool, become Free, every other frame keeps its state, and
`nFreeFrames` grows by exactly the number `k` of frames freed. -/
theorem release_frame_within_pool_spec (p : ContFramePool) (f : Nat)
    (hf1 : p.base_frame_no ≤ f) (hf2 : f < p.base_frame_no + p.nframes)
    (hv : p.ValidStates) (hw : p.nFreeFrames + p.nframes < WORD) :
    (p.release_frame_within_pool f = Exec.fatal ↔
      p.get_state (f - p.base_frame_no) ≠ some FrameState.HoS) ∧
    (p.get_state (f - p.base_frame_no) = some FrameState.HoS →
      ∃ k p', p.release_frame_within_pool f = Exec.ok p' ∧ 1 ≤ k ∧
        (f - p.base_frame_no) + k ≤ p.nframes ∧
        (∀ i, f - p.base_frame_no < i → i < (f - p.base_frame_no) + k →
          p.get_state i = some FrameState.Used) ∧
        ((f - p.base_frame_no) + k < p.nframes →
          p.get_state ((f - p.base_frame_no) + k) ≠ some FrameState.Used) ∧
        (∀ i, f - p.base_frame_no ≤ i → i < (f - p.base_frame_no) + k →
          p'.get_state i = some FrameState.Free) ∧
        (∀ i, (i < f - p.base_frame_no ∨ (f - p.base_frame_no) + k ≤ i) →
          p'.get_state i = p.get_state i) ∧
        p'.nFreeFrames = p.nFreeFrames + k ∧
        p'.nframes = p.nframes ∧ p'.base_frame_no = p.base_frame_no) := by
  have hin : f - p.base_frame_no < p.nframes := by omega
  constructor
  · constructor
    · intro hfat hhead
      obtain ⟨k, p', h1, _⟩ := release_frame_within_pool_head p f hin hv hhead
      rw [h1] at hfat
      cases hfat
    · exact release_frame_within_pool_not_head p f
  · intro hhead
    obtain ⟨k, p', h1, h2, h3, h4, h5, h6, h7, h8, h9, _⟩ :=
      release_frame_within_pool_head p f hin hv hhead
    refine ⟨k, p', h1, h2, h3, h4, h5, ?_, ?_, ?_, h8, h9⟩
    · intro i hi1 hi2
      rw [h6, if_pos ⟨hi1, hi2⟩]
    · intro i hi
      rw [h6, if_neg (by omega)]
    · rw [h7, inc32_iterate k _ (by omega)]

/-! ## The free counter -/

theorem count_change (P Q : Nat → Prop) [DecidablePred P] [DecidablePred Q] (a k : Nat) :
    ∀ N, (∀ i, i < N → a ≤ i → i < a + k → Q i ∧ ¬ P i) →
      (∀ i, i < N → (i < a ∨ a + k ≤ i) → (Q i ↔ P i)) →
      Nat.count Q N = Nat.count P N + (min N (a + k) - min N a) := by
  intro N
  induction N with
  | zero => intro _ _; simp
  | succ N ih =>
    intro h1 h2
    have ih' := ih (fun i hi => h1 i (by omega)) (fun i hi => h2 i (by omega))
    rw [Nat.count_succ, Nat.count_succ, ih']
    by_cases hin : a ≤ N ∧ N < a + k
    · obtain ⟨hq, hp⟩ := h1 N (by omega) hin.1 hin.2
      rw [if_pos hq, if_neg hp]
      omega
    · have hiff := h2 N (by omega) (by omega)
      by_cases hp : P N
      · rw [if_pos (hiff.2 hp), if_pos hp]; omega
      · rw [if_neg (fun hq => hp (hiff.1 hq)), if_neg hp]; omega

theorem count_eq_zero_of_forall_not (Q : Nat → Prop) [DecidablePred Q] :
    ∀ N, (∀ i, i < N → ¬ Q i) → Nat.count Q N = 0 := by
  intro N
  induction N with
  | zero => intro _; simp
  | succ N ih =>
    intro h
    rw [Nat.count_succ, ih (fun i hi => h i (by omega)), if_neg (h N (by omega))]


theorem countFree_le (p : ContFramePool) : p.countFree ≤ p.nframes :=
  Nat.count_le _

theorem countFree_mark_run (p : ContFramePool) (n s : Nat) (hn : 1 ≤ n)
    (hrun : p.FreeRun n s) :
    (p.mark_run s n).countFree + n = p.countFree := by
  unfold countFree
  rw [mark_run_nframes]
  have h := count_change (fun i => (p.mark_run s n).get_state i = some FrameState.Free)
    (fun i => p.get_state i = some FrameState.Free) s n p.nframes
    (by
      intro i _ hi1 hi2
      refine ⟨hrun.2 i hi1 hi2, ?_⟩
      beta_reduce
      rw [mark_run_get_state]
      by_cases his : i = s
      · rw [if_pos his]; simp
      · rw [if_neg his, if_pos ⟨by omega, hi2⟩]; simp)
    (by
      intro i _ hi
      beta_reduce
      rw [mark_run_get_state, if_neg (by omega), if_neg (by omega)])
  have := hrun.1
  rw [h]
  omega

theorem release_ok_cases (p p' : ContFramePool) (f : Nat)
    (hf : f - p.base_frame_no < p.nframes) (hv : p.ValidStates)
    (h : p.release_frame_within_pool f = Exec.ok p') :
    ∃ k, (∀ i, p'.get_state i =
        if f - p.base_frame_no ≤ i ∧ i < (f - p.base_frame_no) + k then some FrameState.Free
        else p.get_state i) ∧
      (f - p.base_frame_no) + k ≤ p.nframes ∧
      (∀ i, f - p.base_frame_no ≤ i → i < (f - p.base_frame_no) + k →
        p.get_state i ≠ some FrameState.Free) ∧
      p'.nFreeFrames = inc32^[k] p.nFreeFrames ∧ p'.nframes = p.nframes ∧
      p'.base_frame_no = p.base_frame_no ∧ p'.info_frame_no = p.info_frame_no := by
  have hhead : p.get_state (f - p.base_frame_no) = some FrameState.HoS := by
    by_contra hne
    rw [release_frame_within_pool_not_head p f hne] at h
    cases h
  obtain ⟨k, q, h1, h2, h3, h4, h5, h6, h7, h8, h9, h10⟩ :=
    release_frame_within_pool_head p f hf hv hhead
  rw [h1] at h
  cases h
  refine ⟨k, h6, h3, ?_, h7, h8, h9, h10⟩
  intro i hi1 hi2
  by_cases hic : i = f - p.base_frame_no
  · rw [hic, hhead]; simp
  · rw [h4 i (by omega) hi2]; simp

theorem countFree_release (p p' : ContFramePool) (c k : Nat)
    (hstate : ∀ i, p'.get_state i =
      if c ≤ i ∧ i < c + k then some FrameState.Free else p.get_state i)
    (hin : c + k ≤ p.nframes) (hn : p'.nframes = p.nframes)
    (hnot : ∀ i, c ≤ i → i < c + k → p.get_state i ≠ some FrameState.Free) :
    p'.countFree = p.countFree + k := by
  unfold countFree
  rw [hn]
  have h := count_change (fun i => p.get_state i = some FrameState.Free)
    (fun i => p'.get_state i = some FrameState.Free) c k p.nframes
    (by
      intro i _ hi1 hi2
      refine ⟨?_, hnot i hi1 hi2⟩
      show p'.get_state i = _
      rw [hstate, if_pos ⟨hi1, hi2⟩])
    (by
      intro i _ hi
      show p'.get_state i = _ ↔ _
      rw [hstate, if_neg (by omega)])
  rw [h]
  omega

theorem countFree_construct (b n info : Nat) (mem : Nat → Nat) (hn : info = 0 → 1 ≤ n) :
    (construct b n info mem).countFree = if info = 0 then n - 1 else n := by
  unfold countFree
  by_cases hinfo : info = 0
  · subst hinfo
    obtain ⟨_, h2, _, _, h5⟩ := construct_self_hosted b n mem
    rw [h2, if_pos rfl]
    have h := count_change (fun _ => False)
      (fun i => (construct b n 0 mem).get_state i = some FrameState.Free) 1 (n - 1) n
      (by
        intro i hi h1 _
        refine ⟨?_, fun hf => hf⟩
        show (construct b n 0 mem).get_state i = _
        rw [h5 i hi, if_neg (by omega)])
      (by
        intro i hi h1
        show (construct b n 0 mem).get_state i = _ ↔ False
        rw [h5 i hi, if_pos (by omega)]
        simp)
    rw [h, count_eq_zero_of_forall_not _ n (fun _ _ hf => hf)]
    have := hn rfl
    omega
  · obtain ⟨_, h2, _, _, h5⟩ := construct_external b n info mem hinfo
    rw [h2, if_neg hinfo]
    have h := count_change (fun _ => False)
      (fun i => (construct b n info mem).get_state i = some FrameState.Free) 0 n n
      (by
        intro i hi _ _
        refine ⟨?_, fun hf => hf⟩
        show (construct b n info mem).get_state i = _
        rw [h5 i hi])
      (by intro i hi h1; omega)
    rw [h, count_eq_zero_of_forall_not _ n (fun _ _ hf => hf)]
    omega

theorem reachable_inv (b n info : Nat) (mem : Nat → Nat) (hw : n < WORD)
    (hn : info = 0 → 1 ≤ n) (p : ContFramePool) (hr : Reachable b n info mem p) :
    p.ValidStates ∧ p.nframes = n ∧ p.nFreeFrames = p.countFree := by
  induction hr with
  | construct =>
    refine ⟨validStates_construct b n info mem, ?_, ?_⟩
    · by_cases hinfo : info = 0
      · subst hinfo; exact (construct_self_hosted b n mem).2.1
      · exact (construct_external b n info mem hinfo).2.1
    · rw [countFree_construct b n info mem hn]
      by_cases hinfo : info = 0
      · subst hinfo
        rw [(construct_self_hosted b n mem).2.2.1, if_pos rfl,
          dec32_of_pos n (hn rfl) hw]
      · rw [(construct_external b n info mem hinfo).2.2.1, if_neg hinfo]
  | get_frames p p' k r _ hget ih =>
    obtain ⟨hv, hnf, hcnt⟩ := ih
    rcases get_frames_ok_cases p p' k r hget with ⟨_, h⟩ | ⟨s, hk, hle, hrun, h, _⟩
    · rw [h]; exact ⟨hv, hnf, hcnt⟩
    · rw [h]
      refine ⟨validStates_mark_run p hv s k, by rw [mark_run_nframes, hnf], ?_⟩
      have hc := countFree_mark_run p k s hk hrun
      have hle2 := countFree_le p
      rw [mark_run_nFreeFrames p s k hk hle (by omega)]
      omega
  | release_frames p p' f _ hf1 hf2 hrel ih =>
    obtain ⟨hv, hnf, hcnt⟩ := ih
    obtain ⟨k, h1, h2, h3, h4, h5, _, _⟩ :=
      release_ok_cases p p' f (by omega) hv hrel
    have hc := countFree_release p p' _ k h1 h2 h5 h3
    have hle2 := countFree_le p'
    refine ⟨?_, by rw [h5, hnf], ?_⟩
    · intro i hi
      rw [h1]
      split
      · simp
      · exact hv i (by rw [← h5]; exact hi)
    · rw [h4, inc32_iterate k _ (by omega), hc, hcnt]

/-- C5. In every state reachable from the construction of a pool (a 32-bit frame count, at
least one frame when the bitmap is kept in the pool's own first frame) by calls of
`get_frames` and releases of frames of the pool, `nFreeFrames` equals the number of frames
whose state is Free. -/
theorem free_count_invariant (b n info : Nat) (mem : Nat → Nat) (hw : n < WORD)
    (hn : info = 0 → 1 ≤ n) (p : ContFramePool) (hr : Reachable b n info mem p) :
    p.nFreeFrames = p.countFree :=
  (reachable_inv b n info mem hw hn p hr).2.2

/-! ## The iteration bounds are never reached -/

theorem get_frames_inner_fuel (p : ContFramePool) (n : Nat) :
    ∀ fuel cur count, 0 < fuel → p.nframes < fuel + cur →
      p.get_frames_inner n fuel cur count ≠ Exec.nofuel := by
  intro fuel
  induction fuel with
  | zero => intro cur count h0; exact absurd h0 (by omega)
  | succ fuel ih =>
    intro cur count _ h
    rw [get_frames_inner]
    split
    · split
      · simp
      · split
        · simp
        · exact ih _ _ (by omega) (by omega)
      · simp
    · simp

theorem get_frames_outer_fuel (p : ContFramePool) (n : Nat) :
    ∀ fuel start, 0 < fuel → p.nframes + 2 ≤ fuel + start →
      p.get_frames_outer n fuel start ≠ Exec.nofuel := by
  intro fuel
  induction fuel with
  | zero => intro start h0; exact absurd h0 (by omega)
  | succ fuel ih =>
    intro start _ h
    rw [get_frames_outer]
    split
    · rename_i hle
      split
      · simp
      · rename_i c hin
        have hc := (p.get_frames_inner_false n _ _ _ _ hin).1
        exact ih _ (by omega) (by omega)
      · simp
      · simp
      · rename_i hin
        exact absurd hin (p.get_frames_inner_fuel n _ _ _ (by omega) (by omega))
    · simp

/-- The loops of `get_frames` always end within the iteration bounds of the model. -/
theorem get_frames_ne_nofuel (p : ContFramePool) (n : Nat) :
    p.get_frames n ≠ Exec.nofuel := by
  unfold get_frames
  split
  · simp
  · split
    · simp
    · simp
    · simp
    · simp
    · rename_i h
      exact absurd h (p.get_frames_outer_fuel n _ _ (by omega) (by omega))

theorem release_loop_fuel : ∀ fuel (p : ContFramePool) (cur : Nat), 0 < fuel →
    p.nframes < fuel + cur → release_loop fuel p cur ≠ Exec.nofuel := by
  intro fuel
  induction fuel with
  | zero => intro p cur h0; exact absurd h0 (by omega)
  | succ fuel ih =>
    intro p cur _ h
    rw [release_loop]
    split
    · split
      · simp
      · exact ih _ _ (by omega) (by show p.nframes < fuel + (cur + 1); omega)
      · simp
    · simp

/-- The loop of `release_frame_within_pool` always ends within the iteration bound of the
model. -/
theorem release_frame_within_pool_ne_nofuel (p : ContFramePool) (f : Nat) :
    p.release_frame_within_pool f ≠ Exec.nofuel := by
  unfold release_frame_within_pool
  simp only []
  split
  · exact release_loop_fuel _ _ _ (by omega)
      (by show p.nframes < p.nframes + 1 + (f - p.base_frame_no + 1); omega)
  · simp

/-! ## Instances on concrete pools -/

theorem pool8_get_frames : pool8.get_frames 2 = Exec.ok (1, pool8.mark_run 1 2) :=
  get_frames_of_search_some pool8 2 1 (by decide) (by decide)

theorem get_frames_success_witness :
    ∃ s, 1 = pool8.base_frame_no + s ∧ s + 2 ≤ pool8.nframes ∧
      (pool8.mark_run 1 2).get_state s = some FrameState.HoS ∧
      (pool8.mark_run 1 2).nFreeFrames + 2 = pool8.nFreeFrames := by
  obtain ⟨s, h1, h2, _, h4, _, _, h7, _⟩ :=
    get_frames_success pool8 (pool8.mark_run 1 2) 2 1 (by decide) (by decide)
      pool8_get_frames (fun h => absurd (congrArg Prod.fst h) (by decide))
  exact ⟨s, h1, h2, h4, h7⟩

theorem pool1024_fields :
    pool1024.base_frame_no = 0 ∧ pool1024.nframes = 1024 ∧ pool1024.nFreeFrames = 1023 ∧
    ∀ i, i < 1024 → pool1024.get_state i =
      if i = 0 then some FrameState.HoS else some FrameState.Free := by
  obtain ⟨h1, h2, h3, _, h5⟩ := construct_self_hosted 0 1024 (fun _ => 0)
  exact ⟨h1, h2, h3.trans (by decide), h5⟩

/-- Scenario of C2: on the fresh self-hosted pool of 1024 frames at base 0 the first
`get_frames(1)` returns frame 1. -/
theorem get_frames_first_fit_witness :
    ∃ p', pool1024.get_frames 1 = Exec.ok (1, p') := by
  obtain ⟨hb, hnf, hfree, hst⟩ := pool1024_fields
  have hrun : pool1024.FreeRun 1 1 := by
    refine ⟨by rw [hnf]; decide, ?_⟩
    intro i h1 h2
    rw [hst i (by omega), if_neg (by omega)]
  obtain ⟨smin, p', h, hr, hmin⟩ :=
    get_frames_first_fit pool1024 1 (by decide) (by rw [hfree]; decide)
      (validStates_construct 0 1024 0 (fun _ => 0)) ⟨1, hrun⟩
  have hsmin : smin = 1 := by
    rcases Nat.lt_trichotomy smin 1 with hlt | heq | hgt
    · have h0 : smin = 0 := by omega
      exfalso
      have := hr.2 0 (by omega) (by omega)
      rw [hst 0 (by decide), if_pos rfl] at this
      cases this
    · exact heq
    · exact absurd hrun (hmin 1 hgt)
  rw [hsmin, hb] at h
  exact ⟨p', h⟩


set_option maxRecDepth 1000000 in
/-- Scenario of C3: after `get_frames(1)`, `get_frames(10)` and
`mark_inaccessible(base+100, 5)` on the fresh pool of 1024 frames, `get_frames(1000)`
returns 0 and changes nothing. -/
theorem get_frames_exhausted_witness :
    ∃ p1 p2, pool1024.get_frames 1 = Exec.ok (1, p1) ∧
      p1.get_frames 10 = Exec.ok (2, p2) ∧
      (p2.mark_inaccessible 100 5).get_frames 1000 =
        Exec.ok (0, p2.mark_inaccessible 100 5) := by
  have h1 : pool1024.get_frames 1 = Exec.ok (1, pool1024.mark_run 1 1) :=
    get_frames_of_search_some pool1024 1 1 (by decide) (by decide)
  have h2 : (pool1024.mark_run 1 1).get_frames 10 =
      Exec.ok (2, (pool1024.mark_run 1 1).mark_run 2 10) :=
    get_frames_of_search_some (pool1024.mark_run 1 1) 10 2 (by decide) (by decide)
  refine ⟨_, _, h1, h2, ?_⟩
  refine get_frames_exhausted _ 1000 (by decide) (Or.inr ⟨?_, ?_⟩)
  · exact validStates_mark_run _
      (validStates_mark_run _ (validStates_mark_run _
        (validStates_construct 0 1024 0 (fun _ => 0)) 1 1) 2 10) _ 5
  · intro s hrun
    have hnf : (((pool1024.mark_run 1 1).mark_run 2 10).mark_inaccessible 100 5).nframes
        = 1024 := by
      unfold mark_inaccessible
      rw [mark_run_nframes, mark_run_nframes, mark_run_nframes]
      exact pool1024_fields.2.1
    have hb := hrun.1
    rw [hnf] at hb
    have h100 := hrun.2 100 (by omega) (by omega)
    have hhead : (((pool1024.mark_run 1 1).mark_run 2 10).mark_inaccessible 100 5).get_state
        100 = some FrameState.HoS := by
      unfold mark_inaccessible
      rw [mark_run_get_state, mark_run_base, mark_run_base, pool1024_fields.1, if_pos rfl]
    rw [hhead] at h100
    cases h100


theorem release_frame_within_pool_witness :
    ∃ k p', (pool8.mark_run 1 2).release_frame_within_pool 1 = Exec.ok p' ∧ 1 ≤ k ∧
      p'.get_state 1 = some FrameState.Free ∧
      p'.nFreeFrames = (pool8.mark_run 1 2).nFreeFrames + k := by
  obtain ⟨k, p', h1, h2, _, _, _, h6, _, h8, _⟩ :=
    (release_frame_within_pool_spec (pool8.mark_run 1 2) 1 (by decide) (by decide)
      (validStates_mark_run _ (validStates_construct 0 8 0 (fun _ => 0)) 1 2)
      (by decide)).2 (by decide)
  exact ⟨k, p', h1, h2, h6 1 (by decide) (by
    show 1 < 1 - (pool8.mark_run 1 2).base_frame_no + k
    rw [mark_run_base]
    have : pool8.base_frame_no = 0 := by decide
    omega), h8⟩

theorem free_count_invariant_witness :
    (pool8.mark_run 1 2).nFreeFrames = (pool8.mark_run 1 2).countFree :=
  free_count_invariant 0 8 0 (fun _ => 0) (by decide) (by decide) (pool8.mark_run 1 2)
    (Reachable.get_frames pool8 (pool8.mark_run 1 2) 2 1 Reachable.construct pool8_get_frames)

end ContFramePool

/-- C6 (the code at the failing input). Two pools with adjacent, disjoint ranges are
registered, `poolLow` over frames 0..3 first and `poolHigh` over frames 4..7 second.  Frame
4 is then allocated from `poolHigh`, and releasing it inside `poolHigh` succeeds; the
static `release_frames(4)` stops at `poolLow` instead, whose range test `4 > 0 + 4` lets a
frame one past its end through, and ends in the failed assertion of `poolLow`. -/
theorem release_frames_adjacent_pools :
    ContFramePool.poolHigh.get_frames 1 =
      Exec.ok (4, ContFramePool.poolHigh.mark_run 0 1) ∧
    ((ContFramePool.poolHigh.mark_run 0 1).release_frame_within_pool 4).toOption.isSome
      = true ∧
    (ContFramePool.release_frames
      ((ContFramePool.register (ContFramePool.register [] ContFramePool.poolLow)
        ContFramePool.poolHigh).set 1 (ContFramePool.poolHigh.mark_run 0 1)) 4).isFatal
      = true := by
  refine ⟨ContFramePool.get_frames_of_search_some _ 1 0 (by decide) (by decide), ?_, ?_⟩
  · decide
  · decide

/-! ## VMPool: the scan and the shifts -/

namespace VMPool

theorem find_range'_some (p : Nat → Bool) : ∀ n s i,
    (List.range' s n).find? p = some i →
      s ≤ i ∧ i < s + n ∧ p i = true ∧ ∀ j, s ≤ j → j < i → p j = false := by
  intro n
  induction n with
  | zero => intro s i h; simp at h
  | succ n ih =>
    intro s i h
    rw [List.range'_succ, List.find?_cons] at h
    cases hp : p s with
    | true =>
      rw [hp] at h
      cases h
      exact ⟨le_refl _, by omega, hp, fun j h1 h2 => by omega⟩
    | false =>
      rw [hp] at h
      obtain ⟨h1, h2, h3, h4⟩ := ih (s + 1) i h
      refine ⟨by omega, by omega, h3, ?_⟩
      intro j hj1 hj2
      by_cases hjs : j = s
      · rw [hjs]; exact hp
      · exact h4 j (by omega) hj2

theorem find_range'_none (p : Nat → Bool) : ∀ n s,
    (List.range' s n).find? p = none → ∀ j, s ≤ j → j < s + n → p j = false := by
  intro n
  induction n with
  | zero => intro s _ j h1 h2; omega
  | succ n ih =>
    intro s h
    rw [List.range'_succ, List.find?_cons] at h
    cases hp : p s with
    | true => rw [hp] at h; cases h
    | false =>
      rw [hp] at h
      intro j hj1 hj2
      by_cases hjs : j = s
      · rw [hjs]; exact hp
      · exact ih (s + 1) h j (by omega) (by omega)

theorem find_range'_eq_some (p : Nat → Bool) (n s i : Nat) (h1 : s ≤ i) (h2 : i < s + n)
    (h3 : p i = true) (h4 : ∀ j, s ≤ j → j < i → p j = false) :
    (List.range' s n).find? p = some i := by
  cases h : (List.range' s n).find? p with
  | none =>
    have := find_range'_none p n s h i h1 h2
    rw [h3] at this; cases this
  | some k =>
    obtain ⟨k1, k2, k3, k4⟩ := find_range'_some p n s k h
    rcases Nat.lt_trichotomy k i with hlt | heq | hgt
    · have := h4 k k1 hlt
      rw [k3] at this; cases this
    · rw [heq]
    · have := k4 i h1 hgt
      rw [h3] at this; cases this

theorem find_range'_eq_none (p : Nat → Bool) (n s : Nat)
    (h : ∀ j, s ≤ j → j < s + n → p j = false) :
    (List.range' s n).find? p = none := by
  cases h' : (List.range' s n).find? p with
  | none => rfl
  | some k =>
    obtain ⟨k1, k2, k3, _⟩ := find_range'_some p n s k h'
    have := h k k1 k2
    rw [k3] at this; cases this

theorem shift_right_spec (arr : Nat → AllocatedRegion) (total : Nat) :
    ∀ m i, total - i = m → i ≤ total → ∀ j,
      shift_right arr i total j = if i < j ∧ j ≤ total then arr (j - 1) else arr j := by
  intro m
  induction m with
  | zero =>
    intro i hm hi j
    unfold shift_right
    rw [hm]
    rw [if_neg (by omega)]
    rfl
  | succ m ih =>
    intro i hm hi j
    have ih' := ih (i + 1) (by omega) (by omega)
    have hstep : shift_right arr i total =
        Function.update (shift_right arr (i + 1) total) (i + 1)
          (shift_right arr (i + 1) total (i + 1 - 1)) := by
      unfold shift_right
      rw [hm, show total - (i + 1) = m by omega, List.range'_succ, List.reverse_cons,
        List.foldl_append]
      rfl
    rw [hstep]
    by_cases hj : j = i + 1
    · rw [hj, Function.update_same, ih', if_neg (by omega), if_pos (by omega)]
    · rw [Function.update_noteq hj, ih']
      by_cases hr : i + 1 < j ∧ j ≤ total
      · rw [if_pos hr, if_pos (by omega)]
      · rw [if_neg hr, if_neg (by omega)]

theorem shift_left_spec (total : Nat) :
    ∀ m d (arr : Nat → AllocatedRegion), total - 1 - d = m → ∀ j,
      shift_left arr d total j = if d ≤ j ∧ j + 1 < total then arr (j + 1) else arr j := by
  intro m
  induction m with
  | zero =>
    intro d arr hm j
    unfold shift_left
    rw [hm, if_neg (by omega)]
    rfl
  | succ m ih =>
    intro d arr hm j
    have hstep : shift_left arr d total =
        shift_left (Function.update arr d (arr (d + 1))) (d + 1) total := by
      unfold shift_left
      rw [hm, show total - 1 - (d + 1) = m by omega, List.range'_succ, List.foldl_cons]
    rw [hstep, ih (d + 1) _ (by omega)]
    by_cases hj : j = d
    · rw [hj, if_neg (by omega), Function.update_same, if_pos (by omega)]
    · by_cases hr : d + 1 ≤ j ∧ j + 1 < total
      · rw [if_pos hr, if_pos (by omega), Function.update_noteq (by omega)]
      · rw [if_neg hr, if_neg (by omega), Function.update_noteq hj]

/-! ## VMPool: `allocate` -/


theorem sub32_of_le (x e : Nat) (h1 : e ≤ x) (h2 : x < WORD) : sub32 x e = x - e := by
  unfold sub32 WORD at *
  omega

theorem add32_of_lt (x y : Nat) (h : x + y < WORD) : add32 x y = x + y := by
  unfold add32 WORD at *
  omega

theorem region_end_of_sorted (vp : VMPool) (hs : vp.Sorted) (i : Nat)
    (hi : i + 1 < vp.total_regions) :
    vp.region_end i = (vp.allocated_region_array i).base_address +
      (vp.allocated_region_array i).size := by
  obtain ⟨_, h2, h3⟩ := hs
  have ha := h3 (i + 1) hi (by omega)
  have hb := (h2 (i + 1) hi).2.1
  rw [Nat.add_sub_cancel] at ha
  exact add32_of_lt _ _ (by omega)

theorem gap_fits_iff (vp : VMPool) (hs : vp.Sorted) (asize i : Nat) (h1 : 1 ≤ i)
    (h2 : i < vp.total_regions) : vp.gap_fits asize i = true ↔ asize ≤ vp.gap i := by
  have he := region_end_of_sorted vp hs (i - 1) (by omega)
  obtain ⟨_, hc, hsort⟩ := hs
  have ha := hsort i h2 h1
  have hb := (hc i h2).2.1
  unfold gap_fits gap
  rw [he, sub32_of_le _ _ ha hb, decide_eq_true_iff]

theorem tail_gap_eq (vp : VMPool) (hs : vp.Sorted) (h1 : 1 ≤ vp.total_regions) :
    sub32 (add32 vp.base_address vp.size) (vp.region_end (vp.total_regions - 1))
      = vp.tail_gap := by
  obtain ⟨hw, hc, _⟩ := hs
  obtain ⟨ha, hb, hd⟩ := hc (vp.total_regions - 1) (by omega)
  unfold tail_gap region_end add32 sub32
  unfold WORD at *
  omega

theorem find_gap_eq_some (vp : VMPool) (hs : vp.Sorted) (asize i : Nat) (h1 : 1 ≤ i)
    (h2 : i < vp.total_regions) (hfit : asize ≤ vp.gap i)
    (hmin : ∀ j, 1 ≤ j → j < i → vp.gap j < asize) :
    vp.find_gap asize = some i := by
  unfold find_gap
  apply find_range'_eq_some _ _ _ _ h1 (by omega) ((gap_fits_iff vp hs asize i h1 h2).2 hfit)
  intro j hj1 hj2
  have := hmin j hj1 hj2
  cases hg : vp.gap_fits asize j with
  | false => rfl
  | true =>
    have := (gap_fits_iff vp hs asize j hj1 (by omega)).1 hg
    omega

theorem find_gap_eq_none (vp : VMPool) (hs : vp.Sorted) (asize : Nat)
    (hno : ∀ j, 1 ≤ j → j < vp.total_regions → vp.gap j < asize) :
    vp.find_gap asize = none := by
  unfold find_gap
  apply find_range'_eq_none
  intro j hj1 hj2
  have := hno j hj1 (by omega)
  cases hg : vp.gap_fits asize j with
  | false => rfl
  | true =>
    have := (gap_fits_iff vp hs asize j hj1 (by omega)).1 hg
    omega

theorem allocate_of_find_gap_some (vp : VMPool) (_size i : Nat) (h0 : vp.total_regions ≠ 0)
    (h : vp.find_gap (allocating_size _size) = some i) :
    vp.allocate _size = vp.allocate_finish
      (Function.update (shift_right vp.allocated_region_array i vp.total_regions) i
        { base_address :=
            add32 (shift_right vp.allocated_region_array i vp.total_regions (i - 1)).base_address
              (shift_right vp.allocated_region_array i vp.total_regions (i - 1)).size,
          size := allocating_size _size }) := by
  unfold allocate
  simp only [if_neg h0, h]

theorem allocate_of_find_gap_none (vp : VMPool) (_size : Nat) (h0 : vp.total_regions ≠ 0)
    (h : vp.find_gap (allocating_size _size) = none) :
    vp.allocate _size =
      if sub32 (add32 vp.base_address vp.size) (vp.region_end (vp.total_regions - 1))
          < allocating_size _size then (0, vp)
      else vp.allocate_finish
        (Function.update vp.allocated_region_array vp.total_regions
          { base_address := vp.region_end (vp.total_regions - 1),
            size := allocating_size _size }) := by
  unfold allocate
  simp only [if_neg h0, h]

theorem allocate_finish_fst (vp : VMPool) (arr : Nat → AllocatedRegion) :
    (vp.allocate_finish arr).1 = (arr vp.total_regions).base_address := by
  unfold allocate_finish
  simp only [Nat.add_sub_cancel]

theorem allocate_fst_of_find_gap_some (vp : VMPool) (_size i : Nat)
    (hi1 : 1 ≤ i) (hi2 : i < vp.total_regions)
    (h : vp.find_gap (allocating_size _size) = some i) :
    (vp.allocate _size).1 =
      (vp.allocated_region_array (vp.total_regions - 1)).base_address := by
  have hsr := shift_right_spec vp.allocated_region_array vp.total_regions
    (vp.total_regions - i) i rfl (by omega)
  rw [allocate_of_find_gap_some vp _size i (by omega) h, allocate_finish_fst,
    Function.update_noteq (by omega), hsr, if_pos ⟨hi2, le_refl _⟩]

theorem allocate_fst_ne_zero (vp : VMPool) (_size : Nat) (h1 : 1 ≤ vp.total_regions)
    (hs : vp.Sorted) (hpos : 0 < allocating_size _size)
    (h0 : (vp.allocate _size).1 = 0) :
    (∀ j, 1 ≤ j → j < vp.total_regions → vp.gap j < allocating_size _size) ∧
      vp.tail_gap < allocating_size _size := by
  have hlast := (hs.2.1 (vp.total_regions - 1) (by omega))
  cases hfind : vp.find_gap (allocating_size _size) with
  | some i =>
    exfalso
    obtain ⟨hi1, hi2, _, _⟩ := find_range'_some _ _ _ _ hfind
    rw [allocate_fst_of_find_gap_some vp _size i hi1 (by omega) hfind] at h0
    omega
  | none =>
    have hno : ∀ j, 1 ≤ j → j < vp.total_regions → vp.gap j < allocating_size _size := by
      intro j hj1 hj2
      have hf : vp.gap_fits (allocating_size _size) j = false :=
        find_range'_none _ _ _ hfind j hj1 (by omega)
      by_contra hge
      have := (gap_fits_iff vp hs (allocating_size _size) j hj1 hj2).2 (Nat.le_of_not_lt hge)
      rw [hf] at this
      cases this
    refine ⟨hno, ?_⟩
    by_contra hge
    rw [allocate_of_find_gap_none vp _size (by omega) hfind, tail_gap_eq vp hs h1,
      if_neg hge] at h0
    rw [allocate_finish_fst, Function.update_same] at h0
    have hfst : vp.region_end (vp.total_regions - 1) = 0 := h0
    have hw := hs.1
    unfold tail_gap at hge
    unfold region_end at hfst
    rw [add32_of_lt _ _ (by omega)] at hfst
    omega

/-- C9, as amended. On a non-empty, sorted region table `allocate` considers the gaps
between consecutive regions in ascending order and then the gap between the last region
and the end of the window; the gap between the metadata page and the first region is not
looked at.  With `a` the page-rounded size: the new region (of size `a`) starts at the end
of region `i - 1` for the least `i` whose gap to region `i` is at least `a`, the regions
behind it moving up one slot; if no such gap fits and the trailing gap is at least `a`, it
starts at the end of the last region; the call fails, with result 0 and the table left as
it was, when neither fits, and only then is the table left as it was or (for `a > 0`) the
result 0. -/
theorem allocate_first_gap (vp : VMPool) (_size : Nat) (h1 : 1 ≤ vp.total_regions)
    (hs : vp.Sorted) :
    (∀ i, 1 ≤ i → i < vp.total_regions → allocating_size _size ≤ vp.gap i →
      (∀ j, 1 ≤ j → j < i → vp.gap j < allocating_size _size) →
      (vp.allocate _size).2.total_regions = vp.total_regions + 1 ∧
      (vp.allocate _size).2.allocated_region_array i =
        { base_address := (vp.allocated_region_array (i - 1)).base_address +
            (vp.allocated_region_array (i - 1)).size,
          size := allocating_size _size } ∧
      (∀ j, j < i → (vp.allocate _size).2.allocated_region_array j =
        vp.allocated_region_array j) ∧
      (∀ j, i < j → j ≤ vp.total_regions →
        (vp.allocate _size).2.allocated_region_array j = vp.allocated_region_array (j - 1))) ∧
    ((∀ j, 1 ≤ j → j < vp.total_regions → vp.gap j < allocating_size _size) →
      allocating_size _size ≤ vp.tail_gap →
      (vp.allocate _size).2.total_regions = vp.total_regions + 1 ∧
      (vp.allocate _size).2.allocated_region_array vp.total_regions =
        { base_address := vp.region_end (vp.total_regions - 1),
          size := allocating_size _size } ∧
      (∀ j, j < vp.total_regions → (vp.allocate _size).2.allocated_region_array j =
        vp.allocated_region_array j)) ∧
    ((∀ j, 1 ≤ j → j < vp.total_regions → vp.gap j < allocating_size _size) →
      vp.tail_gap < allocating_size _size → vp.allocate _size = (0, vp)) ∧
    ((vp.allocate _size).2.total_regions = vp.total_regions →
      (∀ j, 1 ≤ j → j < vp.total_regions → vp.gap j < allocating_size _size) ∧
      vp.tail_gap < allocating_size _size) ∧
    (0 < allocating_size _size → (vp.allocate _size).1 = 0 →
      (∀ j, 1 ≤ j → j < vp.total_regions → vp.gap j < allocating_size _size) ∧
      vp.tail_gap < allocating_size _size) := by
  have h0 : vp.total_regions ≠ 0 := by omega
  have hA : ∀ i, 1 ≤ i → i < vp.total_regions → allocating_size _size ≤ vp.gap i →
      (∀ j, 1 ≤ j → j < i → vp.gap j < allocating_size _size) →
      (vp.allocate _size).2.total_regions = vp.total_regions + 1 ∧
      (vp.allocate _size).2.allocated_region_array i =
        { base_address := (vp.allocated_region_array (i - 1)).base_address +
            (vp.allocated_region_array (i - 1)).size,
          size := allocating_size _size } ∧
      (∀ j, j < i → (vp.allocate _size).2.allocated_region_array j =
        vp.allocated_region_array j) ∧
      (∀ j, i < j → j ≤ vp.total_regions →
        (vp.allocate _size).2.allocated_region_array j =
          vp.allocated_region_array (j - 1)) := by
    intro i hi1 hi2 hfit hmin
    have hfind := find_gap_eq_some vp hs _ i hi1 hi2 hfit hmin
    have hsr := shift_right_spec vp.allocated_region_array vp.total_regions
      (vp.total_regions - i) i rfl (by omega)
    rw [allocate_of_find_gap_some vp _size i h0 hfind]
    refine ⟨rfl, ?_, ?_, ?_⟩
    · show Function.update _ i _ i = _
      rw [Function.update_same, hsr, if_neg (by omega)]
      have he := region_end_of_sorted vp hs (i - 1) (by omega)
      unfold region_end at he
      rw [he]
    · intro j hj
      show Function.update _ i _ j = _
      rw [Function.update_noteq (by omega), hsr, if_neg (by omega)]
    · intro j hj1 hj2
      show Function.update _ i _ j = _
      rw [Function.update_noteq (by omega), hsr, if_pos ⟨hj1, hj2⟩]
  have hB : (∀ j, 1 ≤ j → j < vp.total_regions → vp.gap j < allocating_size _size) →
      allocating_size _size ≤ vp.tail_gap →
      (vp.allocate _size).2.total_regions = vp.total_regions + 1 ∧
      (vp.allocate _size).2.allocated_region_array vp.total_regions =
        { base_address := vp.region_end (vp.total_regions - 1),
          size := allocating_size _size } ∧
      (∀ j, j < vp.total_regions → (vp.allocate _size).2.allocated_region_array j =
        vp.allocated_region_array j) := by
    intro hno htail
    rw [allocate_of_find_gap_none vp _size h0 (find_gap_eq_none vp hs _ hno),
      tail_gap_eq vp hs h1, if_neg (by omega)]
    refine ⟨rfl, ?_, ?_⟩
    · show Function.update _ _ _ _ = _
      rw [Function.update_same]
    · intro j hj
      show Function.update _ _ _ _ = _
      rw [Function.update_noteq (by omega)]
  have hC : (∀ j, 1 ≤ j → j < vp.total_regions → vp.gap j < allocating_size _size) →
      vp.tail_gap < allocating_size _size → vp.allocate _size = (0, vp) := by
    intro hno htail
    rw [allocate_of_find_gap_none vp _size h0 (find_gap_eq_none vp hs _ hno),
      tail_gap_eq vp hs h1, if_pos htail]
  refine ⟨hA, hB, hC, ?_, allocate_fst_ne_zero vp _size h1 hs⟩
  intro htot
  by_cases hex : ∃ i, 1 ≤ i ∧ i < vp.total_regions ∧ allocating_size _size ≤ vp.gap i
  · exfalso
    have hleast : ∃ i, (1 ≤ i ∧ i < vp.total_regions ∧ allocating_size _size ≤ vp.gap i) ∧
        ∀ j, j < i → ¬ (1 ≤ j ∧ j < vp.total_regions ∧ allocating_size _size ≤ vp.gap j) := by
      classical
      exact ⟨Nat.find hex, Nat.find_spec hex, fun j hj => Nat.find_min hex hj⟩
    obtain ⟨i, ⟨hi1, hi2, hi3⟩, hmin⟩ := hleast
    have := (hA i hi1 hi2 hi3 (fun j hj1 hj2 => by
      by_contra hge
      exact hmin j hj2 ⟨hj1, by omega, by omega⟩)).1
    omega
  · have hno : ∀ j, 1 ≤ j → j < vp.total_regions → vp.gap j < allocating_size _size := by
      intro j hj1 hj2
      by_contra hge
      exact hex ⟨j, hj1, hj2, by omega⟩
    refine ⟨hno, ?_⟩
    by_contra hge
    have := (hB hno (by omega)).1
    omega

/-! ## `allocate` and `release` on concrete pools -/

theorem vmGap_sorted : vmGap.Sorted := by
  unfold Sorted
  refine ⟨by decide, ?_, ?_⟩ <;> decide

theorem allocate_first_gap_witness :
    (vmGap.allocate 4096).2.total_regions = 3 ∧
    (vmGap.allocate 4096).2.allocated_region_array 1 =
      { base_address := 0x40002000, size := 4096 } ∧
    (vmGap.allocate 4096).2.allocated_region_array 2 = vmGap.allocated_region_array 1 := by
  obtain ⟨h1, h2, _, h4⟩ :=
    (allocate_first_gap vmGap 4096 (by decide) vmGap_sorted).1 1 (by decide) (by decide)
      (by decide) (fun j hj1 hj2 => absurd hj1 (by omega))
  exact ⟨h1, h2, h4 2 (by decide) (by decide)⟩

/-- C9 (the claim at a concrete pool). After two `allocate(4096)` and the release of the
first region, the table holds the single region `[0x40002000, 0x40003000)` and the page
between the metadata page and that region is free, so the lowest gap of at least 4096 bytes
starts at `0x40001000`; `allocate(4096)` places the new region at `0x40003000`. -/
theorem allocate_skips_leading_gap :
    vmTwo.release recordPage [] 0x40001000 = Exec.ok (vmLead, [0x40001000]) ∧
    vmLead.regions = [⟨0x40002000, 4096⟩] ∧
    allocating_size 4096 ≤
      (vmLead.allocated_region_array 0).base_address - (vmLead.base_address + PAGE_SIZE) ∧
    (vmLead.allocate 4096).2.regions = [⟨0x40002000, 4096⟩, ⟨0x40003000, 4096⟩] :=
  ⟨rfl, by decide, by decide, by decide⟩

end VMPool

/-- C7 (the code at the failing input). After three `allocate(4096)` and the release of
the middle region the table is `[0x40001000, 0x40003000]`.  The next `allocate(4096)`
inserts the new region at `0x40002000`, in the gap, and returns `0x40003000`, the base of
the last entry of the table, a region that was allocated before. -/
theorem allocate_interior_returns_last :
    VMPool.vmThree.release VMPool.recordPage [] 0x40002000 =
      Exec.ok (VMPool.vmGap, [0x40002000]) ∧
    VMPool.vmGap.regions = [⟨0x40001000, 4096⟩, ⟨0x40003000, 4096⟩] ∧
    (VMPool.vmGap.allocate 4096).2.regions =
      [⟨0x40001000, 4096⟩, ⟨0x40002000, 4096⟩, ⟨0x40003000, 4096⟩] ∧
    (VMPool.vmGap.allocate 4096).1 = 0x40003000 :=
  ⟨rfl, by decide, by decide, by decide⟩

/-- C8 (the code at the failing input). On the pool with regions
`[0x40001000, 0x40003000]`, `allocate(4096)` returns `0x40003000`; releasing that address
afterwards removes the older region at `0x40003000` and frees its page, and leaves the
table `[0x40001000, 0x40002000]`, not the table before the `allocate`. -/
theorem allocate_release_not_restored :
    VMPool.vmGap.regions = [⟨0x40001000, 4096⟩, ⟨0x40003000, 4096⟩] ∧
    ∃ vp trace,
      (VMPool.vmGap.allocate 4096).2.release VMPool.recordPage []
        (VMPool.vmGap.allocate 4096).1 = Exec.ok (vp, trace) ∧
      vp.regions = [⟨0x40001000, 4096⟩, ⟨0x40002000, 4096⟩] ∧
      vp.total_regions = 2 ∧ trace = [0x40003000] :=
  ⟨by decide, _, _, rfl, by decide, by decide, by decide⟩

/-! ## PageTable: the legitimacy check of `handle_fault` -/

namespace PageTable

/-- The condition `!found && curr_pool != NULL` guarding the assertion of `handle_fault`
never holds: the search loop leaves `curr_pool` null exactly when nothing was found. -/
theorem search_pools_guard (l : List VMPool) (a : Nat) :
    (!(search_pools l a).1 && (search_pools l a).2) = false := by
  induction l with
  | nil => rfl
  | cons vp rest ih =>
    unfold search_pools
    split
    · rfl
    · exact ih

end PageTable

/-- C10 (the code at the failing input). One VM pool, with the window
`[0x40000000, 0x41000000)`, is registered and does not accept the address `0x80000000`.
`handle_fault` for that address does not stop on the assertion: it returns, having taken
frame 4 from the process pool and installed it, present and writable, in entry 0 of the
page table of directory entry 512. -/
theorem handle_fault_illegitimate_address :
    PageTable.exampleState.vm_pools.length = 1 ∧
    (∀ vp ∈ PageTable.exampleState.vm_pools, vp.is_legitimate 0x80000000 = false) ∧
    (PageTable.handle_fault PageTable.exampleState 0x80000000).isFatal = false ∧
    ∃ s', PageTable.handle_fault PageTable.exampleState 0x80000000 = Exec.ok s' ∧
      PageTable.exampleState.mem 0x3000 = 2 ∧ s'.mem 0x3000 = 0x4003 ∧
      PageTable.exampleState.pools.map ContFramePool.nFreeFrames = [4] ∧
      s'.pools.map ContFramePool.nFreeFrames = [3] :=
  ⟨by decide, by decide, by decide, _, rfl, by decide, by decide, by decide, by decide⟩

/-! ## VMPool: `release` -/

namespace VMPool

theorem find_region_eq_none (vp : VMPool) (a : Nat)
    (h : ∀ i, i < vp.total_regions → (vp.allocated_region_array i).base_address ≠ a) :
    vp.find_region a = none := by
  unfold find_region
  rw [List.range_eq_range']
  apply find_range'_eq_none
  intro j _ hj
  exact decide_eq_false (h j (by omega))

theorem find_region_eq_some (vp : VMPool) (a d : Nat) (hd : d < vp.total_regions)
    (hbase : (vp.allocated_region_array d).base_address = a)
    (hfirst : ∀ j, j < d → (vp.allocated_region_array j).base_address ≠ a) :
    vp.find_region a = some d := by
  unfold find_region
  rw [List.range_eq_range']
  apply find_range'_eq_some _ _ _ _ (Nat.zero_le _) (by omega) (decide_eq_true hbase)
  intro j _ hj
  exact decide_eq_false (hfirst j hj)

theorem release_of_find_region_none {σ : Type} (free_page : σ → Nat → Exec σ) (vp : VMPool)
    (pt : σ) (a : Nat) (h : vp.find_region a = none) :
    vp.release free_page pt a = Exec.ok (vp, pt) := by
  unfold release
  rw [h]

theorem release_of_find_region_some {σ : Type} (free_page : σ → Nat → Exec σ) (vp : VMPool)
    (pt pt' : σ) (a d : Nat) (h : vp.find_region a = some d)
    (hfree : free_pages free_page (vp.allocated_region_array d).base_address
      (List.range ((vp.allocated_region_array d).size / PAGE_SIZE)) pt = Exec.ok pt') :
    vp.release free_page pt a = Exec.ok
      ({ vp with
          allocated_region_array := shift_left vp.allocated_region_array d vp.total_regions,
          total_regions := vp.total_regions - 1 }, pt') := by
  unfold release
  simp only [h, hfree]

theorem free_pages_recordPage (base : Nat) : ∀ (l : List Nat) (trace : List Nat),
    free_pages recordPage base l trace =
      Exec.ok (trace ++ l.map (fun i => add32 base (mul32 i PAGE_SIZE))) := by
  intro l
  induction l with
  | nil => intro trace; simp [free_pages]
  | cons i rest ih =>
    intro trace
    rw [free_pages]
    simp only [recordPage]
    rw [ih]
    simp

theorem page_address_eq (a size i : Nat) (hw : a + size ≤ WORD)
    (hi : i < size / PAGE_SIZE) : add32 a (mul32 i PAGE_SIZE) = a + i * 4096 := by
  unfold add32 mul32 PAGE_SIZE WORD at *
  omega


/-- C17. When some region has base address exactly `a`, `release(a)` removes that entry (the
first such entry `d`): the entries before it keep their slots, the entries behind it move
one slot to the left in unchanged order, the region count goes down by 1, and `free_page` is
called once for each page address `a + i*4096`, `0 <= i < size/4096`, of the removed region,
in ascending order, and for no other address. -/
theorem release_matching (vp : VMPool) (a d : Nat) (hd : d < vp.total_regions)
    (hbase : (vp.allocated_region_array d).base_address = a)
    (hfirst : ∀ j, j < d → (vp.allocated_region_array j).base_address ≠ a)
    (hw : a + (vp.allocated_region_array d).size ≤ WORD) :
    ∃ vp', (∀ trace, vp.release recordPage trace a = Exec.ok (vp', trace ++
        (List.range ((vp.allocated_region_array d).size / 4096)).map
          (fun i => a + i * 4096))) ∧
      vp'.total_regions = vp.total_regions - 1 ∧
      (∀ j, j < d → vp'.allocated_region_array j = vp.allocated_region_array j) ∧
      (∀ j, d ≤ j → j + 1 < vp.total_regions →
        vp'.allocated_region_array j = vp.allocated_region_array (j + 1)) ∧
      vp'.base_address = vp.base_address ∧ vp'.size = vp.size := by
  have hfind := find_region_eq_some vp a d hd hbase hfirst
  have hsl := shift_left_spec vp.total_regions (vp.total_regions - 1 - d) d
    vp.allocated_region_array rfl
  refine ⟨{ vp with
      allocated_region_array := shift_left vp.allocated_region_array d vp.total_regions,
      total_regions := vp.total_regions - 1 }, ?_, rfl, ?_, ?_, rfl, rfl⟩
  · intro trace
    rw [release_of_find_region_some recordPage vp trace _ a d hfind
      (free_pages_recordPage _ _ trace), hbase]
    have hmap : (List.range ((vp.allocated_region_array d).size / PAGE_SIZE)).map
        (fun i => add32 a (mul32 i PAGE_SIZE)) =
        (List.range ((vp.allocated_region_array d).size / 4096)).map
          (fun i => a + i * 4096) := by
      apply List.map_congr_left
      intro i hi
      exact page_address_eq a _ i hw (List.mem_range.1 hi)
    rw [hmap]
  · intro j hj
    show shift_left _ _ _ j = _
    rw [hsl, if_neg (by omega)]
  · intro j hj1 hj2
    show shift_left _ _ _ j = _
    rw [hsl, if_pos ⟨hj1, hj2⟩]

theorem release_matching_witness :
    ∃ vp', (∀ trace, vmThree.release recordPage trace 0x40002000 =
        Exec.ok (vp', trace ++ [0x40002000])) ∧
      vp'.total_regions = 2 ∧
      vp'.allocated_region_array 0 = vmThree.allocated_region_array 0 ∧
      vp'.allocated_region_array 1 = vmThree.allocated_region_array 2 := by
  obtain ⟨vp', h1, h2, h3, h4, _⟩ :=
    release_matching vmThree 0x40002000 1 (by decide) (by decide) (by decide) (by decide)
  exact ⟨vp', h1, h2, h3 0 (by decide), h4 1 (by decide) (by decide)⟩

/-- C18. When no region has base address exactly `a` (an address strictly inside a region,
or any address on an empty pool), `release(a)` returns without a call into the page table:
the pool (region array and region count) and the page table object, with the frame pools
behind it, stay exactly as they were; calling it a second time changes nothing either. -/
theorem release_unmatched {σ : Type} (free_page : σ → Nat → Exec σ) (vp : VMPool) (pt : σ)
    (a : Nat)
    (h : ∀ i, i < vp.total_regions → (vp.allocated_region_array i).base_address ≠ a) :
    vp.release free_page pt a = Exec.ok (vp, pt) ∧
    (vp.release free_page pt a).bind (fun r => r.1.release free_page r.2 a)
      = vp.release free_page pt a := by
  have h1 := release_of_find_region_none free_page vp pt a (find_region_eq_none vp a h)
  refine ⟨h1, ?_⟩
  rw [h1]
  exact h1

theorem release_unmatched_witness :
    vmThree.release recordPage [] 0x40001800 = Exec.ok (vmThree, []) ∧
    vmEmpty.release recordPage [] 0x40001000 = Exec.ok (vmEmpty, []) :=
  ⟨(release_unmatched recordPage vmThree [] 0x40001800 (by decide)).1,
   (release_unmatched recordPage vmEmpty [] 0x40001000 (by decide)).1⟩

/-! ## VMPool: the empty table and the reachable tables -/


theorem allocating_size_eq (_size : Nat) (h1 : 1 ≤ _size) (h2 : _size ≤ WORD - 4096) :
    allocating_size _size = ((_size - 1) / 4096 + 1) * 4096 := by
  unfold allocating_size mul32 sub32 PAGE_SIZE
  unfold WORD at *
  omega

theorem allocating_size_least (_size : Nat) (h1 : 1 ≤ _size) (h2 : _size ≤ WORD - 4096) :
    _size ≤ allocating_size _size ∧ 4096 ∣ allocating_size _size ∧
    0 < allocating_size _size ∧ allocating_size _size < WORD ∧
    ∀ m, 4096 ∣ m → _size ≤ m → allocating_size _size ≤ m := by
  rw [allocating_size_eq _size h1 h2]
  unfold WORD at *
  refine ⟨by omega, Dvd.intro_left _ rfl, by omega, by omega, ?_⟩
  intro m hm hle
  obtain ⟨k, rfl⟩ := hm
  omega

theorem allocate_empty (vp : VMPool) (_size : Nat) (h0 : vp.total_regions = 0) :
    vp.allocate _size = vp.allocate_finish (Function.update vp.allocated_region_array 0
      { base_address := add32 vp.base_address PAGE_SIZE, size := allocating_size _size }) := by
  unfold allocate
  simp only [if_pos h0]

theorem allocate_finish_array (vp : VMPool) (arr : Nat → AllocatedRegion) :
    (vp.allocate_finish arr).2.allocated_region_array = arr := rfl

theorem allocate_finish_total (vp : VMPool) (arr : Nat → AllocatedRegion) :
    (vp.allocate_finish arr).2.total_regions = vp.total_regions + 1 := rfl

theorem allocate_finish_window (vp : VMPool) (arr : Nat → AllocatedRegion) :
    (vp.allocate_finish arr).2.base_address = vp.base_address ∧
    (vp.allocate_finish arr).2.size = vp.size := ⟨rfl, rfl⟩

theorem find_gap_single (vp : VMPool) (asize : Nat) (h1 : vp.total_regions = 1) :
    vp.find_gap asize = none := by
  unfold find_gap
  rw [h1]
  rfl


/-- C16, as amended. On a pool with no regions and `base_address + 4096 < 2^32`,
`allocate(size)`, for every `size` with `1 <= size <= 2^32 - 4096`, returns
`base_address + 4096` and records one region there whose size is the least multiple of 4096
that is at least `size`; a second `allocate` made directly afterwards that does not fail
returns the first address plus that rounded size, in 32-bit arithmetic (the plain sum when
it is below `2^32`). -/
theorem allocate_on_empty (vp : VMPool) (_size : Nat) (h0 : vp.total_regions = 0)
    (h1 : 1 ≤ _size) (h2 : _size ≤ WORD - 4096) (hB : vp.base_address + 4096 < WORD) :
    (vp.allocate _size).1 = vp.base_address + 4096 ∧
    (vp.allocate _size).2.total_regions = 1 ∧
    (vp.allocate _size).2.allocated_region_array 0 =
      { base_address := vp.base_address + 4096, size := allocating_size _size } ∧
    (_size ≤ allocating_size _size ∧ 4096 ∣ allocating_size _size ∧
      ∀ m, 4096 ∣ m → _size ≤ m → allocating_size _size ≤ m) ∧
    (∀ size2, (vp.allocate _size).2.allocate size2 ≠ (0, (vp.allocate _size).2) →
      ((vp.allocate _size).2.allocate size2).1 =
        add32 (vp.base_address + 4096) (allocating_size _size) ∧
      (vp.base_address + 4096 + allocating_size _size < WORD →
        ((vp.allocate _size).2.allocate size2).1 =
          vp.base_address + 4096 + allocating_size _size)) := by
  have hbase : add32 vp.base_address PAGE_SIZE = vp.base_address + 4096 :=
    add32_of_lt _ _ hB
  obtain ⟨hl1, hl2, _, _, hl5⟩ := allocating_size_least _size h1 h2
  have hfst : (vp.allocate _size).1 = vp.base_address + 4096 := by
    rw [allocate_empty vp _size h0, allocate_finish_fst, h0, Function.update_same]
    exact hbase
  have htot : (vp.allocate _size).2.total_regions = 1 := by
    rw [allocate_empty vp _size h0, allocate_finish_total, h0]
  have harr : (vp.allocate _size).2.allocated_region_array 0 =
      { base_address := vp.base_address + 4096, size := allocating_size _size } := by
    rw [allocate_empty vp _size h0, allocate_finish_array, Function.update_same, hbase]
  refine ⟨hfst, htot, harr, ⟨hl1, hl2, hl5⟩, ?_⟩
  intro size2 hne
  have hend : (vp.allocate _size).2.region_end ((vp.allocate _size).2.total_regions - 1) =
      add32 (vp.base_address + 4096) (allocating_size _size) := by
    rw [htot]
    unfold region_end
    rw [harr]
  have hsecond : ((vp.allocate _size).2.allocate size2).1 =
      add32 (vp.base_address + 4096) (allocating_size _size) := by
    rw [allocate_of_find_gap_none _ size2 (by rw [htot]; decide)
      (find_gap_single _ _ htot)] at hne ⊢
    split
    · rename_i hlt
      rw [if_pos hlt] at hne
      exact absurd rfl hne
    · rw [allocate_finish_fst, Function.update_same, hend]
  exact ⟨hsecond, fun hlt => by rw [hsecond, add32_of_lt _ _ hlt]⟩

/-- Witness of C16: two successive `allocate(4096)` on the empty pool over
`[0x40000000, 0x41000000)` return `base_address + 4096` and `base_address + 8192`. -/
theorem allocate_on_empty_witness :
    (vmEmpty.allocate 4096).1 = 0x40000000 + 4096 ∧
    ((vmEmpty.allocate 4096).2.allocate 4096).1 = 0x40000000 + 8192 := by
  obtain ⟨h1, _, _, _, h5⟩ :=
    allocate_on_empty vmEmpty 4096 (by decide) (by decide) (by decide) (by decide)
  exact ⟨h1, (h5 4096 (fun h => absurd (congrArg Prod.fst h) (by decide))).2 (by decide)⟩

/-- C16 (the claim at a concrete pool). On the empty pool `allocate(0xFFFFFFFF)` returns
`base_address + 4096` and records a region of size 0: the page count `2^20` is right, its
product with 4096 is `2^32`, which wraps to 0.  The region recorded is smaller than the
size asked for. -/
theorem allocate_huge_size_wraps :
    vmEmpty.regions = [] ∧
    (vmEmpty.allocate 0xFFFFFFFF).1 = 0x40001000 ∧
    (vmEmpty.allocate 0xFFFFFFFF).2.regions = [⟨0x40001000, 0⟩] :=
  ⟨by decide, by decide, by decide⟩

/-! ## VMPool: the reachable region tables -/

theorem sorted_construct (B S : Nat) (slots : Nat → AllocatedRegion) (hw : B + S ≤ WORD) :
    (construct B S slots).Sorted ∧
    ∀ i, i < (construct B S slots).total_regions →
      0 < ((construct B S slots).allocated_region_array i).size := by
  refine ⟨⟨hw, ?_, ?_⟩, ?_⟩
  · intro i hi; exact absurd hi (Nat.not_lt_zero _)
  · intro i hi; exact absurd hi (Nat.not_lt_zero _)
  · intro i hi; exact absurd hi (Nat.not_lt_zero _)

theorem sorted_allocate_empty (vp : VMPool) (_size : Nat) (hs : vp.Sorted)
    (h0 : vp.total_regions = 0) (h1 : 1 ≤ _size) (h2 : _size ≤ WORD - 4096)
    (hfit : PAGE_SIZE + allocating_size _size ≤ vp.size) :
    (vp.allocate _size).2.Sorted ∧
    ∀ i, i < (vp.allocate _size).2.total_regions →
      0 < ((vp.allocate _size).2.allocated_region_array i).size := by
  obtain ⟨_, _, hpos, _, _⟩ := allocating_size_least _size h1 h2
  have hw := hs.1
  unfold PAGE_SIZE at hfit
  have hbase : add32 vp.base_address PAGE_SIZE = vp.base_address + 4096 :=
    add32_of_lt _ _ (by unfold PAGE_SIZE; omega)
  rw [allocate_empty vp _size h0]
  have harr : ∀ i, i < 1 → (vp.allocate_finish (Function.update vp.allocated_region_array 0
      { base_address := add32 vp.base_address PAGE_SIZE,
        size := allocating_size _size })).2.allocated_region_array i =
      { base_address := vp.base_address + 4096, size := allocating_size _size } := by
    intro i hi
    have : i = 0 := by omega
    rw [this, allocate_finish_array, Function.update_same, hbase]
  refine ⟨⟨hw, ?_, ?_⟩, ?_⟩
  · intro i hi
    rw [allocate_finish_total, h0] at hi
    rw [harr i hi]
    show vp.base_address < vp.base_address + 4096 ∧ vp.base_address + 4096 < WORD ∧
      vp.base_address + 4096 + allocating_size _size ≤ vp.base_address + vp.size
    omega
  · intro i hi hi1
    rw [allocate_finish_total, h0] at hi
    omega
  · intro i hi
    rw [allocate_finish_total, h0] at hi
    rw [harr i hi]
    exact hpos


theorem sorted_allocate_interior (vp : VMPool) (_size i : Nat) (hs : vp.Sorted)
    (hp : ∀ j, j < vp.total_regions → 0 < (vp.allocated_region_array j).size)
    (h1 : 1 ≤ _size) (h2 : _size ≤ WORD - 4096)
    (hfind : vp.find_gap (allocating_size _size) = some i) :
    (vp.allocate _size).2.Sorted ∧
    ∀ j, j < (vp.allocate _size).2.total_regions →
      0 < ((vp.allocate _size).2.allocated_region_array j).size := by
  obtain ⟨_, _, hpos, _, _⟩ := allocating_size_least _size h1 h2
  obtain ⟨hi1, hi2, hfit, _⟩ := find_range'_some _ _ _ _ hfind
  have hi3 : i < vp.total_regions := by omega
  have hgap := (gap_fits_iff vp hs _ i hi1 hi3).1 hfit
  unfold gap at hgap
  have hend := region_end_of_sorted vp hs (i - 1) (by omega)
  unfold region_end at hend
  have hsr := shift_right_spec vp.allocated_region_array vp.total_regions
    (vp.total_regions - i) i rfl (by omega)
  obtain ⟨hw, hc, hsort⟩ := hs
  rw [allocate_of_find_gap_some vp _size i (by omega) hfind]
  have hnew : ∀ j, (vp.allocate_finish
      (Function.update (shift_right vp.allocated_region_array i vp.total_regions) i
        { base_address :=
            add32 (shift_right vp.allocated_region_array i vp.total_regions (i - 1)).base_address
              (shift_right vp.allocated_region_array i vp.total_regions (i - 1)).size,
          size := allocating_size _size })).2.allocated_region_array j =
      if j = i then
        { base_address := (vp.allocated_region_array (i - 1)).base_address +
            (vp.allocated_region_array (i - 1)).size, size := allocating_size _size }
      else if i < j ∧ j ≤ vp.total_regions then vp.allocated_region_array (j - 1)
      else vp.allocated_region_array j := by
    intro j
    rw [allocate_finish_array]
    by_cases hj : j = i
    · rw [if_pos hj, hj, Function.update_same, hsr (i - 1), if_neg (by omega), hend]
    · rw [if_neg hj, Function.update_noteq hj, hsr j]
  have hci := hc i hi3
  have hcp := hc (i - 1) (by omega)
  have hsi := hsort i hi3 hi1
  refine ⟨⟨hw, ?_, ?_⟩, ?_⟩
  · intro j hj
    rw [allocate_finish_total] at hj
    rw [hnew j]
    by_cases hji : j = i
    · rw [if_pos hji]
      show vp.base_address < _ + _ ∧ _ + _ < WORD ∧
        _ + _ + allocating_size _size ≤ vp.base_address + vp.size
      omega
    · rw [if_neg hji]
      by_cases hr : i < j ∧ j ≤ vp.total_regions
      · rw [if_pos hr]; exact hc (j - 1) (by omega)
      · rw [if_neg hr]; exact hc j (by omega)
  · intro j hj hj1
    rw [allocate_finish_total] at hj
    rw [hnew j, hnew (j - 1)]
    by_cases hji : j = i
    · rw [if_pos hji, if_neg (by omega), if_neg (by omega), hji]
    · rw [if_neg hji]
      by_cases hr : i < j ∧ j ≤ vp.total_regions
      · rw [if_pos hr]
        by_cases hj2 : j - 1 = i
        · rw [if_pos hj2, hj2]
          show (vp.allocated_region_array (i - 1)).base_address +
            (vp.allocated_region_array (i - 1)).size + allocating_size _size ≤ _
          omega
        · rw [if_neg hj2, if_pos (by omega)]
          exact hsort (j - 1) (by omega) (by omega)
      · rw [if_neg hr, if_neg (by omega), if_neg (by omega)]
        exact hsort j (by omega) hj1
  · intro j hj
    rw [allocate_finish_total] at hj
    rw [hnew j]
    by_cases hji : j = i
    · rw [if_pos hji]; exact hpos
    · rw [if_neg hji]
      by_cases hr : i < j ∧ j ≤ vp.total_regions
      · rw [if_pos hr]; exact hp (j - 1) (by omega)
      · rw [if_neg hr]; exact hp j (by omega)


theorem sorted_allocate_tail (vp : VMPool) (_size : Nat) (hs : vp.Sorted)
    (hp : ∀ j, j < vp.total_regions → 0 < (vp.allocated_region_array j).size)
    (h0 : vp.total_regions ≠ 0) (h1 : 1 ≤ _size) (h2 : _size ≤ WORD - 4096)
    (hfind : vp.find_gap (allocating_size _size) = none) :
    (vp.allocate _size).2.Sorted ∧
    ∀ j, j < (vp.allocate _size).2.total_regions →
      0 < ((vp.allocate _size).2.allocated_region_array j).size := by
  obtain ⟨_, _, hpos, _, _⟩ := allocating_size_least _size h1 h2
  rw [allocate_of_find_gap_none vp _size h0 hfind, tail_gap_eq vp hs (by omega)]
  by_cases htail : vp.tail_gap < allocating_size _size
  · rw [if_pos htail]
    exact ⟨hs, hp⟩
  · rw [if_neg htail]
    unfold tail_gap at htail
    obtain ⟨hw, hc, hsort⟩ := hs
    have hcl := hc (vp.total_regions - 1) (by omega)
    have hend : vp.region_end (vp.total_regions - 1) =
        (vp.allocated_region_array (vp.total_regions - 1)).base_address +
          (vp.allocated_region_array (vp.total_regions - 1)).size :=
      add32_of_lt _ _ (by omega)
    have hnew : ∀ j, (vp.allocate_finish
        (Function.update vp.allocated_region_array vp.total_regions
          { base_address := vp.region_end (vp.total_regions - 1),
            size := allocating_size _size })).2.allocated_region_array j =
        if j = vp.total_regions then
          { base_address := (vp.allocated_region_array (vp.total_regions - 1)).base_address +
              (vp.allocated_region_array (vp.total_regions - 1)).size,
            size := allocating_size _size }
        else vp.allocated_region_array j := by
      intro j
      rw [allocate_finish_array]
      by_cases hj : j = vp.total_regions
      · rw [if_pos hj, hj, Function.update_same, hend]
      · rw [if_neg hj, Function.update_noteq hj]
    refine ⟨⟨hw, ?_, ?_⟩, ?_⟩
    · intro j hj
      rw [allocate_finish_total] at hj
      rw [hnew j]
      by_cases hjt : j = vp.total_regions
      · rw [if_pos hjt]
        show vp.base_address < _ + _ ∧ _ + _ < WORD ∧
          _ + _ + allocating_size _size ≤ vp.base_address + vp.size
        omega
      · rw [if_neg hjt]; exact hc j (by omega)
    · intro j hj hj1
      rw [allocate_finish_total] at hj
      rw [hnew j, hnew (j - 1), if_neg (by omega)]
      by_cases hjt : j = vp.total_regions
      · rw [if_pos hjt, hjt]
      · rw [if_neg hjt]; exact hsort j (by omega) hj1
    · intro j hj
      rw [allocate_finish_total] at hj
      rw [hnew j]
      by_cases hjt : j = vp.total_regions
      · rw [if_pos hjt]; exact hpos
      · rw [if_neg hjt]; exact hp j (by omega)

theorem vm_release_ok_cases {σ : Type} (free_page : σ → Nat → Exec σ)
    (vp vp' : VMPool)
    (pt pt' : σ) (a : Nat) (h : vp.release free_page pt a = Exec.ok (vp', pt')) :
    vp' = vp ∨ ∃ d, d < vp.total_regions ∧
      vp' = { vp with
        allocated_region_array := shift_left vp.allocated_region_array d vp.total_regions,
        total_regions := vp.total_regions - 1 } := by
  unfold release at h
  cases hfind : vp.find_region a with
  | none =>
    rw [hfind] at h
    cases h
    exact Or.inl rfl
  | some d =>
    rw [hfind] at h
    simp only [] at h
    have hd : d < vp.total_regions := by
      unfold find_region at hfind
      rw [List.range_eq_range'] at hfind
      have := (find_range'_some _ _ _ _ hfind).2.1
      omega
    split at h
    · cases h
      exact Or.inr ⟨d, hd, rfl⟩
    · cases h
    · cases h
    · cases h

theorem sorted_release (vp : VMPool) (d : Nat) (hd : d < vp.total_regions) (hs : vp.Sorted)
    (hp : ∀ j, j < vp.total_regions → 0 < (vp.allocated_region_array j).size) :
    ({ vp with
        allocated_region_array := shift_left vp.allocated_region_array d vp.total_regions,
        total_regions := vp.total_regions - 1 } : VMPool).Sorted ∧
    ∀ j, j < vp.total_regions - 1 →
      0 < (shift_left vp.allocated_region_array d vp.total_regions j).size := by
  have hsl := shift_left_spec vp.total_regions (vp.total_regions - 1 - d) d
    vp.allocated_region_array rfl
  obtain ⟨hw, hc, hsort⟩ := hs
  refine ⟨⟨hw, ?_, ?_⟩, ?_⟩
  · intro j hj
    have hj' : j < vp.total_regions - 1 := hj
    show vp.base_address < (shift_left _ _ _ j).base_address ∧
      (shift_left _ _ _ j).base_address < WORD ∧
      (shift_left _ _ _ j).base_address + (shift_left _ _ _ j).size
        ≤ vp.base_address + vp.size
    rw [hsl j]
    by_cases hr : d ≤ j ∧ j + 1 < vp.total_regions
    · rw [if_pos hr]; exact hc (j + 1) hr.2
    · rw [if_neg hr]; exact hc j (by omega)
  · intro j hj hj1
    have hj' : j < vp.total_regions - 1 := hj
    show (shift_left _ _ _ (j - 1)).base_address + (shift_left _ _ _ (j - 1)).size
      ≤ (shift_left _ _ _ j).base_address
    rw [hsl j, hsl (j - 1)]
    by_cases hr : d ≤ j ∧ j + 1 < vp.total_regions
    · rw [if_pos hr]
      by_cases hr2 : d ≤ j - 1 ∧ j - 1 + 1 < vp.total_regions
      · rw [if_pos hr2]
        have := hsort (j + 1) (by omega) (by omega)
        rw [Nat.add_sub_cancel] at this
        rw [Nat.sub_add_cancel hj1]
        exact this
      · rw [if_neg hr2]
        have h1 := hsort j (by omega) hj1
        have h2 := hsort (j + 1) (by omega) (by omega)
        rw [Nat.add_sub_cancel] at h2
        omega
    · rw [if_neg hr, if_neg (by omega)]
      exact hsort j (by omega) hj1
  · intro j hj
    rw [hsl j]
    by_cases hr : d ≤ j ∧ j + 1 < vp.total_regions
    · rw [if_pos hr]; exact hp (j + 1) hr.2
    · rw [if_neg hr]; exact hp j (by omega)

theorem allocate_window (vp : VMPool) (_size : Nat) :
    (vp.allocate _size).2.base_address = vp.base_address ∧
    (vp.allocate _size).2.size = vp.size := by
  by_cases h0 : vp.total_regions = 0
  · rw [allocate_empty vp _size h0]
    exact ⟨rfl, rfl⟩
  · cases hfind : vp.find_gap (allocating_size _size) with
    | some i =>
      rw [allocate_of_find_gap_some vp _size i h0 hfind]
      exact ⟨rfl, rfl⟩
    | none =>
      rw [allocate_of_find_gap_none vp _size h0 hfind]
      split
      · exact ⟨rfl, rfl⟩
      · exact ⟨rfl, rfl⟩

theorem reachableFit_inv (B S : Nat) (slots : Nat → AllocatedRegion) (hw : B + S ≤ WORD)
    (vp : VMPool) (hr : ReachableFit B S slots vp) :
    vp.size = S ∧ vp.Sorted ∧
    ∀ j, j < vp.total_regions → 0 < (vp.allocated_region_array j).size := by
  induction hr with
  | construct =>
    exact ⟨rfl, (sorted_construct B S slots hw).1, (sorted_construct B S slots hw).2⟩
  | allocate vp _size _ h1 h2 hfit ih =>
    obtain ⟨hS, hs, hp⟩ := ih
    refine ⟨by rw [(allocate_window vp _size).2, hS], ?_⟩
    by_cases h0 : vp.total_regions = 0
    · exact sorted_allocate_empty vp _size hs h0 h1 h2 (by rw [hS]; exact hfit h0)
    · cases hfind : vp.find_gap (allocating_size _size) with
      | some i => exact sorted_allocate_interior vp _size i hs hp h1 h2 hfind
      | none => exact sorted_allocate_tail vp _size hs hp h0 h1 h2 hfind
  | release free_page vp vp' pt pt' a _ hrel ih =>
    obtain ⟨hS, hs, hp⟩ := ih
    rcases vm_release_ok_cases free_page vp vp' pt pt' a hrel with h | ⟨d, hd, h⟩
    · rw [h]; exact ⟨hS, hs, hp⟩
    · rw [h]
      exact ⟨hS, (sorted_release vp d hd hs hp).1, (sorted_release vp d hd hs hp).2⟩

/-- C19, as amended. In every pool state reachable from the construction of a pool whose
window `[B, B + S)` does not wrap, by calls of `release(addr)` and of `allocate(size)` with
`1 <= size <= 2^32 - 4096`, an `allocate` on the empty table being made only with a rounded
size that fits behind the metadata page, the region table is sorted and non-overlapping
(entry `i` ends at or before the start of entry `i + 1`) and every entry has positive
size. -/
theorem region_table_sorted (B S : Nat) (slots : Nat → AllocatedRegion) (hw : B + S ≤ WORD)
    (vp : VMPool) (hr : ReachableFit B S slots vp) :
    (∀ i, i + 1 < vp.total_regions →
      (vp.allocated_region_array i).base_address + (vp.allocated_region_array i).size
        ≤ (vp.allocated_region_array (i + 1)).base_address) ∧
    ∀ i, i < vp.total_regions → 0 < (vp.allocated_region_array i).size := by
  obtain ⟨_, hs, hp⟩ := reachableFit_inv B S slots hw vp hr
  refine ⟨?_, hp⟩
  intro i hi
  have := hs.2.2 (i + 1) hi (by omega)
  rw [Nat.add_sub_cancel] at this
  exact this


theorem region_table_sorted_witness :
    (vmTwo.allocated_region_array 0).base_address + (vmTwo.allocated_region_array 0).size
      ≤ (vmTwo.allocated_region_array 1).base_address ∧
    0 < (vmTwo.allocated_region_array 1).size := by
  obtain ⟨h1, h2⟩ := region_table_sorted 0x40000000 0x1000000 (fun _ => ⟨0, 0⟩) (by decide)
    vmTwo
    (ReachableFit.allocate _ 4096
      (ReachableFit.allocate _ 4096 ReachableFit.construct (by decide) (by decide)
        (by decide))
      (by decide) (by decide) (by decide))
  exact ⟨h1 0 (by decide), h2 1 (by decide)⟩

/-- C19 (the claim at a concrete pool). One `allocate(0xFFFFFFFF)` on the freshly
constructed pool records an entry of size 0: its rounded size `2^20 * 4096` wraps to 0. -/
theorem allocate_records_empty_region :
    (vmEmpty.allocate 0xFFFFFFFF).2.total_regions = 1 ∧
    ((vmEmpty.allocate 0xFFFFFFFF).2.allocated_region_array 0).size = 0 :=
  ⟨by decide, by decide⟩

end VMPool

/-- C20 (the code at the failing input). The window of `vmSmall` is
`[0x40000000, 0x40002000)`: one page behind the metadata page.  On the empty table
`allocate(8192)` does not fail: it records the region `[0x40001000, 0x40003000)`, which
ends behind the window, and returns `0x40001000`.  On a non-empty table the same request
goes through the bound check of the append path and fails with 0. -/
theorem allocate_empty_table_unchecked :
    VMPool.vmSmall.regions = [] ∧
    VMPool.vmSmall.base_address + VMPool.vmSmall.size = 0x40002000 ∧
    (VMPool.vmSmall.allocate 8192).1 = 0x40001000 ∧
    (VMPool.vmSmall.allocate 8192).2.regions = [⟨0x40001000, 8192⟩] ∧
    ((VMPool.vmSmall.allocate 4096).2.allocate 8192).1 = 0 ∧
    ((VMPool.vmSmall.allocate 4096).2.allocate 8192).2.regions = [⟨0x40001000, 4096⟩] :=
  ⟨by decide, by decide, by decide, by decide, by decide, by decide⟩

/-! ## Bit fields of addresses and entries -/

namespace PageTable

theorem and_fff (x : Nat) : x &&& 0xFFF = x % 4096 :=
  Nat.and_pow_two_sub_one_eq_mod x 12

theorem and_3ff (x : Nat) : x &&& 0x3FF = x % 1024 :=
  Nat.and_pow_two_sub_one_eq_mod x 10

theorem shr_22 (x : Nat) : x >>> 22 = x / 4194304 :=
  Nat.shiftRight_eq_div_pow x 22

theorem shr_12 (x : Nat) : x >>> 12 = x / 4096 :=
  Nat.shiftRight_eq_div_pow x 12

/-- The frame base of an entry: bits 12..31. -/
theorem and_frame_mask (x : Nat) : x &&& 0xFFFFF000 = x % 4294967296 / 4096 * 4096 := by
  have h1 : (0xFFFFF000 : Nat) = (2 ^ 20 - 1) <<< 12 := by decide
  have h2 : x % 4294967296 / 4096 * 4096 = ((x % 2 ^ 32) >>> 12) <<< 12 := by
    rw [Nat.shiftRight_eq_div_pow, Nat.shiftLeft_eq]
    norm_num
  rw [h1, h2]
  apply Nat.eq_of_testBit_eq
  intro i
  simp only [Nat.testBit_and, Nat.testBit_shiftLeft, Nat.testBit_shiftRight,
    Nat.testBit_mod_two_pow, Nat.testBit_two_pow_sub_one]
  by_cases h : 12 ≤ i
  · by_cases h' : i < 32
    · have e1 : i - 12 < 20 := by omega
      have e2 : 12 + (i - 12) = i := by omega
      simp [h, h', e1, e2]
    · have e1 : ¬ (i - 12 < 20) := by omega
      have e2 : 12 + (i - 12) = i := by omega
      simp [h, h', e1, e2]
  · simp [h]

theorem or_three (a : Nat) : (4096 * a) ||| 3 = 4096 * a + 3 :=
  (Nat.mul_add_lt_is_or (by decide : 3 < 2 ^ 12) a).symm

theorem mul32_page (f : Nat) : mul32 f PAGE_SIZE = 4096 * (f % 1048576) := by
  unfold mul32 PAGE_SIZE WORD
  omega

/-- The entry `F*4096 | 3` written by `handle_fault`, as a number. -/
theorem entry_value (f : Nat) : mul32 f PAGE_SIZE ||| 3 = 4096 * (f % 1048576) + 3 := by
  rw [mul32_page, or_three]

set_option maxRecDepth 100000 in
theorem table_window (d : Nat) (h : d < 1024) :
    0xFFC00000 ||| (d <<< 12) = 0xFFC00000 + 4096 * d := by
  revert d
  decide


/-! ## Address translation through the recursive self-map -/

theorem translate_congr (s t : PagingState) (hm : s.mem = t.mem) (hc : s.cr3 = t.cr3)
    (a : Nat) : translate s a = translate t a := by
  unfold translate
  rw [hm, hc]

theorem selfMapped_congr (s t : PagingState) (hm : s.mem = t.mem) (hc : s.cr3 = t.cr3)
    (h : SelfMapped s) : SelfMapped t := by
  unfold SelfMapped at *
  rw [← hm, ← hc]
  exact h

theorem cr3_aligned (s : PagingState) (h : SelfMapped s) :
    s.cr3 % 4096 = 0 ∧ s.cr3 < 4294967296 := by
  have h2 := h.2
  rw [and_frame_mask] at h2
  omega

/-- The word `d` of the directory window at `0xFFFFF000` is directory entry `d`. -/
theorem translate_dir (s : PagingState) (h : SelfMapped s) (d : Nat) (hd : d < 1024) :
    translate s (0xFFFFF000 + 4 * d) = some (s.cr3 + 4 * d) := by
  have e1 : (0xFFFFF000 + 4 * d) >>> 22 = 1023 := by rw [shr_22]; omega
  have e2 : ((0xFFFFF000 + 4 * d) >>> 12) &&& 0x3FF = 1023 := by
    rw [shr_12, and_3ff]; omega
  have e3 : (0xFFFFF000 + 4 * d) &&& 0xFFF = 4 * d := by rw [and_fff]; omega
  unfold translate
  simp only [e1, e2, e3, if_neg h.1, h.2]

/-- The word `k` of the table window at `0xFFC00000 | (d << 12)` is entry `k` of the table
that directory entry `d` references, when that entry is present. -/
theorem translate_tab (s : PagingState) (h : SelfMapped s) (d k : Nat) (hd : d < 1024)
    (hk : k < 1024) (hp : s.mem (s.cr3 + 4 * d) &&& 1 ≠ 0) :
    translate s ((0xFFC00000 ||| (d <<< 12)) + 4 * k) =
      some ((s.mem (s.cr3 + 4 * d) &&& 0xFFFFF000) + 4 * k) := by
  rw [table_window d hd]
  have e1 : (0xFFC00000 + 4096 * d + 4 * k) >>> 22 = 1023 := by rw [shr_22]; omega
  have e2 : ((0xFFC00000 + 4096 * d + 4 * k) >>> 12) &&& 0x3FF = d := by
    rw [shr_12, and_3ff]; omega
  have e3 : (0xFFC00000 + 4096 * d + 4 * k) &&& 0xFFF = 4 * k := by rw [and_fff]; omega
  unfold translate
  simp only [e1, e2, e3, if_neg h.1, h.2, if_neg hp]

theorem vread_of_translate (s : PagingState) (a pa : Nat) (h : translate s a = some pa) :
    vread s a = Exec.ok (s.mem pa) := by
  unfold vread
  rw [h]

theorem vwrite_of_translate (s : PagingState) (a pa w : Nat) (h : translate s a = some pa) :
    vwrite s a w = Exec.ok { s with mem := Function.update s.mem pa w } := by
  unfold vwrite
  rw [h]

theorem process_get_frames_eq (s : PagingState) (n f : Nat) (pool pool' : ContFramePool)
    (hpool : s.pools.get? s.process_mem_pool = some pool)
    (hget : pool.get_frames n = Exec.ok (f, pool')) :
    process_get_frames s n =
      Exec.ok (f, { s with pools := s.pools.set s.process_mem_pool pool' }) := by
  unfold process_get_frames
  rw [hpool]
  simp only [hget, Exec.map]

theorem index_bounds (addr : Nat) (h : addr < WORD) :
    addr >>> 22 < 1024 ∧ (addr >>> 12) &&& 0x3FF < 1024 := by
  unfold WORD at h
  rw [shr_22, shr_12, and_3ff]
  omega

end PageTable

namespace PageTable

/-! ## `handle_fault` -/

theorem handle_fault_present (s : PagingState) (addr f : Nat) (pool pool' : ContFramePool)
    (haddr : addr < WORD) (hself : SelfMapped s)
    (hpres : s.mem (s.cr3 + 4 * (addr >>> 22)) &&& 1 ≠ 0)
    (hpool : s.pools.get? s.process_mem_pool = some pool)
    (hget : pool.get_frames 1 = Exec.ok (f, pool')) :
    handle_fault s addr = Exec.ok
      { s with
        mem := Function.update s.mem
          ((s.mem (s.cr3 + 4 * (addr >>> 22)) &&& 0xFFFFF000) + 4 * ((addr >>> 12) &&& 0x3FF))
          (mul32 f PAGE_SIZE ||| 3),
        pools := s.pools.set s.process_mem_pool pool' } := by
  obtain ⟨hd, hk⟩ := index_bounds addr haddr
  have hs1 : SelfMapped { s with pools := s.pools.set s.process_mem_pool pool' } :=
    selfMapped_congr s _ rfl rfl hself
  unfold handle_fault
  simp only [search_pools_guard, Bool.false_eq_true, if_false]
  rw [vread_of_translate s _ _ (translate_dir s hself _ hd)]
  simp only [Exec.bind, if_neg hpres]
  rw [process_get_frames_eq s 1 f pool pool' hpool hget]
  simp only []
  rw [vwrite_of_translate _ _ _ _ (translate_tab _ hs1 _ _ hd hk hpres)]


theorem foldl_update_apply (T v : Nat) : ∀ (l : List Nat) (m : Nat → Nat) (a : Nat),
    (l.foldl (fun m i => Function.update m (T + 4 * i) v) m) a =
      if ∃ i, i ∈ l ∧ a = T + 4 * i then v else m a := by
  intro l
  induction l with
  | nil => intro m a; simp
  | cons j rest ih =>
    intro m a
    rw [List.foldl_cons, ih]
    by_cases hex : ∃ i, i ∈ rest ∧ a = T + 4 * i
    · obtain ⟨i, hi, ha⟩ := hex
      rw [if_pos ⟨i, hi, ha⟩, if_pos ⟨i, List.mem_cons_of_mem _ hi, ha⟩]
    · rw [if_neg hex]
      by_cases haj : a = T + 4 * j
      · rw [haj, Function.update_same, if_pos ⟨j, List.mem_cons_self _ _, rfl⟩]
      · rw [Function.update_noteq haj, if_neg]
        rintro ⟨i, hi, ha⟩
        rcases List.mem_cons.1 hi with h | h
        · exact haj (by rw [ha, h])
        · exact hex ⟨i, h, ha⟩

theorem init_table_spec (d T : Nat) (hd : d < 1024) (hT : T % 4096 = 0) :
    ∀ (l : List Nat) (s : PagingState), (∀ i, i ∈ l → i < 1024) → SelfMapped s →
      T ≠ s.cr3 → s.mem (s.cr3 + 4 * d) &&& 1 ≠ 0 →
      s.mem (s.cr3 + 4 * d) &&& 0xFFFFF000 = T →
      init_table (0xFFC00000 ||| (d <<< 12)) l s = Exec.ok
        { s with mem := l.foldl (fun m i => Function.update m (T + 4 * i) (0 ||| 2)) s.mem } := by
  intro l
  induction l with
  | nil => intro s _ _ _ _ _; rfl
  | cons j rest ih =>
    intro s hl hself hne hp hbase
    have hj : j < 1024 := hl j (List.mem_cons_self _ _)
    have hal := cr3_aligned s hself
    rw [init_table, vwrite_of_translate _ _ _ _ (translate_tab s hself d j hd hj hp), hbase]
    simp only [Exec.bind]
    have hkeep : ∀ e, e < 1024 →
        Function.update s.mem (T + 4 * j) (0 ||| 2) (s.cr3 + 4 * e) = s.mem (s.cr3 + 4 * e) := by
      intro e he
      apply Function.update_noteq
      omega
    rw [ih { s with mem := Function.update s.mem (T + 4 * j) (0 ||| 2) }
      (fun i hi => hl i (List.mem_cons_of_mem _ hi))
      (by
        unfold SelfMapped
        show Function.update s.mem _ _ (s.cr3 + 4 * 1023) &&& 1 ≠ 0 ∧
          Function.update s.mem _ _ (s.cr3 + 4 * 1023) &&& 0xFFFFF000 = s.cr3
        rw [hkeep 1023 (by omega)]
        exact hself)
      hne
      (by
        show Function.update s.mem _ _ (s.cr3 + 4 * d) &&& 1 ≠ 0
        rw [hkeep d hd]; exact hp)
      (by
        show Function.update s.mem _ _ (s.cr3 + 4 * d) &&& 0xFFFFF000 = T
        rw [hkeep d hd]; exact hbase)]
    rfl

theorem entry_present (f : Nat) :
    (mul32 f PAGE_SIZE ||| 3) &&& 1 ≠ 0 ∧
    (mul32 f PAGE_SIZE ||| 3) &&& 0xFFFFF000 = mul32 f PAGE_SIZE ∧
    mul32 f PAGE_SIZE % 4096 = 0 := by
  rw [entry_value, Nat.and_one_is_mod, and_frame_mask, mul32_page]
  omega

theorem handle_fault_not_present (s : PagingState) (addr f : Nat)
    (pool pool' : ContFramePool) (haddr : addr < WORD) (hself : SelfMapped s)
    (hnp : s.mem (s.cr3 + 4 * (addr >>> 22)) &&& 1 = 0)
    (hpool : s.pools.get? s.process_mem_pool = some pool)
    (hget : pool.get_frames 1 = Exec.ok (f, pool'))
    (hT : mul32 f PAGE_SIZE ≠ s.cr3) :
    handle_fault s addr = Exec.ok
      { s with
        mem := (List.range 1024).foldl
          (fun m i => Function.update m (mul32 f PAGE_SIZE + 4 * i) (0 ||| 2))
          (Function.update s.mem (s.cr3 + 4 * (addr >>> 22)) (mul32 f PAGE_SIZE ||| 3)),
        pools := s.pools.set s.process_mem_pool pool' } := by
  obtain ⟨hd, _⟩ := index_bounds addr haddr
  obtain ⟨he1, he2, he3⟩ := entry_present f
  have hs1 : SelfMapped { s with pools := s.pools.set s.process_mem_pool pool' } :=
    selfMapped_congr s _ rfl rfl hself
  have hd1023 : addr >>> 22 ≠ 1023 := by
    intro h
    rw [h] at hnp
    exact hself.1 hnp
  have hs2 : SelfMapped
      { s with
        mem := Function.update s.mem (s.cr3 + 4 * (addr >>> 22)) (mul32 f PAGE_SIZE ||| 3),
        pools := s.pools.set s.process_mem_pool pool' } := by
    unfold SelfMapped
    show Function.update s.mem _ _ (s.cr3 + 4 * 1023) &&& 1 ≠ 0 ∧
      Function.update s.mem _ _ (s.cr3 + 4 * 1023) &&& 0xFFFFF000 = s.cr3
    rw [Function.update_noteq (by omega)]
    exact hself
  unfold handle_fault
  simp only [search_pools_guard, Bool.false_eq_true, if_false]
  rw [vread_of_translate s _ _ (translate_dir s hself _ hd)]
  simp only [Exec.bind, if_pos hnp]
  rw [process_get_frames_eq s 1 f pool pool' hpool hget]
  simp only []
  rw [vwrite_of_translate _ _ _ _ (translate_dir _ hs1 _ hd)]
  simp only []
  rw [init_table_spec (addr >>> 22) (mul32 f PAGE_SIZE) hd he3 (List.range 1024) _
    (fun i hi => List.mem_range.1 hi) hs2 hT
    (by
      show Function.update s.mem _ _ (s.cr3 + 4 * (addr >>> 22)) &&& 1 ≠ 0
      rw [Function.update_same]; exact he1)
    (by
      show Function.update s.mem _ _ (s.cr3 + 4 * (addr >>> 22)) &&& 0xFFFFF000 = _
      rw [Function.update_same]; exact he2)]

end PageTable

namespace PageTable

theorem frames_disjoint (T c i e : Nat) (hT : T % 4096 = 0) (hc : c % 4096 = 0)
    (hne : T ≠ c) (hi : i < 1024) (he : e < 1024) : c + 4 * e ≠ T + 4 * i := by
  omega

theorem mem_after_table_init (m : Nat → Nat) (T c d v : Nat) (hT : T % 4096 = 0)
    (hc : c % 4096 = 0) (hne : T ≠ c) (hd : d < 1024) :
    ((List.range 1024).foldl (fun m i => Function.update m (T + 4 * i) (0 ||| 2))
        (Function.update m (c + 4 * d) v)) (c + 4 * d) = v ∧
    (∀ e, e < 1024 → e ≠ d →
      ((List.range 1024).foldl (fun m i => Function.update m (T + 4 * i) (0 ||| 2))
        (Function.update m (c + 4 * d) v)) (c + 4 * e) = m (c + 4 * e)) ∧
    (∀ i, i < 1024 →
      ((List.range 1024).foldl (fun m i => Function.update m (T + 4 * i) (0 ||| 2))
        (Function.update m (c + 4 * d) v)) (T + 4 * i) = 2) ∧
    (∀ a, a ≠ c + 4 * d → (∀ i, i < 1024 → a ≠ T + 4 * i) →
      ((List.range 1024).foldl (fun m i => Function.update m (T + 4 * i) (0 ||| 2))
        (Function.update m (c + 4 * d) v)) a = m a) := by
  refine ⟨?_, ?_, ?_, ?_⟩
  · rw [foldl_update_apply, if_neg, Function.update_same]
    rintro ⟨i, hi, ha⟩
    exact frames_disjoint T c i d hT hc hne (List.mem_range.1 hi) hd ha
  · intro e he hed
    rw [foldl_update_apply, if_neg, Function.update_noteq (by omega)]
    rintro ⟨i, hi, ha⟩
    exact frames_disjoint T c i e hT hc hne (List.mem_range.1 hi) he ha
  · intro i hi
    rw [foldl_update_apply, if_pos ⟨i, List.mem_range.2 hi, rfl⟩]
    rfl
  · intro a ha1 ha2
    rw [foldl_update_apply, if_neg, Function.update_noteq ha1]
    rintro ⟨i, hi, ha⟩
    exact ha2 i (List.mem_range.1 hi) ha

theorem exampleState_selfMapped : SelfMapped exampleState := by
  unfold SelfMapped
  decide

theorem exampleState_pool :
    exampleState.pools.get? exampleState.process_mem_pool =
      some (((ContFramePool.pool8.mark_run 1 1).mark_run 2 1).mark_run 3 1) := rfl

theorem exampleState_get_frames :
    (((ContFramePool.pool8.mark_run 1 1).mark_run 2 1).mark_run 3 1).get_frames 1 =
      Exec.ok (4, (((ContFramePool.pool8.mark_run 1 1).mark_run 2 1).mark_run 3 1).mark_run
        4 1) :=
  ContFramePool.get_frames_of_search_some _ 1 4 (by decide) (by decide)

end PageTable

namespace PageTable

/-- The translation of an address depends on two words only: its directory entry and its
table entry. -/
theorem translate_stable (s t : PagingState) (a pa : Nat) (ht : translate s a = some pa)
    (hc : t.cr3 = s.cr3)
    (h1 : t.mem (s.cr3 + 4 * (a >>> 22)) = s.mem (s.cr3 + 4 * (a >>> 22)))
    (h2 : t.mem ((s.mem (s.cr3 + 4 * (a >>> 22)) &&& 0xFFFFF000) + 4 * ((a >>> 12) &&& 0x3FF))
      = s.mem ((s.mem (s.cr3 + 4 * (a >>> 22)) &&& 0xFFFFF000) + 4 * ((a >>> 12) &&& 0x3FF))) :
    translate t a = some pa := by
  unfold translate at *
  simp only [] at *
  rw [hc, h1, h2]
  exact ht

theorem translate_some_present (s : PagingState) (a pa : Nat) (ht : translate s a = some pa) :
    s.mem (s.cr3 + 4 * (a >>> 22)) &&& 1 ≠ 0 := by
  intro h
  unfold translate at ht
  simp only [h, if_true] at ht
  cases ht

theorem frame_base_aligned (x : Nat) :
    (x &&& 0xFFFFF000) % 4096 = 0 ∧ x &&& 0xFFFFF000 < 4294967296 := by
  rw [and_frame_mask]
  omega

end PageTable

namespace PageTableMP3

open PageTable

theorem kernel_get_frames_eq (s : PagingState) (n f : Nat) (pool pool' : ContFramePool)
    (hpool : s.pools.get? s.kernel_mem_pool = some pool)
    (hget : pool.get_frames n = Exec.ok (f, pool')) :
    kernel_get_frames s n =
      Exec.ok (f, { s with pools := s.pools.set s.kernel_mem_pool pool' }) := by
  unfold kernel_get_frames
  rw [hpool]
  simp only [hget, Exec.map]

/-- The else branch of the MP3 handler, with the directory word and the table word reached
at their physical addresses. -/
theorem handle_fault_present_mp3 (s : PagingState) (addr f : Nat)
    (pool pool' : ContFramePool) (hload : s.page_directory = s.cr3)
    (hD : translate s (s.cr3 + 4 * (addr >>> 22)) = some (s.cr3 + 4 * (addr >>> 22)))
    (hpres : s.mem (s.cr3 + 4 * (addr >>> 22)) &&& 1 ≠ 0)
    (hE : translate s
        ((s.mem (s.cr3 + 4 * (addr >>> 22)) &&& 0xFFFFF000) + 4 * ((addr >>> 12) &&& 0x3FF)) =
      some ((s.mem (s.cr3 + 4 * (addr >>> 22)) &&& 0xFFFFF000) + 4 * ((addr >>> 12) &&& 0x3FF)))
    (hpool : s.pools.get? s.process_mem_pool = some pool)
    (hget : pool.get_frames 1 = Exec.ok (f, pool')) :
    handle_fault s addr = Exec.ok
      { s with
        mem := Function.update s.mem
          ((s.mem (s.cr3 + 4 * (addr >>> 22)) &&& 0xFFFFF000) + 4 * ((addr >>> 12) &&& 0x3FF))
          (mul32 f PAGE_SIZE ||| 3),
        pools := s.pools.set s.process_mem_pool pool' } := by
  have hD' : translate s (s.page_directory + 4 * (addr >>> 22)) =
      some (s.cr3 + 4 * (addr >>> 22)) := by rw [hload]; exact hD
  unfold handle_fault
  simp only []
  rw [vread_of_translate s _ _ hD']
  simp only [Exec.bind, if_neg hpres]
  rw [process_get_frames_eq s 1 f pool pool' hpool hget]
  simp only []
  exact vwrite_of_translate { s with pools := s.pools.set s.process_mem_pool pool' } _ _ _
    ((translate_congr _ s rfl rfl _).trans hE)

theorem init_table_mp3 (T : Nat) (hT : T % 4096 = 0) (hTw : T < 4294967296) :
    ∀ (l : List Nat) (s : PagingState), (∀ i, i ∈ l → i < 1024) →
      s.cr3 % 4096 = 0 → T ≠ s.cr3 →
      T ≠ s.mem (s.cr3 + 4 * (T >>> 22)) &&& 0xFFFFF000 →
      (∀ i, i < 1024 → translate s (T + 4 * i) = some (T + 4 * i)) →
      init_table T l s = Exec.ok
        { s with mem := l.foldl (fun m i => Function.update m (T + 4 * i) (0 ||| 2)) s.mem } := by
  intro l
  induction l with
  | nil => intro s _ _ _ _ _; rfl
  | cons j rest ih =>
    intro s hl hc hne hne2 hid
    have hj : j < 1024 := hl j (List.mem_cons_self _ _)
    rw [init_table, vwrite_of_translate _ _ _ _ (hid j hj)]
    simp only [Exec.bind]
    have hq : T >>> 22 < 1024 := by rw [shr_22]; omega
    have hkeep1 : Function.update s.mem (T + 4 * j) (0 ||| 2) (s.cr3 + 4 * (T >>> 22)) =
        s.mem (s.cr3 + 4 * (T >>> 22)) :=
      Function.update_noteq (frames_disjoint T s.cr3 j _ hT hc hne hj hq) _ _
    have hi22 : ∀ i, i < 1024 → (T + 4 * i) >>> 22 = T >>> 22 := by
      intro i hi
      rw [shr_22, shr_22]; omega
    have hi12 : ∀ i, i < 1024 → ((T + 4 * i) >>> 12) &&& 0x3FF < 1024 := by
      intro i hi
      rw [and_3ff]; omega
    obtain ⟨hb1, hb2⟩ := frame_base_aligned (s.mem (s.cr3 + 4 * (T >>> 22)))
    rw [ih { s with mem := Function.update s.mem (T + 4 * j) (0 ||| 2) }
      (fun i hi => hl i (List.mem_cons_of_mem _ hi)) hc hne
      (by
        show T ≠ Function.update s.mem _ _ (s.cr3 + 4 * (T >>> 22)) &&& 0xFFFFF000
        rw [hkeep1]; exact hne2)
      (by
        intro i hi
        refine translate_stable s _ _ _ (hid i hi) rfl ?_ ?_
        · show Function.update s.mem _ _ _ = _
          rw [hi22 i hi]; exact hkeep1
        · show Function.update s.mem _ _ _ = _
          rw [hi22 i hi]
          exact Function.update_noteq
            (frames_disjoint T _ j _ hT hb1 hne2 hj (hi12 i hi)) _ _)]
    rfl

end PageTableMP3

namespace PageTableMP3

open PageTable

/-- The not-present branch of the MP3 handler, with the directory word and the words of the
new table reached at their physical addresses, and the new table frame being neither the
directory nor one of the tables these words are translated through. -/
theorem handle_fault_not_present_mp3 (s : PagingState) (addr f : Nat)
    (pool pool' : ContFramePool) (haddr : addr < WORD) (hload : s.page_directory = s.cr3)
    (hc : s.cr3 % 4096 = 0)
    (hD : translate s (s.cr3 + 4 * (addr >>> 22)) = some (s.cr3 + 4 * (addr >>> 22)))
    (hnp : s.mem (s.cr3 + 4 * (addr >>> 22)) &&& 1 = 0)
    (hid : ∀ i, i < 1024 →
      translate s (mul32 f PAGE_SIZE + 4 * i) = some (mul32 f PAGE_SIZE + 4 * i))
    (hpool : s.pools.get? s.kernel_mem_pool = some pool)
    (hget : pool.get_frames 1 = Exec.ok (f, pool'))
    (hT1 : mul32 f PAGE_SIZE ≠ s.cr3)
    (hT2 : mul32 f PAGE_SIZE ≠
      s.mem (s.cr3 + 4 * (mul32 f PAGE_SIZE >>> 22)) &&& 0xFFFFF000)
    (hD2 : s.mem (s.cr3 + 4 * (s.cr3 >>> 22)) &&& 0xFFFFF000 ≠ s.cr3)
    (hT3 : s.mem (s.cr3 + 4 * (mul32 f PAGE_SIZE >>> 22)) &&& 0xFFFFF000 ≠ s.cr3) :
    handle_fault s addr = Exec.ok
      { s with
        mem := (List.range 1024).foldl
          (fun m i => Function.update m (mul32 f PAGE_SIZE + 4 * i) (0 ||| 2))
          (Function.update s.mem (s.cr3 + 4 * (addr >>> 22)) (mul32 f PAGE_SIZE ||| 3)),
        pools := s.pools.set s.kernel_mem_pool pool' } := by
  obtain ⟨hd, _⟩ := index_bounds addr haddr
  obtain ⟨_, _, hTa⟩ := entry_present f
  have hTw : mul32 f PAGE_SIZE < 4294967296 := by rw [mul32_page]; omega
  generalize hTdef : mul32 f PAGE_SIZE = T at *
  generalize hDdef : s.cr3 + 4 * (addr >>> 22) = D at *
  have hd22 : D >>> 22 = s.cr3 >>> 22 := by
    rw [← hDdef, shr_22, shr_22]; omega
  have hDk : (D >>> 12) &&& 0x3FF < 1024 := by rw [and_3ff]; omega
  have hq : T >>> 22 < 1024 := by rw [shr_22]; omega
  have hpD : s.mem (s.cr3 + 4 * (s.cr3 >>> 22)) &&& 1 ≠ 0 := by
    have := translate_some_present s D D hD
    rwa [hd22] at this
  have hpT : s.mem (s.cr3 + 4 * (T >>> 22)) &&& 1 ≠ 0 := by
    have := translate_some_present s _ _ (hid 0 (by decide))
    rwa [Nat.mul_zero, Nat.add_zero] at this
  have hne1 : addr >>> 22 ≠ s.cr3 >>> 22 := by
    intro h
    rw [← hDdef, h] at hnp
    exact hpD hnp
  have hne2 : addr >>> 22 ≠ T >>> 22 := by
    intro h
    rw [← hDdef, h] at hnp
    exact hpT hnp
  obtain ⟨hbD, _⟩ := frame_base_aligned (s.mem (s.cr3 + 4 * (s.cr3 >>> 22)))
  obtain ⟨hbT, _⟩ := frame_base_aligned (s.mem (s.cr3 + 4 * (T >>> 22)))
  -- writes at `D` leave the translation of `D` and of the words of the new table alone
  have hkD : ∀ (v : Nat) (t : PagingState), t.cr3 = s.cr3 →
      t.mem = Function.update s.mem D v → translate t D = some D := by
    intro v t htc htm
    refine translate_stable s t D D hD htc ?_ ?_
    · rw [htm, hd22]
      exact Function.update_noteq (by omega) _ _
    · rw [htm, hd22]
      refine Function.update_noteq ?_ _ _
      exact fun h => frames_disjoint _ s.cr3 _ _ hbD hc hD2 hDk hd
        (by rw [hDdef]; exact h.symm)
  have hi22 : ∀ i, i < 1024 → (T + 4 * i) >>> 22 = T >>> 22 := by
    intro i hi
    rw [shr_22, shr_22]; omega
  have hi12 : ∀ i, i < 1024 → ((T + 4 * i) >>> 12) &&& 0x3FF < 1024 := by
    intro i hi
    rw [and_3ff]; omega
  have hkT : ∀ (v : Nat) (t : PagingState), t.cr3 = s.cr3 →
      t.mem = Function.update s.mem D v →
      ∀ i, i < 1024 → translate t (T + 4 * i) = some (T + 4 * i) := by
    intro v t htc htm i hi
    refine translate_stable s t _ _ (hid i hi) htc ?_ ?_
    · rw [htm, hi22 i hi]
      exact Function.update_noteq (by omega) _ _
    · rw [htm, hi22 i hi]
      refine Function.update_noteq ?_ _ _
      exact fun h => frames_disjoint _ s.cr3 _ _ hbT hc hT3 (hi12 i hi) hd
        (by rw [hDdef]; exact h.symm)
  have hD' : translate s (s.page_directory + 4 * (addr >>> 22)) = some D := by
    rw [hload, hDdef]; exact hD
  unfold handle_fault
  simp only []
  rw [vread_of_translate s _ _ hD']
  simp only [Exec.bind, if_pos hnp]
  rw [kernel_get_frames_eq s 1 f pool pool' hpool hget]
  simp only [hTdef]
  have hw1 : translate { s with pools := s.pools.set s.kernel_mem_pool pool' }
      (s.page_directory + 4 * (addr >>> 22)) = some D :=
    (translate_congr _ s rfl rfl _).trans hD'
  rw [vwrite_of_translate _ _ _ _ hw1]
  simp only []
  have hw2 : translate
      { s with mem := Function.update s.mem D T,
               pools := s.pools.set s.kernel_mem_pool pool' }
      (s.page_directory + 4 * (addr >>> 22)) = some D := by
    rw [hload, hDdef]
    exact hkD T _ rfl rfl
  rw [vread_of_translate _ _ _ hw2]
  simp only []
  rw [vwrite_of_translate _ _ _ _ hw2]
  simp only [Function.update_same, Function.update_idem]
  have hm3 : ∀ e, e ≠ addr >>> 22 →
      Function.update s.mem D (T ||| 3) (s.cr3 + 4 * e) = s.mem (s.cr3 + 4 * e) := by
    intro e he
    exact Function.update_noteq (by omega) _ _
  exact init_table_mp3 T hTa hTw (List.range 1024)
    { s with mem := Function.update s.mem D (T ||| 3),
             pools := s.pools.set s.kernel_mem_pool pool' }
    (fun i hi => List.mem_range.1 hi) hc hT1
    (by
      show T ≠ Function.update s.mem D (T ||| 3) (s.cr3 + 4 * (T >>> 22)) &&& 0xFFFFF000
      rw [hm3 _ (Ne.symm hne2)]; exact hT2)
    (hkT (T ||| 3) _ rfl rfl)

end PageTableMP3

namespace PageTable

theorem list_set_self {α : Type} : ∀ (l : List α) (i : Nat) (a : α),
    l.get? i = some a → l.set i a = l := by
  intro l
  induction l with
  | nil => intro i a h; rfl
  | cons x rest ih =>
    intro i a h
    cases i with
    | zero =>
      simp only [List.get?_cons_zero, Option.some.injEq] at h
      rw [List.set_cons_zero, h]
    | succ i =>
      simp only [List.get?_cons_succ] at h
      rw [List.set_cons_succ, ih i a h]

end PageTable

namespace PageTable

theorem mul32_zero_page : mul32 0 PAGE_SIZE = 0 := by decide

theorem exampleStateFull_selfMapped : SelfMapped exampleStateFull := by
  unfold SelfMapped
  decide

theorem exampleStateFull_pool :
    exampleStateFull.pools.get? exampleStateFull.process_mem_pool =
      some ContFramePool.poolFull := rfl

theorem exampleStateFull_get_frames :
    ContFramePool.poolFull.get_frames 1 = Exec.ok (0, ContFramePool.poolFull) :=
  ContFramePool.get_frames_of_guard _ 1 (by decide)

/-- The memory of `exampleStateFull` and its pool agree on the bitmap: the pool keeps it in
frame 8, outside the frames 1..7 it manages and away from frame 0, and the word at `0x8000`
is made of the bitmap bytes. -/
theorem exampleStateFull_bitmap :
    ContFramePool.poolFull.info_frame_no = 8 ∧ ContFramePool.poolFull.base_frame_no = 1 ∧
    ContFramePool.poolFull.nframes = 7 ∧
    exampleStateFull.mem (8 * 4096) =
      ContFramePool.poolFull.bitmap 0 + 256 * ContFramePool.poolFull.bitmap 1 +
        65536 * ContFramePool.poolFull.bitmap 2 + 16777216 * ContFramePool.poolFull.bitmap 3 := by
  decide

/-- C14 (the code at the failing input). In `exampleStateFull` the process pool, `poolFull`,
has no free frame and `get_frames(1)` returns 0.  A fault at `0x80000000`, whose directory
entry is present, does not end fatally: the handler of MP4 returns, and the table entry of
the address, NotPresent before, is the present entry `0*4096 | 3 = 3` afterwards. -/
theorem handle_fault_exhausted_not_fatal :
    ContFramePool.poolFull.nFreeFrames = 0 ∧
    exampleStateFull.pools.get? exampleStateFull.process_mem_pool =
      some ContFramePool.poolFull ∧
    ContFramePool.poolFull.get_frames 1 = Exec.ok (0, ContFramePool.poolFull) ∧
    exampleStateFull.mem 0x3000 = 2 ∧
    (handle_fault exampleStateFull 0x80000000).isFatal = false ∧
    ∃ s', handle_fault exampleStateFull 0x80000000 = Exec.ok s' ∧
      s'.mem 0x3000 = 3 ∧ s'.mem 0x3000 &&& 1 = 1 := by
  have h := handle_fault_present exampleStateFull 0x80000000 0 _ _ (by decide)
    exampleStateFull_selfMapped (by decide) exampleStateFull_pool exampleStateFull_get_frames
  refine ⟨by decide, exampleStateFull_pool, exampleStateFull_get_frames, by decide, ?_,
    _, h, by decide, by decide⟩
  rw [h]
  rfl

/-- C14 (amended). Frame exhaustion inside the fault handler is not detected.  For a
page-aligned directory base, a 32-bit fault address and a pool on which `get_frames(1)`
returns 0 and changes nothing:
* if the directory entry of the address is present, the handler of MP4 (the self-map in
  place) and the handler of MP3 (the table loaded, the directory word and the table word
  reached at their physical addresses), asking the process pool, both return normally with
  the present entry `0*4096 | 3 = 3` installed as the table entry of the address;
* if it is not present and the directory is not frame 0, the handler of MP4, asking the
  process pool, and the handler of MP3, asking the kernel pool (the words of frame 0 and the
  directory word reached at their physical addresses, through tables other than frame 0 and
  the directory), both return normally with the present entry 3 installed as the directory
  entry and the 1024 words of frame 0 overwritten with 2, whatever frame 0 held.
The directory base register is as before.  Nothing is said about the frame pools: a bitmap
kept in frame 0 is overwritten by these writes. -/
theorem handle_fault_frame_exhaustion (s : PagingState) (addr : Nat) (haddr : addr < WORD)
    (hc : s.cr3 % 4096 = 0) :
    (s.mem (s.cr3 + 4 * (addr >>> 22)) &&& 1 ≠ 0 →
      (∃ pool, s.pools.get? s.process_mem_pool = some pool ∧
        pool.get_frames 1 = Exec.ok (0, pool)) →
      ∃ s',
        (SelfMapped s → handle_fault s addr = Exec.ok s') ∧
        (s.page_directory = s.cr3 →
          translate s (s.cr3 + 4 * (addr >>> 22)) = some (s.cr3 + 4 * (addr >>> 22)) →
          translate s ((s.mem (s.cr3 + 4 * (addr >>> 22)) &&& 0xFFFFF000) +
              4 * ((addr >>> 12) &&& 0x3FF)) =
            some ((s.mem (s.cr3 + 4 * (addr >>> 22)) &&& 0xFFFFF000) +
              4 * ((addr >>> 12) &&& 0x3FF)) →
          PageTableMP3.handle_fault s addr = Exec.ok s') ∧
        s'.mem ((s.mem (s.cr3 + 4 * (addr >>> 22)) &&& 0xFFFFF000) +
          4 * ((addr >>> 12) &&& 0x3FF)) = 3 ∧
        s'.cr3 = s.cr3) ∧
    (s.mem (s.cr3 + 4 * (addr >>> 22)) &&& 1 = 0 → s.cr3 ≠ 0 →
      ∃ s',
        (SelfMapped s →
          (∃ pool, s.pools.get? s.process_mem_pool = some pool ∧
            pool.get_frames 1 = Exec.ok (0, pool)) →
          handle_fault s addr = Exec.ok s') ∧
        (s.page_directory = s.cr3 →
          (∃ pool, s.pools.get? s.kernel_mem_pool = some pool ∧
            pool.get_frames 1 = Exec.ok (0, pool)) →
          translate s (s.cr3 + 4 * (addr >>> 22)) = some (s.cr3 + 4 * (addr >>> 22)) →
          (∀ i, i < 1024 → translate s (4 * i) = some (4 * i)) →
          s.mem (s.cr3 + 4 * 0) &&& 0xFFFFF000 ≠ 0 →
          s.mem (s.cr3 + 4 * 0) &&& 0xFFFFF000 ≠ s.cr3 →
          s.mem (s.cr3 + 4 * (s.cr3 >>> 22)) &&& 0xFFFFF000 ≠ s.cr3 →
          PageTableMP3.handle_fault s addr = Exec.ok s') ∧
        s'.mem (s.cr3 + 4 * (addr >>> 22)) = 3 ∧
        (∀ i, i < 1024 → s'.mem (4 * i) = 2) ∧
        s'.cr3 = s.cr3) := by
  obtain ⟨hd, hk⟩ := index_bounds addr haddr
  have e0 := mul32_zero_page
  have e3 : (0 ||| 3 : Nat) = 3 := by decide
  constructor
  · rintro hpres ⟨pool, hpool, hget⟩
    refine ⟨{ s with
        mem := Function.update s.mem
          ((s.mem (s.cr3 + 4 * (addr >>> 22)) &&& 0xFFFFF000) + 4 * ((addr >>> 12) &&& 0x3FF))
          3 }, ?_, ?_, Function.update_same _ _ _, rfl⟩
    · intro hself
      have h := handle_fault_present s addr 0 pool pool haddr hself hpres hpool hget
      rw [e0, e3, list_set_self _ _ _ hpool] at h
      exact h
    · intro hload hD hE
      have h := PageTableMP3.handle_fault_present_mp3 s addr 0 pool pool hload hD hpres hE
        hpool hget
      rw [e0, e3, list_set_self _ _ _ hpool] at h
      exact h
  · intro hnp hz
    obtain ⟨m1, _, m3, _⟩ := mem_after_table_init s.mem 0 s.cr3 (addr >>> 22) 3 (by decide)
      hc (Ne.symm hz) hd
    generalize hM : (List.range 1024).foldl
      (fun m i => Function.update m (0 + 4 * i) (0 ||| 2))
      (Function.update s.mem (s.cr3 + 4 * (addr >>> 22)) 3) = M at m1 m3
    refine ⟨{ s with mem := M }, ?_, ?_, m1, ?_, rfl⟩
    · rintro hself ⟨pool, hpool, hget⟩
      have h := handle_fault_not_present s addr 0 pool pool haddr hself hnp hpool hget
        (by rw [e0]; exact Ne.symm hz)
      rw [e0, e3, list_set_self _ _ _ hpool, hM] at h
      exact h
    · rintro hload ⟨pool, hpool, hget⟩ hD hid hT2 hT3 hD2
      have h := PageTableMP3.handle_fault_not_present_mp3 s addr 0 pool pool haddr hload hc
        hD hnp (by intro i hi; rw [e0, Nat.zero_add]; exact hid i hi) hpool hget
        (by rw [e0]; exact Ne.symm hz) (by rw [e0]; exact Ne.symm hT2)
        hD2 (by rw [e0]; exact hT3)
      rw [e0, e3, list_set_self _ _ _ hpool, hM] at h
      exact h
    · intro i hi
      have := m3 i hi
      rw [Nat.zero_add] at this
      exact this

theorem exampleStateFull_identity (i : Nat) (hi : i < 1024) :
    translate exampleStateFull (4 * i) = some (4 * i) := by
  have e1 : (4 * i) >>> 22 = 0 := by rw [shr_22]; omega
  have e2 : ((4 * i) >>> 12) &&& 0x3FF = 0 := by rw [shr_12, and_3ff]; omega
  have e3 : (4 * i) &&& 0xFFF = 4 * i := by rw [and_fff]; omega
  have h1 : exampleStateFull.mem (exampleStateFull.cr3 + 4 * 0) = 0x2003 := by decide
  have h2 : exampleStateFull.mem ((0x2003 &&& 0xFFFFF000) + 4 * 0) = 3 := by decide
  unfold translate
  simp only [e1, e2, e3, h1, h2]
  simp
  decide

theorem handle_fault_frame_exhaustion_witness :
    (∃ s', handle_fault exampleStateFull 0x80000000 = Exec.ok s' ∧
      PageTableMP3.handle_fault exampleStateFull 0x80000000 = Exec.ok s' ∧
      s'.mem 0x3000 = 3 ∧ s'.cr3 = 0x1000) ∧
    (∃ s', handle_fault exampleStateFull 0x40001000 = Exec.ok s' ∧
      PageTableMP3.handle_fault exampleStateFull 0x40001000 = Exec.ok s' ∧
      s'.mem (0x1000 + 4 * 256) = 3 ∧ s'.mem (4 * 5) = 2 ∧ s'.cr3 = 0x1000) := by
  constructor
  · obtain ⟨s', h4, h3, h5, h6⟩ :=
      (handle_fault_frame_exhaustion exampleStateFull 0x80000000 (by decide) (by decide)).1
        (by decide) ⟨_, exampleStateFull_pool, exampleStateFull_get_frames⟩
    exact ⟨s', h4 exampleStateFull_selfMapped, h3 rfl (by decide) (by decide), h5, h6⟩
  · obtain ⟨s', h4, h3, h5, h6, h7⟩ :=
      (handle_fault_frame_exhaustion exampleStateFull 0x40001000 (by decide) (by decide)).2
        (by decide) (by decide)
    exact ⟨s', h4 exampleStateFull_selfMapped
        ⟨_, exampleStateFull_pool, exampleStateFull_get_frames⟩,
      h3 rfl ⟨_, exampleStateFull_pool, exampleStateFull_get_frames⟩ (by decide)
        exampleStateFull_identity (by decide) (by decide) (by decide),
      h5, h6 5 (by decide), h7⟩

end PageTable

namespace PageTable

theorem list_get_set {α : Type} : ∀ (l : List α) (i : Nat) (a b : α),
    l.get? i = some a → (l.set i b).get? i = some b := by
  intro l
  induction l with
  | nil => intro i a b h; cases h
  | cons x rest ih =>
    intro i a b h
    cases i with
    | zero => rfl
    | succ i =>
      simp only [List.get?_cons_succ] at h
      rw [List.set_cons_succ, List.get?_cons_succ]
      exact ih i a b h

/-- After a fault on a NotPresent directory entry the directory entry is present, the table
entry of the address is NotPresent, and the address does not translate. -/
theorem handle_fault_not_present_translate (s : PagingState) (addr f : Nat)
    (pool pool' : ContFramePool) (haddr : addr < WORD) (hself : SelfMapped s)
    (hnp : s.mem (s.cr3 + 4 * (addr >>> 22)) &&& 1 = 0)
    (hpool : s.pools.get? s.process_mem_pool = some pool)
    (hget : pool.get_frames 1 = Exec.ok (f, pool'))
    (hT : mul32 f PAGE_SIZE ≠ s.cr3) :
    ∃ s', handle_fault s addr = Exec.ok s' ∧ SelfMapped s' ∧ s'.cr3 = s.cr3 ∧
      s'.pools.get? s'.process_mem_pool = some pool' ∧
      s'.mem (s.cr3 + 4 * (addr >>> 22)) = mul32 f PAGE_SIZE ||| 3 ∧
      s'.mem (mul32 f PAGE_SIZE + 4 * ((addr >>> 12) &&& 0x3FF)) = 2 ∧
      translate s' addr = none := by
  obtain ⟨hd, hk⟩ := index_bounds addr haddr
  obtain ⟨he1, he2, he3⟩ := entry_present f
  obtain ⟨hc, _⟩ := cr3_aligned s hself
  have hd1023 : addr >>> 22 ≠ 1023 := by
    intro h
    rw [h] at hnp
    exact hself.1 hnp
  obtain ⟨m1, m2, m3, _⟩ := mem_after_table_init s.mem (mul32 f PAGE_SIZE) s.cr3
    (addr >>> 22) (mul32 f PAGE_SIZE ||| 3) he3 hc hT hd
  have h := handle_fault_not_present s addr f pool pool' haddr hself hnp hpool hget hT
  generalize (List.range 1024).foldl
    (fun m i => Function.update m (mul32 f PAGE_SIZE + 4 * i) (0 ||| 2))
    (Function.update s.mem (s.cr3 + 4 * (addr >>> 22)) (mul32 f PAGE_SIZE ||| 3)) = M
    at h m1 m2 m3
  refine ⟨_, h, ?_, rfl, list_get_set _ _ _ _ hpool, m1, m3 _ hk, ?_⟩
  · unfold SelfMapped
    show M (s.cr3 + 4 * 1023) &&& 1 ≠ 0 ∧ M (s.cr3 + 4 * 1023) &&& 0xFFFFF000 = s.cr3
    rw [m2 1023 (by decide) (Ne.symm hd1023)]
    exact hself
  · unfold translate
    show (if M (s.cr3 + 4 * (addr >>> 22)) &&& 1 = 0 then none
      else if M ((M (s.cr3 + 4 * (addr >>> 22)) &&& 0xFFFFF000) +
          4 * ((addr >>> 12) &&& 0x3FF)) &&& 1 = 0 then none
        else some ((M ((M (s.cr3 + 4 * (addr >>> 22)) &&& 0xFFFFF000) +
          4 * ((addr >>> 12) &&& 0x3FF)) &&& 0xFFFFF000) + (addr &&& 0xFFF))) = none
    rw [m1, if_neg he1, he2, m3 _ hk]
    rfl

/-- C11 (the code at the failing input). The address `0x40001000` is legitimate in exactly
one registered VM pool of `exampleState`, the process pool has a free frame (`get_frames(1)`
returns frame 4), and the directory entry of the address is NotPresent.  After
`handle_fault` returns, the directory entry is present but the table entry of the address
is NotPresent: the page is not present and the address does not translate. -/
theorem handle_fault_leaves_page_absent :
    (exampleState.vm_pools.filter (fun p => p.is_legitimate 0x40001000)).length = 1 ∧
    (∃ pool pool', exampleState.pools.get? exampleState.process_mem_pool = some pool ∧
      pool.get_frames 1 = Exec.ok (4, pool')) ∧
    ∃ s', handle_fault exampleState 0x40001000 = Exec.ok s' ∧
      s'.mem (s'.cr3 + 4 * (0x40001000 >>> 22)) &&& 1 ≠ 0 ∧
      s'.mem ((s'.mem (s'.cr3 + 4 * (0x40001000 >>> 22)) &&& 0xFFFFF000) +
        4 * ((0x40001000 >>> 12) &&& 0x3FF)) &&& 1 = 0 ∧
      translate s' 0x40001000 = none := by
  obtain ⟨s', h1, _, h3, _, h5, h6, h7⟩ :=
    handle_fault_not_present_translate exampleState 0x40001000 4 _ _ (by decide)
      exampleState_selfMapped (by decide) exampleState_pool exampleState_get_frames
      (by decide)
  obtain ⟨he1, he2, _⟩ := entry_present 4
  refine ⟨by decide, ⟨_, _, exampleState_pool, exampleState_get_frames⟩, s', h1, ?_, ?_, h7⟩
  · rw [h3, h5]
    exact he1
  · rw [h3, h5, he2, h6]
    decide

theorem exampleState_get_frames_two :
    ((((ContFramePool.pool8.mark_run 1 1).mark_run 2 1).mark_run 3 1).mark_run 4 1).get_frames
        1 =
      Exec.ok (5, ((((ContFramePool.pool8.mark_run 1 1).mark_run 2 1).mark_run 3 1).mark_run
        4 1).mark_run 5 1) :=
  ContFramePool.get_frames_of_search_some _ 1 5 (by decide) (by decide)

end PageTable

namespace PageTable

/-! ## `free_page` -/

theorem free_page_not_present (s : PagingState) (addr : Nat) (haddr : addr < WORD)
    (hself : SelfMapped s) (hdir : s.mem (s.cr3 + 4 * (addr >>> 22)) &&& 1 ≠ 0)
    (hent : s.mem ((s.mem (s.cr3 + 4 * (addr >>> 22)) &&& 0xFFFFF000) +
      4 * ((addr >>> 12) &&& 0x3FF)) &&& 1 = 0) :
    free_page s addr = Exec.ok s := by
  obtain ⟨hd, hk⟩ := index_bounds addr haddr
  unfold free_page
  simp only []
  rw [vread_of_translate s _ _ (translate_tab s hself _ _ hd hk hdir)]
  simp only [Exec.bind, hent]
  rfl

theorem free_page_present (s : PagingState) (addr : Nat) (pools' : List ContFramePool)
    (haddr : addr < WORD) (hself : SelfMapped s)
    (hdir : s.mem (s.cr3 + 4 * (addr >>> 22)) &&& 1 ≠ 0)
    (hent : s.mem ((s.mem (s.cr3 + 4 * (addr >>> 22)) &&& 0xFFFFF000) +
      4 * ((addr >>> 12) &&& 0x3FF)) &&& 1 = 1)
    (hrel : ContFramePool.release_frames s.pools
      (s.mem ((s.mem (s.cr3 + 4 * (addr >>> 22)) &&& 0xFFFFF000) +
        4 * ((addr >>> 12) &&& 0x3FF)) / PAGE_SIZE) = Exec.ok pools') :
    free_page s addr = Exec.ok
      { s with
        mem := Function.update s.mem
          ((s.mem (s.cr3 + 4 * (addr >>> 22)) &&& 0xFFFFF000) + 4 * ((addr >>> 12) &&& 0x3FF))
          2,
        pools := pools',
        cr3 := s.page_directory } := by
  obtain ⟨hd, hk⟩ := index_bounds addr haddr
  have hs1 : SelfMapped { s with pools := pools' } := selfMapped_congr s _ rfl rfl hself
  unfold free_page
  simp only []
  rw [vread_of_translate s _ _ (translate_tab s hself _ _ hd hk hdir)]
  simp only [Exec.bind, hent, if_true, hrel]
  rw [vwrite_of_translate _ _ _ _ (translate_tab _ hs1 _ _ hd hk hdir)]
  rfl

end PageTable

namespace ContFramePool

/-- The static `release_frames` releases inside the first pool of the registry whose range
test lets the frame through. -/
theorem release_frames_dispatch (P : ContFramePool) (post : List ContFramePool) (f : Nat) :
    ∀ pre : List ContFramePool,
      (∀ Q, Q ∈ pre → f < Q.base_frame_no ∨ f > Q.base_frame_no + Q.nframes) →
      ¬ (f < P.base_frame_no ∨ f > P.base_frame_no + P.nframes) →
      release_frames (pre ++ P :: post) f =
        (P.release_frame_within_pool f).map (fun q => pre ++ q :: post) := by
  intro pre
  induction pre with
  | nil =>
    intro _ hP
    simp only [List.nil_append, release_frames, if_neg hP]
  | cons Q rest ih =>
    intro hpre hP
    have hQ := hpre Q (List.mem_cons_self _ _)
    have e := ih (fun R hR => hpre R (List.mem_cons_of_mem _ hR)) hP
    rw [List.cons_append, release_frames, if_pos hQ, e]
    cases P.release_frame_within_pool f <;> rfl

/-- The release of a single-frame allocation. -/
theorem release_single_frame (p : ContFramePool) (f : Nat)
    (hf1 : p.base_frame_no ≤ f) (hf2 : f < p.base_frame_no + p.nframes)
    (hv : p.ValidStates)
    (hh : p.get_state (f - p.base_frame_no) = some FrameState.HoS)
    (hn : f - p.base_frame_no + 1 < p.nframes →
      p.get_state (f - p.base_frame_no + 1) ≠ some FrameState.Used)
    (hw : p.nFreeFrames + 1 < WORD) :
    ∃ p', p.release_frame_within_pool f = Exec.ok p' ∧
      p'.nFreeFrames = p.nFreeFrames + 1 ∧
      p'.get_state (f - p.base_frame_no) = some FrameState.Free ∧
      (∀ i, i ≠ f - p.base_frame_no → p'.get_state i = p.get_state i) := by
  obtain ⟨k, p', h1, h2, h3, h4, _, h6, h7, _⟩ :=
    release_frame_within_pool_head p f (by omega) hv hh
  have hk : k = 1 := by
    by_contra hne
    have hlt : f - p.base_frame_no + 1 < p.nframes := by omega
    exact hn hlt (h4 _ (by omega) (by omega))
  subst hk
  refine ⟨p', h1, ?_, ?_, ?_⟩
  · rw [h7, inc32_iterate 1 _ hw]
  · rw [h6, if_pos ⟨Nat.le_refl _, by omega⟩]
  · intro i hi
    rw [h6, if_neg (by omega)]

end ContFramePool

namespace PageTable

/-- C15 (the code at the failing input). The address `0x5000` lies in the first 4 MB of
`exampleState`, which the constructor maps one to one: its directory entry is present and
its table entry is the present entry `0x5003`.  Frame 5 is Free in the frame pool, so the
release inside `free_page` fails the assertion of `release_frame_within_pool`: `free_page`
ends fatally and the entry does not become NotPresent. -/
theorem free_page_unallocated_frame :
    exampleState.mem (exampleState.cr3 + 4 * (0x5000 >>> 22)) &&& 1 ≠ 0 ∧
    exampleState.mem ((exampleState.mem (exampleState.cr3 + 4 * (0x5000 >>> 22)) &&&
      0xFFFFF000) + 4 * ((0x5000 >>> 12) &&& 0x3FF)) = 0x5003 ∧
    (free_page exampleState 0x5000).isFatal = true := by
  decide

/-- C15 (amended). Method `free_page(addr)`, with the self-map in place, a 32-bit address
whose directory entry is present, and `e` the physical address of its table entry:
* if the table entry is not present, `free_page` returns the state unchanged (page table
  and frame pools);
* if it is present, `free_page` calls `release_frames` with the frame number in bits
  12..31 of the entry, and when that call returns the pools `pools'`, `free_page` returns
  with these pools, the entry set to 2 (NotPresent), every other word of memory unchanged
  and the directory reloaded;
* in particular, when the first pool `P` of the registry whose range test admits that frame
  holds it as a single-frame allocation (HeadOfSequence, not followed by a Used frame),
  `free_page` returns with `P` replaced by a pool in which the frame is Free and
  `nFreeFrames` is larger by 1. -/
theorem free_page_spec (s : PagingState) (addr e : Nat) (haddr : addr < WORD)
    (hself : SelfMapped s) (hdir : s.mem (s.cr3 + 4 * (addr >>> 22)) &&& 1 ≠ 0)
    (he : e = (s.mem (s.cr3 + 4 * (addr >>> 22)) &&& 0xFFFFF000) +
      4 * ((addr >>> 12) &&& 0x3FF)) :
    (s.mem e &&& 1 = 0 → free_page s addr = Exec.ok s) ∧
    (s.mem e &&& 1 = 1 →
      s.mem e / PAGE_SIZE = s.mem e >>> 12 ∧
      (∀ pools', ContFramePool.release_frames s.pools (s.mem e >>> 12) = Exec.ok pools' →
        ∃ s', free_page s addr = Exec.ok s' ∧ s'.pools = pools' ∧
          s'.mem e = 2 ∧ s'.mem e &&& 1 = 0 ∧ (∀ a, a ≠ e → s'.mem a = s.mem a) ∧
          s'.cr3 = s.page_directory) ∧
      (∀ (pre post : List ContFramePool) (P : ContFramePool),
        s.pools = pre ++ P :: post →
        (∀ Q, Q ∈ pre → s.mem e >>> 12 < Q.base_frame_no ∨
          s.mem e >>> 12 > Q.base_frame_no + Q.nframes) →
        P.base_frame_no ≤ s.mem e >>> 12 → s.mem e >>> 12 < P.base_frame_no + P.nframes →
        P.ValidStates →
        P.get_state (s.mem e >>> 12 - P.base_frame_no) = some FrameState.HoS →
        (s.mem e >>> 12 - P.base_frame_no + 1 < P.nframes →
          P.get_state (s.mem e >>> 12 - P.base_frame_no + 1) ≠ some FrameState.Used) →
        P.nFreeFrames + 1 < WORD →
        ∃ s' P', free_page s addr = Exec.ok s' ∧ s'.pools = pre ++ P' :: post ∧
          P'.nFreeFrames = P.nFreeFrames + 1 ∧
          P'.get_state (s.mem e >>> 12 - P.base_frame_no) = some FrameState.Free ∧
          s'.mem e = 2 ∧ (∀ a, a ≠ e → s'.mem a = s.mem a))) := by
  subst he
  generalize hE : (s.mem (s.cr3 + 4 * (addr >>> 22)) &&& 0xFFFFF000) +
    4 * ((addr >>> 12) &&& 0x3FF) = E
  have hdiv : s.mem E / PAGE_SIZE = s.mem E >>> 12 := by rw [shr_12]; rfl
  have key : ∀ pools', ContFramePool.release_frames s.pools (s.mem E >>> 12) =
      Exec.ok pools' → s.mem E &&& 1 = 1 →
      free_page s addr = Exec.ok
        { s with mem := Function.update s.mem E 2, pools := pools',
                 cr3 := s.page_directory } := by
    intro pools' hrel hent
    have := free_page_present s addr pools' haddr hself hdir (by rw [hE]; exact hent)
      (by rw [hE, hdiv]; exact hrel)
    rw [hE] at this
    exact this
  refine ⟨fun hent => free_page_not_present s addr haddr hself hdir (by rw [hE]; exact hent),
    fun hent => ⟨hdiv, ?_, ?_⟩⟩
  · intro pools' hrel
    exact ⟨_, key pools' hrel hent, rfl, Function.update_same _ _ _,
      by show Function.update s.mem E 2 E &&& 1 = 0; rw [Function.update_same]; decide,
      fun a ha => Function.update_noteq ha _ _, rfl⟩
  · intro pre post P hpools hpre hP1 hP2 hv hh hn hw
    obtain ⟨P', h1, h2, h3, _⟩ :=
      ContFramePool.release_single_frame P (s.mem E >>> 12) hP1 hP2 hv hh hn hw
    have hrel : ContFramePool.release_frames s.pools (s.mem E >>> 12) =
        Exec.ok (pre ++ P' :: post) := by
      rw [hpools, ContFramePool.release_frames_dispatch P post _ pre hpre (by omega), h1]
      rfl
    exact ⟨_, P', key _ hrel hent, rfl, h2, h3, Function.update_same _ _ _,
      fun a ha => Function.update_noteq ha _ _⟩

theorem exampleStateMapped_selfMapped : SelfMapped exampleStateMapped := by
  unfold SelfMapped
  decide

theorem free_page_spec_witness :
    exampleStateMapped.mem 0x3000 = 0x4003 ∧
    ∃ s' P', free_page exampleStateMapped 0x80000000 = Exec.ok s' ∧ s'.pools = [P'] ∧
      P'.nFreeFrames = 4 ∧ P'.get_state 4 = some FrameState.Free ∧ s'.mem 0x3000 = 2 := by
  obtain ⟨s', P', h1, h2, h3, h4, h5, _⟩ :=
    (free_page_spec exampleStateMapped 0x80000000 0x3000 (by decide)
      exampleStateMapped_selfMapped (by decide) (by decide)).2 (by decide) |>.2.2
      [] [] _ rfl (fun Q hQ => absurd hQ (List.not_mem_nil Q)) (by decide) (by decide)
      (ContFramePool.validStates_mark_run _ (ContFramePool.validStates_mark_run _
        (ContFramePool.validStates_mark_run _ (ContFramePool.validStates_mark_run _
          (ContFramePool.validStates_construct 0 8 0 (fun _ => 0)) 1 1) 2 1) 3 1) 4 1)
      (by decide) (by decide) (by decide)
  exact ⟨by decide, s', P', h1, h2, h3, h4, h5⟩

end PageTable

namespace VMPool


/-- C21 (the claim at a concrete pool). The window of `vmTop` is `[0xFFFF0000, 2^32)`.  The
address `0xFFFF8000` lies inside it, and `is_legitimate` returns false: the end of the
window, `base_address + size`, is 0 in 32-bit arithmetic, and every address is `>= 0`. -/
theorem is_legitimate_top_window :
    vmTop.base_address + vmTop.size = 4294967296 ∧
    vmTop.base_address ≤ 0xFFFF8000 ∧ 0xFFFF8000 < vmTop.base_address + vmTop.size ∧
    vmTop.is_legitimate 0xFFFF8000 = false := by
  decide

/-- C21 (amended). For every window whose end `base_address + size` is below `2^32` and
every address, `is_legitimate(address)` returns true if and only if
`base_address <= address < base_address + size`; the result does not depend on the region
table. -/
theorem is_legitimate_iff (vp : VMPool) (a : Nat) (hw : vp.base_address + vp.size < WORD) :
    (vp.is_legitimate a = true ↔ vp.base_address ≤ a ∧ a < vp.base_address + vp.size) ∧
    ∀ (arr : Nat → AllocatedRegion) (n : Nat),
      ({ vp with allocated_region_array := arr, total_regions := n } : VMPool).is_legitimate a
        = vp.is_legitimate a := by
  refine ⟨?_, fun _ _ => rfl⟩
  unfold is_legitimate
  rw [add32_of_lt _ _ hw]
  constructor
  · intro h
    by_contra hc
    rw [if_pos (by omega)] at h
    cases h
  · intro h
    rw [if_neg (by omega)]

theorem is_legitimate_iff_witness :
    vmEmpty.is_legitimate 0x40000000 = true ∧ vmEmpty.is_legitimate 0x40FFFFFF = true ∧
    vmEmpty.is_legitimate 0x41000000 = false ∧ vmEmpty.is_legitimate 0x3FFFFFFF = false ∧
    vmTwo.is_legitimate 0x40000000 = vmEmpty.is_legitimate 0x40000000 := by
  have h := fun a => (is_legitimate_iff vmEmpty a (by decide)).1
  refine ⟨(h _).2 (by decide), (h _).2 (by decide), ?_, ?_, ?_⟩
  · cases hb : vmEmpty.is_legitimate 0x41000000
    · rfl
    · exact absurd ((h _).1 hb).2 (by decide)
  · cases hb : vmEmpty.is_legitimate 0x3FFFFFFF
    · rfl
    · exact absurd ((h _).1 hb).1 (by decide)
  · exact (is_legitimate_iff vmEmpty 0x40000000 (by decide)).2 vmTwo.allocated_region_array 2

end VMPool

namespace ContFramePool


theorem needed_info_frames_eq (n : Nat) :
    needed_info_frames n = n / 16384 + (if n % 16384 > 0 then 1 else 0) := rfl

/-- C26. For every `n`, `needed_info_frames(n)` is the least `k` with `k * 16384 >= n`,
where `16384 = (4096 * 8) / 2`; for a 32-bit `n` the sum computed cannot wrap.  In
particular `needed_info_frames(0) = 0`, `needed_info_frames(16384) = 1` and
`needed_info_frames(16385) = 2`. -/
theorem needed_info_frames_ceil (n : Nat) :
    4096 * 8 / 2 = 16384 ∧
    n ≤ needed_info_frames n * 16384 ∧
    (∀ k, n ≤ k * 16384 → needed_info_frames n ≤ k) ∧
    (n < WORD → needed_info_frames n < WORD) ∧
    needed_info_frames 0 = 0 ∧ needed_info_frames 16384 = 1 ∧
    needed_info_frames 16385 = 2 := by
  refine ⟨by decide, ?_, ?_, ?_, by decide, by decide, by decide⟩
  · rw [needed_info_frames_eq]
    split <;> omega
  · intro k hk
    rw [needed_info_frames_eq]
    split <;> omega
  · intro hn
    rw [needed_info_frames_eq]
    unfold WORD at *
    split <;> omega

end ContFramePool

namespace VMPool

theorem allocating_size_zero : allocating_size 0 = 0 := by decide

theorem find_gap_zero (vp : VMPool) (h : 2 ≤ vp.total_regions) :
    vp.find_gap 0 = some 1 := by
  unfold find_gap
  obtain ⟨m, hm⟩ : ∃ m, vp.total_regions - 1 = m + 1 := ⟨vp.total_regions - 2, by omega⟩
  rw [hm, List.range'_succ, List.find?_cons]
  have : vp.gap_fits 0 1 = true := by
    unfold gap_fits
    simp
  rw [this]

/-- C29 (the claim at a concrete pool). On the empty pool `allocate(0)` succeeds, returning
`base_address + 4096`, and the region it records has size 0, not 4096. -/
theorem allocate_zero_records_empty_region :
    sub32 0 1 / PAGE_SIZE + 1 = 1048576 ∧ mul32 1048576 PAGE_SIZE = 0 ∧
    (vmEmpty.allocate 0).1 = 0x40001000 ∧
    (vmEmpty.allocate 0).2.regions = [⟨0x40001000, 0⟩] := by
  decide

/-- C29 (amended). Method `allocate(0)` does not round the size up to one page: in 32-bit
unsigned arithmetic `(0 - 1) / 4096 + 1` is `2^20` pages, and `2^20 * 4096` wraps to 0.  On
every pool `allocate(0)` records one more region, and that region has exactly 0 bytes: it is
entry 0 of an empty table and entry 1 of a non-empty one. -/
theorem allocate_zero (vp : VMPool) :
    allocating_size 0 = 0 ∧
    (vp.allocate 0).2.total_regions = vp.total_regions + 1 ∧
    ((vp.allocate 0).2.allocated_region_array (min vp.total_regions 1)).size = 0 := by
  have hz := allocating_size_zero
  refine ⟨hz, ?_⟩
  by_cases h0 : vp.total_regions = 0
  · rw [allocate_empty vp 0 h0, allocate_finish_total, allocate_finish_array, h0, hz]
    exact ⟨rfl, by rw [Nat.zero_min, Function.update_same]⟩
  · by_cases h1 : vp.total_regions = 1
    · have hf : vp.find_gap (allocating_size 0) = none := find_gap_single vp _ h1
      rw [allocate_of_find_gap_none vp 0 h0 hf, hz, if_neg (Nat.not_lt_zero _),
        allocate_finish_total, allocate_finish_array, h1]
      refine ⟨rfl, ?_⟩
      rw [Nat.min_self, Function.update_same]
    · have hf : vp.find_gap (allocating_size 0) = some 1 := by
        rw [hz]; exact find_gap_zero vp (by omega)
      rw [allocate_of_find_gap_some vp 0 1 h0 hf, allocate_finish_total,
        allocate_finish_array, hz]
      refine ⟨rfl, ?_⟩
      rw [Nat.min_eq_right (by omega), Function.update_same]

end VMPool

namespace ContFramePool

/-- C24. Construction of a pool over `frame_count` frames, `1 <= frame_count < 2^32`, on
any memory content: if `info_frame_no` is unset (0), frame index 0 is HeadOfSequence, every
other frame is Free and `nFreeFrames = frame_count - 1`; otherwise every frame of the pool
is Free and `nFreeFrames = frame_count`.  In both cases `nFreeFrames` equals the number of
Free frames. -/
theorem construct_spec (b n info : Nat) (mem : Nat → Nat) (h1 : 1 ≤ n) (hw : n < WORD) :
    (info = 0 →
      (construct b n info mem).get_state 0 = some FrameState.HoS ∧
      (∀ i, 1 ≤ i → i < n → (construct b n info mem).get_state i = some FrameState.Free) ∧
      (construct b n info mem).nFreeFrames = n - 1) ∧
    (info ≠ 0 →
      (∀ i, i < n → (construct b n info mem).get_state i = some FrameState.Free) ∧
      (construct b n info mem).nFreeFrames = n) ∧
    (construct b n info mem).nFreeFrames = (construct b n info mem).countFree ∧
    (construct b n info mem).base_frame_no = b ∧ (construct b n info mem).nframes = n := by
  have hc := countFree_construct b n info mem (fun _ => h1)
  refine ⟨?_, ?_, ?_, ?_⟩
  · intro hi
    subst hi
    obtain ⟨_, _, h3, _, h5⟩ := construct_self_hosted b n mem
    refine ⟨?_, ?_, ?_⟩
    · rw [h5 0 (by omega), if_pos rfl]
    · intro i hi1 hi2
      rw [h5 i hi2, if_neg (by omega)]
    · rw [h3, dec32_of_pos n (by omega) hw]
  · intro hi
    obtain ⟨_, _, h3, _, h5⟩ := construct_external b n info mem hi
    exact ⟨h5, h3⟩
  · rw [hc]
    by_cases hi : info = 0
    · subst hi
      rw [(construct_self_hosted b n mem).2.2.1, dec32_of_pos n (by omega) hw, if_pos rfl]
    · rw [(construct_external b n info mem hi).2.2.1, if_neg hi]
  · by_cases hi : info = 0
    · subst hi
      exact ⟨(construct_self_hosted b n mem).1, (construct_self_hosted b n mem).2.1⟩
    · exact ⟨(construct_external b n info mem hi).1, (construct_external b n info mem hi).2.1⟩

theorem construct_spec_witness :
    pool8.get_state 0 = some FrameState.HoS ∧ pool8.get_state 7 = some FrameState.Free ∧
    pool8.nFreeFrames = 7 ∧ poolHigh.get_state 0 = some FrameState.Free ∧
    poolHigh.nFreeFrames = 4 ∧ poolHigh.nFreeFrames = poolHigh.countFree := by
  obtain ⟨h1, _, _, _⟩ := construct_spec 0 8 0 (fun _ => 0) (by decide) (by decide)
  obtain ⟨_, h2, h3, _⟩ := construct_spec 4 4 1 (fun _ => 0) (by decide) (by decide)
  obtain ⟨a1, a2, a3⟩ := h1 rfl
  obtain ⟨b1, b2⟩ := h2 (by decide)
  exact ⟨a1, a2 7 (by decide) (by decide), a3, b1 0 (by decide), b2, h3⟩

end ContFramePool

namespace ContFramePool

set_option maxRecDepth 1000000 in
/-- C25 (the claim at the scenario's pool). On the pool of 1024 frames at base 0 with the
info frame unset, the first `get_frames(1)` returns `base + 1`, and the `get_frames(10)`
that follows returns `base + 2`, not `base + 11`. -/
theorem scenario_second_get_frames_not_eleven :
    ∃ p1 r p2, pool1024.get_frames 1 = Exec.ok (pool1024.base_frame_no + 1, p1) ∧
      p1.get_frames 10 = Exec.ok (r, p2) ∧ r ≠ pool1024.base_frame_no + 11 := by
  have h1 : pool1024.get_frames 1 = Exec.ok (1, pool1024.mark_run 1 1) :=
    get_frames_of_search_some pool1024 1 1 (by decide) (by decide)
  have h2 : (pool1024.mark_run 1 1).get_frames 10 =
      Exec.ok (2, (pool1024.mark_run 1 1).mark_run 2 10) :=
    get_frames_of_search_some (pool1024.mark_run 1 1) 10 2 (by decide) (by decide)
  exact ⟨_, 2, _, h1, h2, by decide⟩

/-- C25 (amended). Scenario: on the pool with 1024 frames and the info frame unset, at any
base and on any memory content, the first `get_frames(1)` returns `base + 1`, and the
`get_frames(10)` that follows returns `base + 2`, the frame directly behind the one just
handed out, and marks the frames `base + 2 .. base + 11`. -/
theorem scenario_second_get_frames (b : Nat) (mem : Nat → Nat) :
    ∃ p1 p2, (construct b 1024 0 mem).get_frames 1 = Exec.ok (b + 1, p1) ∧
      p1.get_frames 10 = Exec.ok (b + 2, p2) ∧
      p2.get_state 2 = some FrameState.HoS ∧
      (∀ i, 3 ≤ i → i ≤ 11 → p2.get_state i = some FrameState.Used) ∧
      p2.get_state 12 = some FrameState.Free ∧ p2.nFreeFrames = 1012 := by
  obtain ⟨c1, c2, c3, _, c5⟩ := construct_self_hosted b 1024 mem
  have hv0 := validStates_construct b 1024 0 mem
  have hN : (construct b 1024 0 mem).nFreeFrames = 1023 := by
    rw [c3]; decide
  have hs1 : (construct b 1024 0 mem).get_frames_search 1 = Exec.ok (some 1) := by
    apply get_frames_search_eq_some _ 1 1 (by decide) hv0
    · refine ⟨by rw [c2]; decide, ?_⟩
      intro i hi1 hi2
      rw [c5 i (by omega), if_neg (by omega)]
    · intro t ht hrun
      have := hrun.2 0 (by omega) (by omega)
      rw [c5 0 (by decide), if_pos rfl] at this
      cases this
  have h1 := get_frames_of_search_some (construct b 1024 0 mem) 1 1 (by rw [hN]; decide) hs1
  rw [c1] at h1
  have hst1 : ∀ i, i < 1024 → ((construct b 1024 0 mem).mark_run 1 1).get_state i =
      if i = 0 ∨ i = 1 then some FrameState.HoS else some FrameState.Free := by
    intro i hi
    rw [mark_run_get_state, c5 i hi]
    by_cases h : i = 1
    · rw [if_pos h, if_pos (Or.inr h)]
    · rw [if_neg h, if_neg (by omega)]
      by_cases h' : i = 0
      · rw [if_pos h', if_pos (Or.inl h')]
      · rw [if_neg h', if_neg (by omega)]
  have hN1 : ((construct b 1024 0 mem).mark_run 1 1).nFreeFrames = 1022 := by
    rw [mark_run_nFreeFrames _ 1 1 (by decide) (by rw [hN]; decide)
      (by rw [hN]; decide), hN]
  have hs2 : ((construct b 1024 0 mem).mark_run 1 1).get_frames_search 10 =
      Exec.ok (some 2) := by
    apply get_frames_search_eq_some _ 10 2 (by decide) (validStates_mark_run _ hv0 1 1)
    · refine ⟨by rw [mark_run_nframes, c2]; decide, ?_⟩
      intro i hi1 hi2
      rw [hst1 i (by omega), if_neg (by omega)]
    · intro t ht hrun
      have := hrun.2 t (Nat.le_refl _) (by omega)
      rw [hst1 t (by omega), if_pos (by omega)] at this
      cases this
  have h2 := get_frames_of_search_some ((construct b 1024 0 mem).mark_run 1 1) 10 2
    (by rw [hN1]; decide) hs2
  rw [mark_run_base, c1] at h2
  refine ⟨_, _, h1, h2, ?_, ?_, ?_, ?_⟩
  · rw [mark_run_get_state, if_pos rfl]
  · intro i hi1 hi2
    rw [mark_run_get_state, if_neg (by omega), if_pos (by omega)]
  · rw [mark_run_get_state, if_neg (by decide), if_neg (by decide), hst1 12 (by decide),
      if_neg (by decide)]
  · rw [mark_run_nFreeFrames _ 2 10 (by decide) (by rw [hN1]; decide)
      (by rw [hN1]; decide), hN1]

end ContFramePool

namespace ContFramePool


/-- C28 (the claim at a concrete pool). The pool `poolZero` starts at frame 0 and keeps its
bitmap in frame 9, so all its frames start Free.  Its first `get_frames(1)` marks frame 0 as
allocated (HeadOfSequence, one free frame less) and returns the frame number 0. -/
theorem get_frames_returns_frame_zero :
    poolZero.base_frame_no = 0 ∧ poolZero.get_state 0 = some FrameState.Free ∧
    poolZero.nFreeFrames = 8 ∧
    ∃ p', poolZero.get_frames 1 = Exec.ok (0, p') ∧
      p'.get_state 0 = some FrameState.HoS ∧ p'.nFreeFrames = 7 := by
  refine ⟨by decide, by decide, by decide, poolZero.mark_run 0 1,
    get_frames_of_search_some poolZero 1 0 (by decide) (by decide), by decide, by decide⟩

/-- C28 (amended). For every pool whose frame numbers are 32-bit values and every `n >= 1`,
a `get_frames(n)` that marks frames as allocated returns the number of a frame of the pool,
and that number is not 0 when the pool starts at a frame other than 0 or when frame index 0
of the pool is not Free; the latter holds after the construction of a pool that hosts its
own bitmap (info frame unset), whose first frame is marked HeadOfSequence. -/
theorem get_frames_nonzero (p p' : ContFramePool) (n r : Nat) (hn : 1 ≤ n)
    (hw : p.base_frame_no + p.nframes ≤ WORD)
    (h : p.get_frames n = Exec.ok (r, p')) (hmark : p' ≠ p)
    (h0 : 1 ≤ p.base_frame_no ∨ p.get_state 0 ≠ some FrameState.Free) :
    r ≠ 0 ∧ p.base_frame_no ≤ r ∧ r < p.base_frame_no + p.nframes ∧ r < WORD ∧
    ∀ b m mem, 1 ≤ m →
      (construct b m 0 mem).get_state 0 = some FrameState.HoS := by
  have hc : ∀ b m mem, 1 ≤ m →
      (construct b m 0 mem).get_state 0 = some FrameState.HoS := by
    intro b m mem hm
    rw [(construct_self_hosted b m mem).2.2.2.2 0 (by omega), if_pos rfl]
  rcases get_frames_ok_cases p p' n r h with ⟨_, hp⟩ | ⟨s, _, _, hrun, _, hr⟩
  · exact absurd hp hmark
  · have hs : s + n ≤ p.nframes := hrun.1
    have hfree : p.get_state s = some FrameState.Free := hrun.2 s (Nat.le_refl _) (by omega)
    have hpos : 1 ≤ p.base_frame_no + s := by
      rcases h0 with hb | hz
      · omega
      · have : s ≠ 0 := by
          intro hs0
          rw [hs0] at hfree
          exact hz hfree
        omega
    subst hr
    exact ⟨by omega, by omega, by omega, by omega, hc⟩

theorem get_frames_nonzero_witness :
    pool8.get_frames 2 = Exec.ok (1, pool8.mark_run 1 2) ∧ (1 : Nat) ≠ 0 := by
  have hne : pool8.mark_run 1 2 ≠ pool8 := by
    intro h
    exact absurd (congrArg ContFramePool.nFreeFrames h) (by decide)
  exact ⟨pool8_get_frames,
    (get_frames_nonzero pool8 (pool8.mark_run 1 2) 2 1 (by decide) (by decide)
      pool8_get_frames hne (Or.inr (by decide))).1⟩

end ContFramePool

namespace ContFramePool


theorem runStructure_construct (b n info : Nat) (mem : Nat → Nat) :
    (construct b n info mem).RunStructure := by
  have key : ∀ i, i < (construct b n info mem).nframes →
      (construct b n info mem).get_state i ≠ some FrameState.Used := by
    intro i hi
    by_cases hinfo : info = 0
    · subst hinfo
      obtain ⟨_, h2, _, _, h5⟩ := construct_self_hosted b n mem
      rw [h5 i (by rw [← h2]; exact hi)]
      split <;> simp
    · obtain ⟨_, h2, _, _, h5⟩ := construct_external b n info mem hinfo
      rw [h5 i (by rw [← h2]; exact hi)]
      simp
  exact ⟨fun h => key 0 h, fun i _ hi hu => absurd hu (key i hi)⟩

theorem runStructure_mark_run (p : ContFramePool) (hr : p.RunStructure) (s k : Nat) :
    (p.mark_run s k).RunStructure := by
  obtain ⟨h0, hstep⟩ := hr
  constructor
  · intro hn
    rw [mark_run_nframes] at hn
    rw [mark_run_get_state]
    split
    · simp
    · rw [if_neg (by omega)]
      exact h0 hn
  · intro i hi1 hi2 hu
    rw [mark_run_nframes] at hi2
    rw [mark_run_get_state] at hu ⊢
    by_cases hs : i - 1 = s
    · right; rw [if_pos hs]
    · rw [if_neg hs]
      by_cases hin : s < i - 1 ∧ i - 1 < s + k
      · left; rw [if_pos hin]
      · rw [if_neg hin]
        by_cases his : i = s
        · rw [if_pos his] at hu; cases hu
        · rw [if_neg his] at hu
          by_cases hin2 : s < i ∧ i < s + k
          · exact absurd hin (by omega)
          · rw [if_neg hin2] at hu
            exact hstep i hi1 hi2 hu

theorem runStructure_release (p p' : ContFramePool) (f : Nat)
    (hf : f - p.base_frame_no < p.nframes) (hv : p.ValidStates) (hr : p.RunStructure)
    (h : p.release_frame_within_pool f = Exec.ok p') :
    p'.ValidStates ∧ p'.nframes = p.nframes ∧ p'.RunStructure := by
  have hhead : p.get_state (f - p.base_frame_no) = some FrameState.HoS := by
    by_contra hne
    rw [release_frame_within_pool_not_head p f hne] at h
    cases h
  obtain ⟨k, q, h1, h2, h3, h4, h5, h6, _, h8, _⟩ :=
    release_frame_within_pool_head p f hf hv hhead
  rw [h1] at h
  cases h
  obtain ⟨h0, hstep⟩ := hr
  generalize f - p.base_frame_no = c at *
  refine ⟨?_, h8, ?_, ?_⟩
  · intro i hi
    rw [h6]
    split
    · simp
    · exact hv i (by rw [← h8]; exact hi)
  · intro hn
    rw [h8] at hn
    rw [h6]
    split
    · simp
    · exact h0 hn
  · intro i hi1 hi2 hu
    rw [h8] at hi2
    rw [h6] at hu ⊢
    by_cases hin : c ≤ i ∧ i < c + k
    · rw [if_pos hin] at hu; cases hu
    · rw [if_neg hin] at hu
      by_cases hin2 : c ≤ i - 1 ∧ i - 1 < c + k
      · have hik : i = c + k := by omega
        rw [hik] at hu hi2
        exact absurd hu (h5 hi2)
      · rw [if_neg hin2]
        exact hstep i hi1 hi2 hu

theorem reachableMark_inv (b n info : Nat) (mem : Nat → Nat) (p : ContFramePool)
    (hr : ReachableMark b n info mem p) :
    p.ValidStates ∧ p.nframes = n ∧ p.RunStructure := by
  induction hr with
  | construct =>
    refine ⟨validStates_construct b n info mem, ?_, runStructure_construct b n info mem⟩
    by_cases hinfo : info = 0
    · subst hinfo; exact (construct_self_hosted b n mem).2.1
    · exact (construct_external b n info mem hinfo).2.1
  | get_frames p p' k r _ hget ih =>
    obtain ⟨hv, hnf, hrs⟩ := ih
    rcases get_frames_ok_cases p p' k r hget with ⟨_, h⟩ | ⟨s, _, _, _, h, _⟩
    · rw [h]; exact ⟨hv, hnf, hrs⟩
    · rw [h]
      exact ⟨validStates_mark_run p hv s k, by rw [mark_run_nframes, hnf],
        runStructure_mark_run p hrs s k⟩
  | mark_inaccessible p start k _ _ _ ih =>
    obtain ⟨hv, hnf, hrs⟩ := ih
    unfold mark_inaccessible
    exact ⟨validStates_mark_run p hv _ k, by rw [mark_run_nframes, hnf],
      runStructure_mark_run p hrs _ k⟩
  | release_frames p p' f _ hf1 hf2 hrel ih =>
    obtain ⟨hv, hnf, hrs⟩ := ih
    obtain ⟨h1, h2, h3⟩ := runStructure_release p p' f (by omega) hv hrs hrel
    exact ⟨h1, by rw [h2, hnf], h3⟩

/-- C22. In every pool state reachable from construction by calls of `get_frames`, of
`mark_inaccessible` on a range inside the pool and of releases of frames of the pool, no
Used frame of the pool is without a head: frame index 0 is not Used, every Used frame at an
index `i > 0` is directly preceded by a frame that is Used or HeadOfSequence, and no frame
of the pool has the invalid pattern `11`. -/
theorem run_structure_invariant (b n info : Nat) (mem : Nat → Nat) (p : ContFramePool)
    (hr : ReachableMark b n info mem p) :
    p.nframes = n ∧
    (0 < n → p.get_state 0 ≠ some FrameState.Used) ∧
    (∀ i, 0 < i → i < n → p.get_state i = some FrameState.Used →
      p.get_state (i - 1) = some FrameState.Used ∨
      p.get_state (i - 1) = some FrameState.HoS) ∧
    (∀ i, i < n → p.get_state i = some FrameState.Free ∨
      p.get_state i = some FrameState.Used ∨ p.get_state i = some FrameState.HoS) := by
  obtain ⟨hv, hnf, h0, hstep⟩ := reachableMark_inv b n info mem p hr
  refine ⟨hnf, fun h => h0 (by omega), fun i h1 h2 => hstep i h1 (by omega), ?_⟩
  intro i hi
  have := hv i (by omega)
  cases hs : p.get_state i with
  | none => exact absurd hs this
  | some st => cases st <;> simp

theorem run_structure_invariant_witness :
    ((pool8.mark_run 1 2).mark_inaccessible 2 3).get_state 0 ≠ some FrameState.Used ∧
    (((pool8.mark_run 1 2).mark_inaccessible 2 3).get_state 3 = some FrameState.Used →
      ((pool8.mark_run 1 2).mark_inaccessible 2 3).get_state 2 = some FrameState.Used ∨
      ((pool8.mark_run 1 2).mark_inaccessible 2 3).get_state 2 = some FrameState.HoS) := by
  obtain ⟨_, h0, h1, _⟩ := run_structure_invariant 0 8 0 (fun _ => 0)
    ((pool8.mark_run 1 2).mark_inaccessible 2 3)
    (ReachableMark.mark_inaccessible _ 2 3
      (ReachableMark.get_frames pool8 _ 2 1 ReachableMark.construct pool8_get_frames)
      (by decide) (by decide))
  exact ⟨h0 (by decide), h1 3 (by decide) (by decide)⟩

end ContFramePool

namespace ContFramePool


theorem reachableMarkFree_inv (b n info : Nat) (mem : Nat → Nat) (hw : n < WORD)
    (hn : info = 0 → 1 ≤ n) (p : ContFramePool) (hr : ReachableMarkFree b n info mem p) :
    p.ValidStates ∧ p.nframes = n ∧ p.nFreeFrames = p.countFree := by
  induction hr with
  | construct =>
    exact reachable_inv b n info mem hw hn _ Reachable.construct
  | get_frames p p' k r _ hget ih =>
    obtain ⟨hv, hnf, hcnt⟩ := ih
    rcases get_frames_ok_cases p p' k r hget with ⟨_, h⟩ | ⟨s, hk, hle, hrun, h, _⟩
    · rw [h]; exact ⟨hv, hnf, hcnt⟩
    · rw [h]
      refine ⟨validStates_mark_run p hv s k, by rw [mark_run_nframes, hnf], ?_⟩
      have hc := countFree_mark_run p k s hk hrun
      have hle2 := countFree_le p
      rw [mark_run_nFreeFrames p s k hk hle (by omega)]
      omega
  | mark_inaccessible p start k _ _ hk hrun ih =>
    obtain ⟨hv, hnf, hcnt⟩ := ih
    unfold mark_inaccessible
    refine ⟨validStates_mark_run p hv _ k, by rw [mark_run_nframes, hnf], ?_⟩
    have hc := countFree_mark_run p k _ hk hrun
    have hle2 := countFree_le p
    rw [mark_run_nFreeFrames p _ k hk (by omega) (by omega)]
    omega
  | release_frames p p' f _ hf1 hf2 hrel ih =>
    obtain ⟨hv, hnf, hcnt⟩ := ih
    obtain ⟨k, h1, h2, h3, h4, h5, _, _⟩ :=
      release_ok_cases p p' f (by omega) hv hrel
    have hc := countFree_release p p' _ k h1 h2 h5 h3
    have hle2 := countFree_le p'
    refine ⟨?_, by rw [h5, hnf], ?_⟩
    · intro i hi
      rw [h1]
      split
      · simp
      · exact hv i (by rw [← h5]; exact hi)
    · rw [h4, inc32_iterate k _ (by omega), hc, hcnt]

/-- C23 (the claim at a concrete pool). On the fresh pool `pool8`, whose frame 0 holds the
bitmap and is HeadOfSequence, `mark_inaccessible(0, 1)` names a range inside the pool.  It
leaves the frame states as they are, so 7 frames are Free, and decrements `nFreeFrames` to
6. -/
theorem mark_inaccessible_breaks_count :
    pool8.nFreeFrames = 7 ∧ pool8.countFree = 7 ∧
    pool8.base_frame_no ≤ 0 ∧ 0 + 1 ≤ pool8.base_frame_no + pool8.nframes ∧
    (pool8.mark_inaccessible 0 1).nFreeFrames = 6 ∧
    (pool8.mark_inaccessible 0 1).countFree = 7 := by
  decide

/-- C23 (amended). In every pool state reachable from construction (a 32-bit frame count,
at least one frame when the pool hosts its own bitmap) by calls of `get_frames`, releases of
frames of the pool and calls `mark_inaccessible(start, k)` with `k >= 1` whose range consists
of Free frames of the pool, `nFreeFrames` equals the number of Free frames.  In such a state
`mark_inaccessible(start, k)` is the state transition of a `get_frames(k)` that selected
`start`: `get_frames` leaves the pool in the state `mark_inaccessible(base + s, k)` for the
index `s` its search selects, and `mark_inaccessible(start, k)`, for `1 <= k <= nFreeFrames`,
makes `start` HeadOfSequence and the next `k - 1` frames Used, leaves every other frame as it
is and decreases `nFreeFrames` by `k`. -/
theorem mark_inaccessible_free_count (b n info : Nat) (mem : Nat → Nat) (hw : n < WORD)
    (hn : info = 0 → 1 ≤ n) (p : ContFramePool) (hr : ReachableMarkFree b n info mem p) :
    p.nFreeFrames = p.countFree ∧
    (∀ k s, k ≤ p.nFreeFrames → p.get_frames_search k = Exec.ok (some s) →
      p.get_frames k =
        Exec.ok (p.base_frame_no + s, p.mark_inaccessible (p.base_frame_no + s) k)) ∧
    (∀ start k, p.base_frame_no ≤ start → 1 ≤ k → k ≤ p.nFreeFrames →
      (p.mark_inaccessible start k).get_state (start - p.base_frame_no)
        = some FrameState.HoS ∧
      (∀ i, start - p.base_frame_no < i → i < start - p.base_frame_no + k →
        (p.mark_inaccessible start k).get_state i = some FrameState.Used) ∧
      (∀ i, (i < start - p.base_frame_no ∨ start - p.base_frame_no + k ≤ i) →
        (p.mark_inaccessible start k).get_state i = p.get_state i) ∧
      (p.mark_inaccessible start k).nFreeFrames + k = p.nFreeFrames) := by
  obtain ⟨_, hnf, hcnt⟩ := reachableMarkFree_inv b n info mem hw hn p hr
  have hle := countFree_le p
  refine ⟨hcnt, ?_, ?_⟩
  · intro k s hk hs
    rw [get_frames_of_search_some p k s hk hs]
    unfold mark_inaccessible
    rw [Nat.add_sub_cancel_left]
  · intro start k _ hk1 hk2
    unfold mark_inaccessible
    refine ⟨?_, ?_, ?_, ?_⟩
    · rw [mark_run_get_state, if_pos rfl]
    · intro i hi1 hi2
      rw [mark_run_get_state, if_neg (by omega), if_pos ⟨hi1, hi2⟩]
    · intro i hi
      rw [mark_run_get_state, if_neg (by omega), if_neg (by omega)]
    · rw [mark_run_nFreeFrames p _ k hk1 hk2 (by omega)]
      omega

theorem mark_inaccessible_free_count_witness :
    (pool8.mark_inaccessible 4 2).nFreeFrames = (pool8.mark_inaccessible 4 2).countFree ∧
    (pool8.mark_inaccessible 4 2).nFreeFrames = 5 :=
  ⟨(mark_inaccessible_free_count 0 8 0 (fun _ => 0) (by decide) (by decide)
      (pool8.mark_inaccessible 4 2)
      (ReachableMarkFree.mark_inaccessible pool8 4 2 ReachableMarkFree.construct (by decide)
        (by decide) ⟨by decide, by decide⟩)).1, by decide⟩

end ContFramePool

namespace PageTable

theorem foldl_update_fun (T : Nat) (g : Nat → Nat) : ∀ (l : List Nat) (m : Nat → Nat) (a : Nat),
    (l.foldl (fun m i => Function.update m (T + 4 * i) (g i)) m) a =
      if ∃ i, i ∈ l ∧ a = T + 4 * i then g ((a - T) / 4) else m a := by
  intro l
  induction l with
  | nil => intro m a; simp
  | cons j rest ih =>
    intro m a
    rw [List.foldl_cons, ih]
    by_cases hex : ∃ i, i ∈ rest ∧ a = T + 4 * i
    · obtain ⟨i, hi, ha⟩ := hex
      rw [if_pos ⟨i, hi, ha⟩, if_pos ⟨i, List.mem_cons_of_mem _ hi, ha⟩]
    · rw [if_neg hex]
      by_cases haj : a = T + 4 * j
      · rw [haj, Function.update_same, if_pos ⟨j, List.mem_cons_self _ _, rfl⟩]
        congr 1
        omega
      · rw [Function.update_noteq haj, if_neg]
        rintro ⟨i, hi, ha⟩
        rcases List.mem_cons.1 hi with h | h
        · exact haj (by rw [ha, h])
        · exact hex ⟨i, h, ha⟩

/-- The identity loop of the constructors writes `4096 * i | 3` into word `i` of the table;
`address` does not wrap. -/
theorem identity_fold (T : Nat) (m : Nat → Nat) : ∀ n, n ≤ 1024 →
    (List.range n).foldl (identity_step T) (m, 0) =
      ((List.range n).foldl (fun m i => Function.update m (T + 4 * i) ((4096 * i) ||| 3)) m,
        4096 * n) := by
  intro n
  induction n with
  | zero => intro _; rfl
  | succ n ih =>
    intro hn
    rw [List.range_succ, List.foldl_append, List.foldl_append, ih (by omega)]
    simp only [List.foldl_cons, List.foldl_nil, identity_step]
    congr 1
    unfold add32 PAGE_SIZE WORD
    omega

/-- The memory the constructors leave behind: the words of the directory frame `D`, the
words of the table frame `T`, and the rest of memory. -/
theorem construct_memory (m M1 M : Nat → Nat) (D T : Nat) (g : Nat → Nat)
    (hD : D % 4096 = 0) (hT : T % 4096 = 0) (hne : D ≠ T)
    (h1 : M1 = ((List.range 1024).foldl (identity_step T) (m, 0)).1)
    (hM : M = (List.range' 1 1023).foldl
      (fun m i => Function.update m (D + 4 * i) (g i))
      (Function.update (Function.update M1 (D + 4 * 0) T) (D + 4 * 0)
        ((Function.update M1 (D + 4 * 0) T) (D + 4 * 0) ||| 3))) :
    M (D + 4 * 0) = T ||| 3 ∧
    (∀ d, 1 ≤ d → d < 1024 → M (D + 4 * d) = g d) ∧
    (∀ i, i < 1024 → M (T + 4 * i) = (4096 * i) ||| 3) ∧
    (∀ a, (∀ i, i < 1024 → a ≠ D + 4 * i) → (∀ i, i < 1024 → a ≠ T + 4 * i) → M a = m a) := by
  rw [identity_fold T m 1024 (Nat.le_refl _)] at h1
  simp only [] at h1
  have hM1 : ∀ a, M1 a = if ∃ i, i ∈ List.range 1024 ∧ a = T + 4 * i
      then (4096 * ((a - T) / 4)) ||| 3 else m a := by
    intro a
    rw [h1]
    exact foldl_update_fun T (fun i => (4096 * i) ||| 3) (List.range 1024) m a
  have hMa : ∀ a, M a = if ∃ i, i ∈ List.range' 1 1023 ∧ a = D + 4 * i
      then g ((a - D) / 4)
      else (Function.update (Function.update M1 (D + 4 * 0) T) (D + 4 * 0)
        ((Function.update M1 (D + 4 * 0) T) (D + 4 * 0) ||| 3)) a := by
    intro a
    rw [hM]
    exact foldl_update_fun D g (List.range' 1 1023) _ a
  have hmem : ∀ i, i ∈ List.range' 1 1023 ↔ 1 ≤ i ∧ i < 1024 := by
    intro i
    rw [List.mem_range'_1]
  refine ⟨?_, ?_, ?_, ?_⟩
  · rw [hMa, if_neg, Function.update_same, Function.update_same]
    rintro ⟨i, hi, ha⟩
    have := (hmem i).1 hi
    omega
  · intro d hd1 hd2
    rw [hMa, if_pos ⟨d, (hmem d).2 ⟨hd1, hd2⟩, rfl⟩]
    congr 1
    omega
  · intro i hi
    rw [hMa, if_neg, Function.update_noteq, Function.update_noteq, hM1,
      if_pos ⟨i, List.mem_range.2 hi, rfl⟩]
    · congr 2
      omega
    · exact fun h => frames_disjoint T D i 0 hT hD (Ne.symm hne) hi (by decide) h.symm
    · exact fun h => frames_disjoint T D i 0 hT hD (Ne.symm hne) hi (by decide) h.symm
    · rintro ⟨j, hj, ha⟩
      exact frames_disjoint T D i j hT hD (Ne.symm hne) hi ((hmem j).1 hj).2 ha.symm
  · intro a haD haT
    rw [hMa, if_neg, Function.update_noteq (haD 0 (by decide)),
      Function.update_noteq (haD 0 (by decide)), hM1, if_neg]
    · rintro ⟨i, hi, ha⟩
      exact haT i (List.mem_range.1 hi) ha
    · rintro ⟨i, hi, ha⟩
      exact haD i ((hmem i).1 hi).2 ha

/-- What the constructor of MP4 returns when the process pool hands out two frames with
different bases. -/
theorem construct_result (s : PagingState) (f1 f2 : Nat) (pool pool1 pool2 : ContFramePool)
    (hpool : s.pools.get? s.process_mem_pool = some pool)
    (hget1 : pool.get_frames 1 = Exec.ok (f1, pool1))
    (hget2 : pool1.get_frames 1 = Exec.ok (f2, pool2))
    (hne : mul32 f1 PAGE_SIZE ≠ mul32 f2 PAGE_SIZE) :
    ∃ s', construct s = Exec.ok s' ∧ s'.page_directory = mul32 f1 PAGE_SIZE ∧
      s'.cr3 = s.cr3 ∧ s'.pools.get? s.process_mem_pool = some pool2 ∧
      s'.mem (mul32 f1 PAGE_SIZE + 4 * 0) = mul32 f2 PAGE_SIZE ||| 3 ∧
      (∀ d, 1 ≤ d → d < 1024 → s'.mem (mul32 f1 PAGE_SIZE + 4 * d) =
        if d = 1023 then mul32 f1 PAGE_SIZE ||| 3 else 0 ||| 2) ∧
      (∀ i, i < 1024 → s'.mem (mul32 f2 PAGE_SIZE + 4 * i) = (4096 * i) ||| 3) ∧
      (∀ a, (∀ i, i < 1024 → a ≠ mul32 f1 PAGE_SIZE + 4 * i) →
        (∀ i, i < 1024 → a ≠ mul32 f2 PAGE_SIZE + 4 * i) → s'.mem a = s.mem a) := by
  obtain ⟨_, _, hD⟩ := entry_present f1
  obtain ⟨_, _, hT⟩ := entry_present f2
  obtain ⟨M1, h1⟩ : ∃ M1, M1 =
    ((List.range 1024).foldl (identity_step (mul32 f2 PAGE_SIZE)) (s.mem, 0)).1 := exists_eq
  have hex : ∃ M, M = (List.range' 1 1023).foldl
      (fun m i => Function.update m (mul32 f1 PAGE_SIZE + 4 * i)
        (if i = 1023 then mul32 f1 PAGE_SIZE ||| 3 else 0 ||| 2))
      (Function.update (Function.update M1 (mul32 f1 PAGE_SIZE + 4 * 0) (mul32 f2 PAGE_SIZE))
        (mul32 f1 PAGE_SIZE + 4 * 0)
        ((Function.update M1 (mul32 f1 PAGE_SIZE + 4 * 0) (mul32 f2 PAGE_SIZE))
          (mul32 f1 PAGE_SIZE + 4 * 0) ||| 3)) := exists_eq
  refine Exists.elim hex (fun M hM => ?_)
  obtain ⟨k1, k2, k3, k4⟩ := construct_memory s.mem M1 M _ _
    (fun i => if i = 1023 then mul32 f1 PAGE_SIZE ||| 3 else 0 ||| 2) hD hT hne h1 hM
  have hpool1 : ({ s with pools := s.pools.set s.process_mem_pool pool1 } :
      PagingState).pools.get? s.process_mem_pool = some pool1 :=
    list_get_set _ _ _ _ hpool
  refine ⟨{ s with
      mem := M, page_directory := mul32 f1 PAGE_SIZE,
      pools := (s.pools.set s.process_mem_pool pool1).set s.process_mem_pool pool2 },
    ?_, rfl, rfl, list_get_set _ _ _ _ hpool1, k1, k2, k3, k4⟩
  unfold construct
  rw [process_get_frames_eq s 1 f1 pool pool1 hpool hget1]
  simp only [Exec.bind]
  rw [process_get_frames_eq _ 1 f2 pool1 pool2 hpool1 hget2]
  simp only []
  rw [hM, h1]

end PageTable

namespace PageTableMP3

open PageTable

end PageTableMP3

namespace PageTable

end PageTable

namespace PageTable

/-- C30. Recursive self-map addressing.  For every 32-bit `addr`, the decomposition into
`addr >> 22`, `(addr >> 12) & 0x3FF` and `addr & 0xFFF` recomposes to `addr`.  For `d < 1024`
and `k < 1024` the address `0xFFFFF000 + 4*k` decomposes to `(1023, 1023, 4*k)` and the
address `(0xFFC00000 | (d << 12)) + 4*k` to `(1023, d, 4*k)`.  Hence, with the self-map in
place, word `k` at `0xFFFFF000` is directory entry `k`, and, when directory entry `d` is
present, word `k` at `0xFFC00000 | (d << 12)` is entry `k` of the table that entry
references (when it is not present, the access faults); these are the words `handle_fault`
reads at `PD_recursive_addr` and `handle_fault` and `free_page` read and write at
`PT_recursive_addr`. -/
theorem recursive_addressing (s : PagingState) (addr d k : Nat) (haddr : addr < WORD)
    (hd : d < 1024) (hk : k < 1024) (hself : SelfMapped s) :
    (addr >>> 22 < 1024 ∧ (addr >>> 12) &&& 0x3FF < 1024 ∧ addr &&& 0xFFF < 4096 ∧
      ((addr >>> 22) <<< 22) + ((((addr >>> 12) &&& 0x3FF) <<< 12) + (addr &&& 0xFFF))
        = addr) ∧
    ((0xFFFFF000 + 4 * k) >>> 22 = 1023 ∧ ((0xFFFFF000 + 4 * k) >>> 12) &&& 0x3FF = 1023 ∧
      (0xFFFFF000 + 4 * k) &&& 0xFFF = 4 * k) ∧
    (((0xFFC00000 ||| (d <<< 12)) + 4 * k) >>> 22 = 1023 ∧
      (((0xFFC00000 ||| (d <<< 12)) + 4 * k) >>> 12) &&& 0x3FF = d ∧
      ((0xFFC00000 ||| (d <<< 12)) + 4 * k) &&& 0xFFF = 4 * k) ∧
    (translate s (0xFFFFF000 + 4 * k) = some (s.cr3 + 4 * k) ∧
      vread s (0xFFFFF000 + 4 * k) = Exec.ok (s.mem (s.cr3 + 4 * k))) ∧
    (s.mem (s.cr3 + 4 * d) &&& 1 ≠ 0 →
      translate s ((0xFFC00000 ||| (d <<< 12)) + 4 * k) =
        some ((s.mem (s.cr3 + 4 * d) &&& 0xFFFFF000) + 4 * k) ∧
      vread s ((0xFFC00000 ||| (d <<< 12)) + 4 * k) =
        Exec.ok (s.mem ((s.mem (s.cr3 + 4 * d) &&& 0xFFFFF000) + 4 * k)) ∧
      ∀ w, vwrite s ((0xFFC00000 ||| (d <<< 12)) + 4 * k) w = Exec.ok
        { s with
          mem := Function.update s.mem ((s.mem (s.cr3 + 4 * d) &&& 0xFFFFF000) + 4 * k)
            w }) ∧
    (s.mem (s.cr3 + 4 * d) &&& 1 = 0 →
      translate s ((0xFFC00000 ||| (d <<< 12)) + 4 * k) = none) := by
  have hdir := translate_dir s hself k hk
  refine ⟨?_, ?_, ?_, ⟨hdir, vread_of_translate s _ _ hdir⟩, ?_, ?_⟩
  · unfold WORD at haddr
    rw [shr_22, shr_12, and_3ff, and_fff, Nat.shiftLeft_eq, Nat.shiftLeft_eq]
    omega
  · rw [shr_22, shr_12, and_3ff, and_fff]
    omega
  · rw [table_window d hd, shr_22, shr_12, and_3ff, and_fff]
    omega
  · intro hp
    have htab := translate_tab s hself d k hd hk hp
    exact ⟨htab, vread_of_translate s _ _ htab, fun w => vwrite_of_translate s _ _ w htab⟩
  · intro hnp
    have e1 : (0xFFC00000 + 4096 * d + 4 * k) >>> 22 = 1023 := by rw [shr_22]; omega
    have e2 : ((0xFFC00000 + 4096 * d + 4 * k) >>> 12) &&& 0x3FF = d := by
      rw [shr_12, and_3ff]; omega
    rw [table_window d hd]
    unfold translate
    simp only [e1, e2, if_neg hself.1, hself.2, hnp, if_true]

theorem recursive_addressing_witness :
    translate exampleState (0xFFFFF000 + 4 * 512) = some (0x1000 + 4 * 512) ∧
    translate exampleState ((0xFFC00000 ||| (512 <<< 12)) + 4 * 7) = some (0x3000 + 4 * 7) ∧
    translate exampleState ((0xFFC00000 ||| (256 <<< 12)) + 4 * 7) = none := by
  obtain ⟨_, _, _, h4, h5, _⟩ := recursive_addressing exampleState 0x80000000 512 512
    (by decide) (by decide) (by decide) exampleState_selfMapped
  obtain ⟨_, _, _, _, h5', _⟩ := recursive_addressing exampleState 0x80000000 512 7
    (by decide) (by decide) (by decide) exampleState_selfMapped
  obtain ⟨_, _, _, _, _, h6⟩ := recursive_addressing exampleState 0x80000000 256 7
    (by decide) (by decide) (by decide) exampleState_selfMapped
  exact ⟨h4.1, (h5' (by decide)).1, h6 (by decide)⟩

end PageTable

namespace ContFramePool

theorem fieldOf_mod (b k : Nat) : fieldOf (b % 256) k = fieldOf b k := by
  unfold fieldOf
  rw [Nat.mod_mod]

set_option maxRecDepth 100000 in
theorem fieldOf_bits_small : ∀ b, b < 256 → ∀ k, k < 4 →
    fieldOf b k = (b.testBit (2 * k)).toNat + 2 * (b.testBit (2 * k + 1)).toNat := by
  decide

/-- The two-bit field `k` of a byte is made of its bits `2k` (low) and `2k + 1` (high). -/
theorem fieldOf_bits (b k : Nat) (hk : k < 4) :
    fieldOf b k = (b.testBit (2 * k)).toNat + 2 * (b.testBit (2 * k + 1)).toNat := by
  have h := fieldOf_bits_small (b % 256) (Nat.mod_lt _ (by norm_num)) k hk
  have e : (256 : Nat) = 2 ^ 8 := by norm_num
  rw [fieldOf_mod] at h
  rw [h, e, Nat.testBit_mod_two_pow, Nat.testBit_mod_two_pow]
  have h1 : 2 * k < 8 := by omega
  have h2 : 2 * k + 1 < 8 := by omega
  simp [h1, h2]

/-- C32. Packed two-bit frame states.  Frame `i` is stored in bits `2*(i mod 4)` (low) and
`2*(i mod 4) + 1` (high) of bitmap byte `i/4`, with the codes 00 = Free, 01 = Used,
10 = HeadOfSequence and 11 invalid.  For every bitmap, every frame indices `i`, `j` and every
state `s`, `get_state(i)` after `set_state(i, s)` is `s`, `set_state(i, s)` leaves
`get_state(j)` unchanged for `j != i`, the other three frames of the byte included, and it
writes no other byte of the bitmap. -/
theorem packed_frame_states (p : ContFramePool) (i j : Nat) (s : FrameState) :
    (decodeState 0 = some FrameState.Free ∧ decodeState 1 = some FrameState.Used ∧
      decodeState 2 = some FrameState.HoS ∧ decodeState 3 = none) ∧
    p.get_state i = decodeState
      (((p.bitmap (i / 4)).testBit (2 * (i % 4))).toNat +
        2 * ((p.bitmap (i / 4)).testBit (2 * (i % 4) + 1)).toNat) ∧
    (p.set_state i s).get_state i = some s ∧
    (j ≠ i → (p.set_state i s).get_state j = p.get_state j) ∧
    (∀ m, m ≠ i / 4 → (p.set_state i s).bitmap m = p.bitmap m) := by
  refine ⟨⟨rfl, rfl, rfl, rfl⟩, ?_, get_state_set_state_same p i s,
    get_state_set_state_ne p i j s, ?_⟩
  · rw [get_state_eq, fieldOf_bits _ _ (Nat.mod_lt _ (by norm_num))]
  · intro m hm
    rw [set_state_bitmap, Function.update_noteq hm]

end ContFramePool

namespace ContFramePool


theorem pool_ext (p q : ContFramePool) (h1 : p.base_frame_no = q.base_frame_no)
    (h2 : p.nframes = q.nframes) (h3 : p.nFreeFrames = q.nFreeFrames)
    (h4 : p.info_frame_no = q.info_frame_no) (h5 : p.bitmap = q.bitmap) : p = q := by
  cases p
  cases q
  simp only at h1 h2 h3 h4 h5
  subst h1 h2 h3 h4 h5
  rfl

theorem fieldOf_lt (b k : Nat) : fieldOf b k < 4 := by
  unfold fieldOf
  exact Nat.lt_of_le_of_lt Nat.and_le_right (by decide)

theorem decodeState_inj : ∀ a, a < 4 → ∀ b, b < 4 → decodeState a = decodeState b → a = b := by
  decide

set_option maxRecDepth 100000 in
theorem byte_of_fields_small : ∀ b, b < 256 →
    b = fieldOf b 0 + 4 * fieldOf b 1 + 16 * fieldOf b 2 + 64 * fieldOf b 3 := by
  decide

/-- A byte is determined by its four two-bit fields. -/
theorem byte_of_fields (b : Nat) :
    b % 256 = fieldOf b 0 + 4 * fieldOf b 1 + 16 * fieldOf b 2 + 64 * fieldOf b 3 := by
  have h := byte_of_fields_small (b % 256) (Nat.mod_lt _ (by norm_num))
  rw [fieldOf_mod, fieldOf_mod, fieldOf_mod, fieldOf_mod] at h
  exact h

/-- Two bitmaps with the same frame states hold the same bytes. -/
theorem bitmap_eq_of_get_state (p q : ContFramePool)
    (h : ∀ i, p.get_state i = q.get_state i) (m : Nat) :
    p.bitmap m % 256 = q.bitmap m % 256 := by
  have hf : ∀ k, k < 4 → fieldOf (p.bitmap m) k = fieldOf (q.bitmap m) k := by
    intro k hk
    have := h (4 * m + k)
    rw [get_state_eq, get_state_eq] at this
    have e1 : (4 * m + k) / 4 = m := by omega
    have e2 : (4 * m + k) % 4 = k := by omega
    rw [e1, e2] at this
    exact decodeState_inj _ (fieldOf_lt _ _) _ (fieldOf_lt _ _) this
  rw [byte_of_fields, byte_of_fields, hf 0 (by decide), hf 1 (by decide), hf 2 (by decide),
    hf 3 (by decide)]

theorem setField_lt (b k c : Nat) : setField b k c < 256 := by
  unfold setField
  have e : (256 : Nat) = 2 ^ 8 := by norm_num
  rw [e]
  apply Nat.xor_lt_two_pow
  · exact Nat.lt_of_le_of_lt Nat.and_le_left (Nat.mod_lt _ (by norm_num))
  · exact Nat.mod_lt _ (by norm_num)

theorem bytes_set_state (p : ContFramePool) (hb : p.Bytes) (i : Nat) (s : FrameState) :
    (p.set_state i s).Bytes := by
  intro m
  rw [set_state_bitmap]
  by_cases hm : m = i / 4
  · rw [hm, Function.update_same]
    exact setField_lt _ _ _
  · rw [Function.update_noteq hm]
    exact hb m

theorem bytes_with_nFree (p : ContFramePool) (k : Nat) (hb : p.Bytes) :
    ({ p with nFreeFrames := k } : ContFramePool).Bytes := hb

theorem bytes_mark_fold (s : Nat) : ∀ (l : List Nat) (q : ContFramePool), q.Bytes →
    (l.foldl (markStep s) q).Bytes := by
  intro l
  induction l with
  | nil => intro q hq; exact hq
  | cons i rest ih =>
    intro q hq
    rw [List.foldl_cons]
    exact ih _ (bytes_with_nFree _ _ (bytes_set_state q hq _ _))

theorem bytes_mark_run (p : ContFramePool) (hb : p.Bytes) (s n : Nat) :
    (p.mark_run s n).Bytes := by
  rw [mark_run_eq]
  exact bytes_mark_fold s _ _ (bytes_with_nFree _ _ (bytes_set_state p hb _ _))

theorem bytes_fold_free : ∀ (l : List Nat) (q : ContFramePool), q.Bytes →
    (l.foldl (fun q fno => q.set_state fno FrameState.Free) q).Bytes := by
  intro l
  induction l with
  | nil => intro q hq; exact hq
  | cons i rest ih =>
    intro q hq
    rw [List.foldl_cons]
    exact ih _ (bytes_set_state q hq _ _)

theorem bytes_construct (b n info : Nat) (mem : Nat → Nat) (h : ∀ m, mem m < 256) :
    (construct b n info mem).Bytes := by
  have hf := bytes_fold_free (List.range n)
    { base_frame_no := b, nframes := n, nFreeFrames := n, info_frame_no := info,
      bitmap := mem } h
  unfold construct mark_all_free
  simp only []
  split
  · exact bytes_with_nFree _ _ (bytes_set_state _ hf _ _)
  · exact hf

theorem bytes_release_loop : ∀ fuel (p p' : ContFramePool) (cur : Nat), p.Bytes →
    release_loop fuel p cur = Exec.ok p' → p'.Bytes := by
  intro fuel
  induction fuel with
  | zero =>
    intro p p' cur _ h
    rw [release_loop] at h
    cases h
  | succ fuel ih =>
    intro p p' cur hb h
    rw [release_loop] at h
    split at h
    · split at h
      · cases h
      · exact ih _ _ _ (bytes_with_nFree _ _ (bytes_set_state p hb _ _)) h
      · cases h; exact hb
    · cases h; exact hb

theorem bytes_release (p p' : ContFramePool) (f : Nat) (hb : p.Bytes)
    (h : p.release_frame_within_pool f = Exec.ok p') : p'.Bytes := by
  have hhead : p.get_state (f - p.base_frame_no) = some FrameState.HoS := by
    by_contra hne
    rw [release_frame_within_pool_not_head p f hne] at h
    cases h
  simp only [release_frame_within_pool, hhead] at h
  exact bytes_release_loop _ _ _ _ (bytes_with_nFree _ _ (bytes_set_state p hb _ _)) h

/-- The release that directly follows a successful `get_frames` frees the run just marked
and nothing else. -/
theorem release_after_get_frames (p : ContFramePool) (n s : Nat) (hn : 1 ≤ n)
    (hv : p.ValidStates) (hrs : p.RunStructure) (hw : p.nFreeFrames < WORD)
    (hle : n ≤ p.nFreeFrames) (hrun : p.FreeRun n s) :
    ∃ p'', (p.mark_run s n).release_frame_within_pool (p.base_frame_no + s) = Exec.ok p'' ∧
      (∀ i, p''.get_state i =
        if s ≤ i ∧ i < s + n then some FrameState.Free else (p.mark_run s n).get_state i) ∧
      (∀ i, p''.get_state i = p.get_state i) ∧
      p''.nFreeFrames = p.nFreeFrames ∧
      p''.nFreeFrames = (p.mark_run s n).nFreeFrames + n ∧
      p''.nframes = p.nframes ∧ p''.base_frame_no = p.base_frame_no ∧
      p''.info_frame_no = p.info_frame_no := by
  obtain ⟨hs, hfree⟩ := hrun
  have hst := mark_run_get_state p s n
  have hc : p.base_frame_no + s - (p.mark_run s n).base_frame_no = s := by
    rw [mark_run_base]; omega
  have hnf := mark_run_nframes p s n
  obtain ⟨k, q, h1, h2, h3, h4, h5, h6, h7, h8, h9, h10⟩ :=
    release_frame_within_pool_head (p.mark_run s n) (p.base_frame_no + s)
      (by rw [hc, hnf]; omega) (validStates_mark_run p hv s n)
      (by rw [hc, hst, if_pos rfl])
  rw [hc] at h3 h4 h5 h6
  rw [hnf] at h3 h5
  have hkn : k = n := by
    by_contra hne
    rcases Nat.lt_or_gt_of_ne hne with hlt | hgt
    · have hu : (p.mark_run s n).get_state (s + k) = some FrameState.Used := by
        rw [hst, if_neg (by omega), if_pos ⟨by omega, by omega⟩]
      exact h5 (by omega) hu
    · have hu := h4 (s + n) (by omega) (by omega)
      rw [hst, if_neg (by omega), if_neg (by omega)] at hu
      rcases hrs.2 (s + n) (by omega) (by omega) hu with hp | hp
      · rw [hfree (s + n - 1) (by omega) (by omega)] at hp; cases hp
      · rw [hfree (s + n - 1) (by omega) (by omega)] at hp; cases hp
  subst hkn
  have hN := mark_run_nFreeFrames p s k hn hle hw
  refine ⟨q, h1, h6, ?_, ?_, ?_, by rw [h8, hnf], by rw [h9, mark_run_base],
    by rw [h10, mark_run_info]⟩
  · intro i
    rw [h6]
    by_cases hin : s ≤ i ∧ i < s + k
    · rw [if_pos hin, hfree i hin.1 hin.2]
    · rw [if_neg hin, hst, if_neg (by omega), if_neg (by omega)]
  · rw [h7, hN, inc32_iterate k _ (by omega)]
    omega
  · rw [h7, inc32_iterate k _ (by rw [hN]; omega)]

/-- C31. Round trip of a frame pool.  For every pool state with valid frame states that
satisfies the run-structure invariant (no Used frame without a directly preceding Used or
HeadOfSequence frame), a 32-bit free counter and every `n >= 1`: if `get_frames(n)` succeeds
returning `f`, the release of `f` made directly afterwards returns, and the pool it leaves
has the frame states, the bitmap bytes and the `nFreeFrames` the pool had before the
`get_frames` call (it is that pool, when the bitmap memory holds bytes).  The release frees
exactly the `n` frames of the run, which raises `nFreeFrames` by `n`, and changes the state
of no other frame; the static `release_frames(f)` does the same in every registry in which
no pool registered earlier admits `f`. -/
theorem get_frames_release_round_trip (p p' : ContFramePool) (n f : Nat) (hn : 1 ≤ n)
    (hv : p.ValidStates) (hrs : p.RunStructure) (hw : p.nFreeFrames < WORD)
    (hget : p.get_frames n = Exec.ok (f, p')) (hsucc : (f, p') ≠ (0, p)) :
    ∃ p'', p'.release_frame_within_pool f = Exec.ok p'' ∧
      (∀ i, p''.get_state i = p.get_state i) ∧
      (∀ m, p''.bitmap m % 256 = p.bitmap m % 256) ∧
      p''.nFreeFrames = p.nFreeFrames ∧ p''.nframes = p.nframes ∧
      p''.base_frame_no = p.base_frame_no ∧ p''.info_frame_no = p.info_frame_no ∧
      (p.Bytes → p'' = p) ∧
      p''.nFreeFrames = p'.nFreeFrames + n ∧
      (∃ s, f = p.base_frame_no + s ∧ s + n ≤ p.nframes ∧
        (∀ i, s ≤ i → i < s + n →
          p'.get_state i ≠ some FrameState.Free ∧ p''.get_state i = some FrameState.Free) ∧
        (∀ i, (i < s ∨ s + n ≤ i) → p''.get_state i = p'.get_state i)) ∧
      (∀ pre post : List ContFramePool,
        (∀ Q, Q ∈ pre → f < Q.base_frame_no ∨ f > Q.base_frame_no + Q.nframes) →
        release_frames (pre ++ p' :: post) f = Exec.ok (pre ++ p'' :: post)) := by
  rcases get_frames_ok_cases p p' n f hget with ⟨hf, hp⟩ | ⟨s, _, hle, hrun, hp, hf⟩
  · exact absurd (by rw [hf, hp]) hsucc
  · subst hp hf
    obtain ⟨q, h1, h2, h3, h4, h5, h6, h7, h8⟩ :=
      release_after_get_frames p n s hn hv hrs hw hle hrun
    have hbm := bitmap_eq_of_get_state q p h3
    refine ⟨q, h1, h3, hbm, h4, h6, h7, h8, ?_, h5, ⟨s, rfl, hrun.1, ?_, ?_⟩, ?_⟩
    · intro hb
      have hqb : q.Bytes := bytes_release _ _ _ (bytes_mark_run p hb s n) h1
      refine pool_ext q p h7 h6 h4 h8 (funext fun m => ?_)
      have := hbm m
      rw [Nat.mod_eq_of_lt (hqb m), Nat.mod_eq_of_lt (hb m)] at this
      exact this
    · intro i hi1 hi2
      refine ⟨?_, by rw [h2, if_pos ⟨hi1, hi2⟩]⟩
      rw [mark_run_get_state]
      by_cases his : i = s
      · rw [if_pos his]; simp
      · rw [if_neg his, if_pos ⟨by omega, hi2⟩]; simp
    · intro i hi
      rw [h2, if_neg (by omega)]
    · intro pre post hpre
      rw [release_frames_dispatch (p.mark_run s n) post _ pre hpre
        (by rw [mark_run_base, mark_run_nframes]; have := hrun.1; omega), h1]
      rfl

theorem get_frames_release_round_trip_witness :
    ∃ p'', (pool8.mark_run 1 2).release_frame_within_pool 1 = Exec.ok p'' ∧ p'' = pool8 ∧
      release_frames [pool8.mark_run 1 2] 1 = Exec.ok [p''] := by
  have hne : ((1 : Nat), pool8.mark_run 1 2) ≠ (0, pool8) := by
    intro h
    exact absurd (congrArg Prod.fst h) (by decide)
  obtain ⟨p'', h1, _, _, _, _, _, _, h8, _, _, h11⟩ :=
    get_frames_release_round_trip pool8 (pool8.mark_run 1 2) 2 1 (by decide)
      (validStates_construct 0 8 0 (fun _ => 0)) (runStructure_construct 0 8 0 (fun _ => 0))
      (by decide) pool8_get_frames hne
  exact ⟨p'', h1, h8 (bytes_construct 0 8 0 (fun _ => 0) (fun _ => Nat.zero_lt_succ 255)),
    h11 [] [] (fun Q hQ => absurd hQ (List.not_mem_nil Q))⟩

end ContFramePool

namespace PageTable

theorem and_one_cases (x : Nat) : x &&& 1 = 0 ∨ x &&& 1 = 1 := by
  rw [Nat.and_one_is_mod]
  omega

theorem translate_some_inv (s : PagingState) (a pa : Nat) (h : translate s a = some pa) :
    s.mem (s.cr3 + 4 * (a >>> 22)) &&& 1 ≠ 0 ∧
    s.mem ((s.mem (s.cr3 + 4 * (a >>> 22)) &&& 0xFFFFF000) + 4 * ((a >>> 12) &&& 0x3FF))
      &&& 1 ≠ 0 := by
  unfold translate at h
  simp only [] at h
  by_cases h1 : s.mem (s.cr3 + 4 * (a >>> 22)) &&& 1 = 0
  · rw [if_pos h1] at h
    cases h
  · rw [if_neg h1] at h
    by_cases h2 : s.mem ((s.mem (s.cr3 + 4 * (a >>> 22)) &&& 0xFFFFF000) +
        4 * ((a >>> 12) &&& 0x3FF)) &&& 1 = 0
    · rw [if_pos h2] at h
      cases h
    · exact ⟨h1, h2⟩

theorem translate_none_inv (s : PagingState) (a : Nat) (h : translate s a = none)
    (hd : s.mem (s.cr3 + 4 * (a >>> 22)) &&& 1 ≠ 0) :
    s.mem ((s.mem (s.cr3 + 4 * (a >>> 22)) &&& 0xFFFFF000) + 4 * ((a >>> 12) &&& 0x3FF))
      &&& 1 = 0 := by
  unfold translate at h
  simp only [] at h
  rw [if_neg hd] at h
  by_cases h2 : s.mem ((s.mem (s.cr3 + 4 * (a >>> 22)) &&& 0xFFFFF000) +
      4 * ((a >>> 12) &&& 0x3FF)) &&& 1 = 0
  · exact h2
  · rw [if_neg h2] at h
    cases h

/-- The table window of a directory entry that is not present is not mapped. -/
theorem translate_tab_none (s : PagingState) (h : SelfMapped s) (d k : Nat) (hd : d < 1024)
    (hk : k < 1024) (hp : s.mem (s.cr3 + 4 * d) &&& 1 = 0) :
    translate s ((0xFFC00000 ||| (d <<< 12)) + 4 * k) = none := by
  rw [table_window d hd]
  have e1 : (0xFFC00000 + 4096 * d + 4 * k) >>> 22 = 1023 := by rw [shr_22]; omega
  have e2 : ((0xFFC00000 + 4096 * d + 4 * k) >>> 12) &&& 0x3FF = d := by
    rw [shr_12, and_3ff]; omega
  unfold translate
  simp only [e1, e2, if_neg h.1, h.2, if_pos hp]

theorem vread_fault (s : PagingState) (a : Nat) (h : translate s a = none) :
    vread s a = Exec.fault := by
  unfold vread
  rw [h]

theorem process_get_frames_inv (s : PagingState) (n : Nat) (r : Nat × PagingState)
    (h : process_get_frames s n = Exec.ok r) :
    ∃ pool pool', s.pools.get? s.process_mem_pool = some pool ∧
      pool.get_frames n = Exec.ok (r.1, pool') := by
  unfold process_get_frames at h
  cases hp : s.pools.get? s.process_mem_pool with
  | none =>
    rw [hp] at h
    cases h
  | some pool =>
    rw [hp] at h
    simp only [] at h
    cases hg : pool.get_frames n with
    | ok q =>
      rw [hg] at h
      simp only [Exec.map] at h
      injection h with h
      subst h
      refine ⟨pool, q.2, rfl, ?_⟩
      rw [hg]
    | fatal => rw [hg] at h; cases h
    | fault => rw [hg] at h; cases h
    | nofuel => rw [hg] at h; cases h

/-- A handler that returns has been given a frame by the process pool. -/
theorem handle_fault_ok_inv (s s' : PagingState) (a : Nat) (ha : a < WORD)
    (hself : SelfMapped s) (h : handle_fault s a = Exec.ok s') :
    ∃ pool f pool', s.pools.get? s.process_mem_pool = some pool ∧
      pool.get_frames 1 = Exec.ok (f, pool') := by
  obtain ⟨hd, _⟩ := index_bounds a ha
  unfold handle_fault at h
  simp only [search_pools_guard, Bool.false_eq_true, if_false] at h
  rw [vread_of_translate s _ _ (translate_dir s hself _ hd)] at h
  simp only [Exec.bind] at h
  by_cases hp : s.mem (s.cr3 + 4 * (a >>> 22)) &&& 1 = 0
  · rw [if_pos hp] at h
    cases hg : process_get_frames s 1 with
    | ok r =>
      obtain ⟨pool, pool', h1, h2⟩ := process_get_frames_inv s 1 r hg
      exact ⟨pool, r.1, pool', h1, h2⟩
    | fatal => rw [hg] at h; cases h
    | fault => rw [hg] at h; cases h
    | nofuel => rw [hg] at h; cases h
  · rw [if_neg hp] at h
    cases hg : process_get_frames s 1 with
    | ok r =>
      obtain ⟨pool, pool', h1, h2⟩ := process_get_frames_inv s 1 r hg
      exact ⟨pool, r.1, pool', h1, h2⟩
    | fatal => rw [hg] at h; cases h
    | fault => rw [hg] at h; cases h
    | nofuel => rw [hg] at h; cases h

/-- The pool search of the handler finds a pool when one accepts the address. -/
theorem search_pools_found (a : Nat) : ∀ l : List VMPool,
    0 < (l.filter (fun p => p.is_legitimate a)).length → search_pools l a = (true, true) := by
  intro l
  induction l with
  | nil => intro h; cases h
  | cons vp rest ih =>
    intro h
    unfold search_pools
    by_cases hv : vp.is_legitimate a = true
    · rw [if_pos hv]
    · rw [if_neg hv]
      simp only [List.filter_cons, hv, if_false] at h
      exact ih h

theorem wellFormed_of_dir_eq (u t : PagingState) (h : WellFormed u) (hc : t.cr3 = u.cr3)
    (hp : t.page_directory = u.page_directory)
    (hm : ∀ e, e < 1024 → t.mem (u.cr3 + 4 * e) = u.mem (u.cr3 + 4 * e)) : WellFormed t := by
  obtain ⟨⟨s1, s2⟩, h2, h3, h4⟩ := h
  unfold WellFormed SelfMapped
  rw [hc, hp]
  refine ⟨⟨?_, ?_⟩, h2, ?_, ?_⟩
  · rw [hm 1023 (by decide)]; exact s1
  · rw [hm 1023 (by decide)]; exact s2
  · intro d hd
    rw [hm d (by omega)]
    exact h3 d hd
  · intro d e hd he hne
    rw [hm d (by omega), hm e (by omega)]
    exact h4 d e hd he hne

theorem wellFormed_of_dir_update (u t : PagingState) (k f : Nat) (h : WellFormed u)
    (hf : FreshFrame u f) (hk : k < 1023) (hc : t.cr3 = u.cr3)
    (hp : t.page_directory = u.page_directory)
    (hk1 : t.mem (u.cr3 + 4 * k) = mul32 f PAGE_SIZE ||| 3)
    (hm : ∀ e, e < 1024 → e ≠ k → t.mem (u.cr3 + 4 * e) = u.mem (u.cr3 + 4 * e)) :
    WellFormed t := by
  obtain ⟨⟨s1, s2⟩, h2, h3, h4⟩ := h
  obtain ⟨f1, f2⟩ := hf
  obtain ⟨he1, he2, _⟩ := entry_present f
  unfold WellFormed SelfMapped
  rw [hc, hp]
  refine ⟨⟨?_, ?_⟩, h2, ?_, ?_⟩
  · rw [hm 1023 (by decide) (by omega)]; exact s1
  · rw [hm 1023 (by decide) (by omega)]; exact s2
  · intro d hd
    by_cases hdk : d = k
    · subst hdk
      rw [hk1, he2]
      exact fun _ => f1
    · rw [hm d (by omega) hdk]
      exact h3 d hd
  · intro d e hd he hne
    by_cases hdk : d = k
    · subst hdk
      rw [hk1, he2, hm e (by omega) (Ne.symm hne)]
      exact fun _ hpe => Ne.symm (f2 e he hpe)
    · by_cases hek : e = k
      · subst hek
        rw [hk1, he2, hm d (by omega) hdk]
        exact fun hpd _ => f2 d hd hpd
      · rw [hm d (by omega) hdk, hm e (by omega) hek]
        exact h4 d e hd he hne

theorem translate_dir_not_present (t : PagingState) (a : Nat)
    (h : t.mem (t.cr3 + 4 * (a >>> 22)) &&& 1 = 0) : translate t a = none := by
  unfold translate
  simp only []
  rw [if_pos h]

theorem translate_entry_not_present (t : PagingState) (a : Nat)
    (h : t.mem ((t.mem (t.cr3 + 4 * (a >>> 22)) &&& 0xFFFFF000) + 4 * ((a >>> 12) &&& 0x3FF))
      &&& 1 = 0) : translate t a = none := by
  unfold translate
  simp only []
  by_cases h1 : t.mem (t.cr3 + 4 * (a >>> 22)) &&& 1 = 0
  · rw [if_pos h1]
  · rw [if_neg h1, if_pos h]

/-- The translation of an address, from its directory entry `D` and its table entry `E`. -/
theorem translate_of_words (t : PagingState) (a D E : Nat)
    (h1 : t.mem (t.cr3 + 4 * (a >>> 22)) = D)
    (h2 : t.mem ((D &&& 0xFFFFF000) + 4 * ((a >>> 12) &&& 0x3FF)) = E)
    (hD : D &&& 1 ≠ 0) (hE : E &&& 1 ≠ 0) :
    translate t a = some ((E &&& 0xFFFFF000) + (a &&& 0xFFF)) := by
  unfold translate
  simp only []
  rw [h1, if_neg hD, h2, if_neg hE]

/-- In a well-formed directory no present entry, the self-map included, references a fresh
frame. -/
theorem base_ne_fresh (u : PagingState) (f d : Nat) (hwf : WellFormed u)
    (hf : FreshFrame u f) (hd : d < 1024) (hp : u.mem (u.cr3 + 4 * d) &&& 1 ≠ 0) :
    u.mem (u.cr3 + 4 * d) &&& 0xFFFFF000 ≠ mul32 f PAGE_SIZE := by
  by_cases h : d = 1023
  · rw [h, hwf.1.2]
    exact Ne.symm hf.1
  · exact hf.2 d (by omega) hp

/-- In a well-formed directory two present entries, one of them below the self-map,
reference different frames. -/
theorem bases_distinct (u : PagingState) (d e : Nat) (hwf : WellFormed u) (hd : d < 1024)
    (he : e < 1023) (hne : d ≠ e) (hpd : u.mem (u.cr3 + 4 * d) &&& 1 ≠ 0)
    (hpe : u.mem (u.cr3 + 4 * e) &&& 1 ≠ 0) :
    u.mem (u.cr3 + 4 * d) &&& 0xFFFFF000 ≠ u.mem (u.cr3 + 4 * e) &&& 0xFFFFF000 := by
  by_cases h : d = 1023
  · rw [h, hwf.1.2]
    exact Ne.symm (hwf.2.2.1 e he hpe)
  · exact hwf.2.2.2 d e (by omega) he hne hpd hpe

/-- The else branch of the handler on an address that faults in a well-formed directory:
the page is present afterwards, no word that held a present entry has changed, and the
directory is still well formed (for an address inside the window of the self-map the frame
taken becomes a page table and has to be fresh). -/
theorem handle_fault_present_fault (s : PagingState) (addr f : Nat)
    (pool pool' : ContFramePool) (haddr : addr < WORD) (hwf : WellFormed s)
    (hpres : s.mem (s.cr3 + 4 * (addr >>> 22)) &&& 1 ≠ 0)
    (hfault : translate s addr = none)
    (hpool : s.pools.get? s.process_mem_pool = some pool)
    (hget : pool.get_frames 1 = Exec.ok (f, pool'))
    (hfr : addr >>> 22 = 1023 → FreshFrame s f) :
    ∃ s', handle_fault s addr = Exec.ok s' ∧ WellFormed s' ∧ s'.cr3 = s.cr3 ∧
      (∀ x, s.mem x &&& 1 ≠ 0 → s'.mem x = s.mem x) ∧
      s'.mem (s'.cr3 + 4 * (addr >>> 22)) &&& 1 ≠ 0 ∧
      s'.mem ((s'.mem (s'.cr3 + 4 * (addr >>> 22)) &&& 0xFFFFF000) +
        4 * ((addr >>> 12) &&& 0x3FF)) &&& 1 ≠ 0 ∧
      translate s' addr = some (mul32 f PAGE_SIZE + (addr &&& 0xFFF)) := by
  have hself := hwf.1
  obtain ⟨hd, hk⟩ := index_bounds addr haddr
  obtain ⟨hc, _⟩ := cr3_aligned s hself
  obtain ⟨hb, _⟩ := frame_base_aligned (s.mem (s.cr3 + 4 * (addr >>> 22)))
  obtain ⟨he1, he2, _⟩ := entry_present f
  have hE0 := translate_none_inv s addr hfault hpres
  have h := handle_fault_present s addr f pool pool' haddr hself hpres hpool hget
  have keep : ∀ x, s.mem x &&& 1 ≠ 0 → Function.update s.mem
      ((s.mem (s.cr3 + 4 * (addr >>> 22)) &&& 0xFFFFF000) + 4 * ((addr >>> 12) &&& 0x3FF))
      (mul32 f PAGE_SIZE ||| 3) x = s.mem x := by
    intro x hx
    refine Function.update_noteq ?_ _ _
    intro e
    rw [e] at hx
    exact hx hE0
  have same : Function.update s.mem
      ((s.mem (s.cr3 + 4 * (addr >>> 22)) &&& 0xFFFFF000) + 4 * ((addr >>> 12) &&& 0x3FF))
      (mul32 f PAGE_SIZE ||| 3)
      ((s.mem (s.cr3 + 4 * (addr >>> 22)) &&& 0xFFFFF000) + 4 * ((addr >>> 12) &&& 0x3FF)) =
        mul32 f PAGE_SIZE ||| 3 := Function.update_same _ _ _
  have hwfM : ∀ t : PagingState, t.cr3 = s.cr3 → t.page_directory = s.page_directory →
      t.mem = Function.update s.mem
        ((s.mem (s.cr3 + 4 * (addr >>> 22)) &&& 0xFFFFF000) + 4 * ((addr >>> 12) &&& 0x3FF))
        (mul32 f PAGE_SIZE ||| 3) → WellFormed t := by
    intro t tc tp tm
    by_cases h1023 : addr >>> 22 = 1023
    · have hT2 : s.mem (s.cr3 + 4 * (addr >>> 22)) &&& 0xFFFFF000 = s.cr3 := by
        rw [h1023]
        exact hself.2
      rw [hT2] at hE0 tm
      have hk1023 : (addr >>> 12) &&& 0x3FF < 1023 := by
        by_contra hn
        have e : (addr >>> 12) &&& 0x3FF = 1023 := by omega
        rw [e] at hE0
        exact hself.1 hE0
      refine wellFormed_of_dir_update s t _ f hwf (hfr h1023) hk1023 tc tp ?_ ?_
      · rw [tm]
        exact Function.update_same _ _ _
      · intro e _ hek
        rw [tm]
        exact Function.update_noteq (by omega) _ _
    · have hlt : addr >>> 22 < 1023 := by omega
      have hT2c := hwf.2.2.1 _ hlt hpres
      refine wellFormed_of_dir_eq s t hwf tc tp ?_
      intro e he
      rw [tm]
      exact Function.update_noteq (frames_disjoint _ s.cr3 _ _ hb hc hT2c hk he) _ _
  have hwf' := hwfM
    { s with
      mem := Function.update s.mem
        ((s.mem (s.cr3 + 4 * (addr >>> 22)) &&& 0xFFFFF000) + 4 * ((addr >>> 12) &&& 0x3FF))
        (mul32 f PAGE_SIZE ||| 3),
      pools := s.pools.set s.process_mem_pool pool' } rfl rfl rfl
  have hdir := keep _ hpres
  generalize Function.update s.mem
    ((s.mem (s.cr3 + 4 * (addr >>> 22)) &&& 0xFFFFF000) + 4 * ((addr >>> 12) &&& 0x3FF))
    (mul32 f PAGE_SIZE ||| 3) = M at h keep same hwf' hdir
  refine ⟨_, h, ?_, rfl, keep, ?_, ?_, ?_⟩
  · exact hwf'
  · show M (s.cr3 + 4 * (addr >>> 22)) &&& 1 ≠ 0
    rw [hdir]
    exact hpres
  · show M ((M (s.cr3 + 4 * (addr >>> 22)) &&& 0xFFFFF000) +
      4 * ((addr >>> 12) &&& 0x3FF)) &&& 1 ≠ 0
    rw [hdir, same]
    exact he1
  · have g := translate_of_words
      { s with mem := M, pools := s.pools.set s.process_mem_pool pool' } addr _ _ hdir same
      hpres he1
    rw [he2] at g
    exact g

/-- The if branch of the handler in a well-formed directory, the frame taken being fresh:
the page table is installed and the page is not present; the other directory entries and
every word outside the new table are as before, and the directory is still well formed. -/
theorem handle_fault_not_present_wf (s : PagingState) (addr f : Nat)
    (pool pool' : ContFramePool) (haddr : addr < WORD) (hwf : WellFormed s)
    (hnp : s.mem (s.cr3 + 4 * (addr >>> 22)) &&& 1 = 0)
    (hpool : s.pools.get? s.process_mem_pool = some pool)
    (hget : pool.get_frames 1 = Exec.ok (f, pool')) (hfresh : FreshFrame s f) :
    ∃ s', handle_fault s addr = Exec.ok s' ∧ WellFormed s' ∧ s'.cr3 = s.cr3 ∧
      s'.pools.get? s'.process_mem_pool = some pool' ∧
      (∀ e, e < 1024 → e ≠ addr >>> 22 → s'.mem (s.cr3 + 4 * e) = s.mem (s.cr3 + 4 * e)) ∧
      (∀ x, x ≠ s.cr3 + 4 * (addr >>> 22) → (∀ i, i < 1024 → x ≠ mul32 f PAGE_SIZE + 4 * i) →
        s'.mem x = s.mem x) ∧
      s'.mem (s'.cr3 + 4 * (addr >>> 22)) &&& 1 ≠ 0 ∧
      s'.mem ((s'.mem (s'.cr3 + 4 * (addr >>> 22)) &&& 0xFFFFF000) +
        4 * ((addr >>> 12) &&& 0x3FF)) &&& 1 = 0 ∧
      translate s' addr = none := by
  have hself := hwf.1
  obtain ⟨hd, hk⟩ := index_bounds addr haddr
  have hd1023 : addr >>> 22 < 1023 := by
    by_contra hn
    have e : addr >>> 22 = 1023 := by omega
    rw [e] at hnp
    exact hself.1 hnp
  obtain ⟨hc, _⟩ := cr3_aligned s hself
  obtain ⟨he1, he2, he3⟩ := entry_present f
  obtain ⟨s', h1, _, h3, h4, h5, h6, h7⟩ :=
    handle_fault_not_present_translate s addr f pool pool' haddr hself hnp hpool hget
      hfresh.1
  have h := handle_fault_not_present s addr f pool pool' haddr hself hnp hpool hget hfresh.1
  obtain ⟨m1, m2, _, m4⟩ := mem_after_table_init s.mem (mul32 f PAGE_SIZE) s.cr3
    (addr >>> 22) (mul32 f PAGE_SIZE ||| 3) he3 hc hfresh.1 hd
  generalize (List.range 1024).foldl
    (fun m i => Function.update m (mul32 f PAGE_SIZE + 4 * i) (0 ||| 2))
    (Function.update s.mem (s.cr3 + 4 * (addr >>> 22)) (mul32 f PAGE_SIZE ||| 3)) = M
    at h m1 m2 m4
  rw [h1] at h
  injection h with h
  refine ⟨s', h1, ?_, h3, h4, ?_, ?_, ?_, ?_, h7⟩
  · rw [h]
    exact wellFormed_of_dir_update s _ (addr >>> 22) f hwf hfresh hd1023 rfl rfl m1
      (fun e he hek => m2 e he hek)
  · rw [h]
    exact fun e he hek => m2 e he hek
  · rw [h]
    exact fun x hx1 hx2 => m4 x hx1 hx2
  · rw [h3, h5]
    exact he1
  · rw [h3, h5, he2, h6]
    decide

/-- A fault handled for an address that faults keeps a well-formed directory well formed
and keeps every translation that was there. -/
theorem fault_step (u u' : PagingState) (addr a pa : Nat) (haddr : addr < WORD)
    (hwf : WellFormed u) (ht : translate u addr = some pa) (ha : a < WORD)
    (hfault : translate u a = none)
    (hfresh : ∀ pool f pool', u.pools.get? u.process_mem_pool = some pool →
      pool.get_frames 1 = Exec.ok (f, pool') → FreshFrame u f)
    (h : handle_fault u a = Exec.ok u') :
    WellFormed u' ∧ translate u' addr = some pa := by
  have hself := hwf.1
  obtain ⟨pool, f, pool', hpool, hget⟩ := handle_fault_ok_inv u u' a ha hself h
  have hf := hfresh pool f pool' hpool hget
  obtain ⟨hd, hk⟩ := index_bounds addr haddr
  obtain ⟨hD, hE⟩ := translate_some_inv u addr pa ht
  obtain ⟨hb, _⟩ := frame_base_aligned (u.mem (u.cr3 + 4 * (addr >>> 22)))
  obtain ⟨_, _, he3⟩ := entry_present f
  by_cases hp : u.mem (u.cr3 + 4 * (a >>> 22)) &&& 1 = 0
  · obtain ⟨s', h1, g1, g2, _, g4, g5, _⟩ :=
      handle_fault_not_present_wf u a f pool pool' ha hwf hp hpool hget hf
    rw [h1] at h
    injection h with h
    subst h
    have hne : addr >>> 22 ≠ a >>> 22 := by
      intro e
      rw [← e] at hp
      exact hD hp
    have hTf := base_ne_fresh u f _ hwf hf hd hD
    refine ⟨g1, translate_stable u _ addr pa ht g2 (g4 _ hd hne) (g5 _ ?_ ?_)⟩
    · intro e
      rw [e] at hE
      exact hE hp
    · intro i hi
      omega
  · obtain ⟨s', h1, g1, g2, g3, _⟩ :=
      handle_fault_present_fault u a f pool pool' ha hwf hp hfault hpool hget (fun _ => hf)
    rw [h1] at h
    injection h with h
    subst h
    exact ⟨g1, translate_stable u _ addr pa ht g2 (g3 _ hD) (g3 _ hE)⟩

/-- What `free_page` has done when it returns: nothing, on an entry that is not present, or
the release of the frame, the entry set to 2 and the directory loaded. -/
theorem free_page_ok_inv (u u' : PagingState) (a : Nat) (ha : a < WORD)
    (hself : SelfMapped u) (h : free_page u a = Exec.ok u') :
    u.mem (u.cr3 + 4 * (a >>> 22)) &&& 1 ≠ 0 ∧
    ((u.mem ((u.mem (u.cr3 + 4 * (a >>> 22)) &&& 0xFFFFF000) + 4 * ((a >>> 12) &&& 0x3FF))
        &&& 1 = 0 ∧ u' = u) ∨
      (u.mem ((u.mem (u.cr3 + 4 * (a >>> 22)) &&& 0xFFFFF000) + 4 * ((a >>> 12) &&& 0x3FF))
        &&& 1 = 1 ∧
        ∃ pools', u' = { u with
          mem := Function.update u.mem
            ((u.mem (u.cr3 + 4 * (a >>> 22)) &&& 0xFFFFF000) + 4 * ((a >>> 12) &&& 0x3FF)) 2,
          pools := pools',
          cr3 := u.page_directory })) := by
  obtain ⟨hd, hk⟩ := index_bounds a ha
  by_cases hp : u.mem (u.cr3 + 4 * (a >>> 22)) &&& 1 = 0
  · exfalso
    unfold free_page at h
    simp only [] at h
    rw [vread_fault u _ (translate_tab_none u hself _ _ hd hk hp)] at h
    cases h
  · refine ⟨hp, ?_⟩
    rcases and_one_cases (u.mem ((u.mem (u.cr3 + 4 * (a >>> 22)) &&& 0xFFFFF000) +
      4 * ((a >>> 12) &&& 0x3FF))) with h0 | h1
    · left
      rw [free_page_not_present u a ha hself hp h0] at h
      injection h with h
      exact ⟨h0, h.symm⟩
    · right
      refine ⟨h1, ?_⟩
      cases hrel : ContFramePool.release_frames u.pools
          (u.mem ((u.mem (u.cr3 + 4 * (a >>> 22)) &&& 0xFFFFF000) +
            4 * ((a >>> 12) &&& 0x3FF)) / PAGE_SIZE) with
      | ok pools' =>
        rw [free_page_present u a pools' ha hself hp h1 hrel] at h
        injection h with h
        exact ⟨pools', h.symm⟩
      | fatal =>
        exfalso
        unfold free_page at h
        simp only [] at h
        rw [vread_of_translate u _ _ (translate_tab u hself _ _ hd hk hp)] at h
        simp only [Exec.bind, h1, if_true, hrel] at h
        cases h
      | fault =>
        exfalso
        unfold free_page at h
        simp only [] at h
        rw [vread_of_translate u _ _ (translate_tab u hself _ _ hd hk hp)] at h
        simp only [Exec.bind, h1, if_true, hrel] at h
        cases h
      | nofuel =>
        exfalso
        unfold free_page at h
        simp only [] at h
        rw [vread_of_translate u _ _ (translate_tab u hself _ _ hd hk hp)] at h
        simp only [Exec.bind, h1, if_true, hrel] at h
        cases h

/-- The call of `free_page` for another page, below the window of the self-map, keeps a
well-formed directory well formed and keeps the translation of `addr`. -/
theorem free_step (u u' : PagingState) (addr a pa : Nat) (haddr : addr < WORD)
    (hwf : WellFormed u) (ht : translate u addr = some pa) (ha : a < 0xFFC00000)
    (hne : a >>> 22 ≠ addr >>> 22 ∨ (a >>> 12) &&& 0x3FF ≠ (addr >>> 12) &&& 0x3FF)
    (h : free_page u a = Exec.ok u') :
    WellFormed u' ∧ translate u' addr = some pa := by
  have hself := hwf.1
  have haW : a < WORD := by unfold WORD; omega
  obtain ⟨hd2, hk2⟩ := index_bounds a haW
  obtain ⟨hd, hk⟩ := index_bounds addr haddr
  have hd1023' : a >>> 22 < 1023 := by rw [shr_22]; omega
  obtain ⟨hc, _⟩ := cr3_aligned u hself
  obtain ⟨hD, hE⟩ := translate_some_inv u addr pa ht
  obtain ⟨hb, _⟩ := frame_base_aligned (u.mem (u.cr3 + 4 * (addr >>> 22)))
  obtain ⟨hb2, _⟩ := frame_base_aligned (u.mem (u.cr3 + 4 * (a >>> 22)))
  obtain ⟨hp, hcase⟩ := free_page_ok_inv u u' a haW hself h
  rcases hcase with ⟨_, e⟩ | ⟨_, pools', e⟩
  · rw [e]
    exact ⟨hwf, ht⟩
  · have hT2c := hwf.2.2.1 _ hd1023' hp
    have hw2 : (u.mem (u.cr3 + 4 * (addr >>> 22)) &&& 0xFFFFF000) +
        4 * ((addr >>> 12) &&& 0x3FF) ≠
        (u.mem (u.cr3 + 4 * (a >>> 22)) &&& 0xFFFFF000) + 4 * ((a >>> 12) &&& 0x3FF) := by
      by_cases hdd : a >>> 22 = addr >>> 22
      · rw [hdd]
        rcases hne with h1 | h1
        · exact absurd hdd h1
        · omega
      · have := bases_distinct u _ _ hwf hd hd1023' (Ne.symm hdd) hD hp
        omega
    subst e
    refine ⟨wellFormed_of_dir_eq u _ hwf hwf.2.1 rfl ?_,
      translate_stable u _ addr pa ht hwf.2.1
        (Function.update_noteq (frames_disjoint _ u.cr3 _ _ hb2 hc hT2c hk2 hd) _ _)
        (Function.update_noteq hw2 _ _)⟩
    intro e he
    exact Function.update_noteq (frames_disjoint _ u.cr3 _ _ hb2 hc hT2c hk2 he) _ _

/-- The call of `free_page` for a page that is present, when it returns, leaves the page
not present. -/
theorem free_page_unmaps (u u' : PagingState) (addr pa : Nat) (haddr : addr < WORD)
    (hwf : WellFormed u) (ht : translate u addr = some pa)
    (h : free_page u addr = Exec.ok u') : translate u' addr = none := by
  have hself := hwf.1
  obtain ⟨hD, hE⟩ := translate_some_inv u addr pa ht
  obtain ⟨_, hcase⟩ := free_page_ok_inv u u' addr haddr hself h
  rcases hcase with ⟨h0, _⟩ | ⟨_, pools', e⟩
  · exact absurd h0 hE
  · subst e
    by_cases hw : u.cr3 + 4 * (addr >>> 22) =
        (u.mem (u.cr3 + 4 * (addr >>> 22)) &&& 0xFFFFF000) + 4 * ((addr >>> 12) &&& 0x3FF)
    · apply translate_dir_not_present
      show Function.update u.mem _ 2 (u.page_directory + 4 * (addr >>> 22)) &&& 1 = 0
      rw [hwf.2.1]
      nth_rewrite 2 [hw]
      rw [Function.update_same]
      decide
    · apply translate_entry_not_present
      show Function.update u.mem _ 2
        ((Function.update u.mem _ 2 (u.page_directory + 4 * (addr >>> 22)) &&& 0xFFFFF000) +
          4 * ((addr >>> 12) &&& 0x3FF)) &&& 1 = 0
      rw [hwf.2.1, Function.update_noteq hw, Function.update_same]
      decide

/-- Along the later states the directory stays well formed and the page of `addr`, present
in `s`, keeps its translation. -/
theorem later_inv (s : PagingState) (addr pa : Nat) (haddr : addr < WORD)
    (hwf : WellFormed s) (ht : translate s addr = some pa) :
    ∀ u, LaterState addr s u → WellFormed u ∧ translate u addr = some pa := by
  intro u hl
  induction hl with
  | refl => exact ⟨hwf, ht⟩
  | fault u u' a _ ha hfault hfresh h ih =>
    exact fault_step u u' addr a pa haddr ih.1 ih.2 ha hfault hfresh h
  | free u u' a _ ha hne h ih =>
    exact free_step u u' addr a pa haddr ih.1 ih.2 ha hne h
  | load u _ ih =>
    exact ⟨wellFormed_of_dir_eq u _ ih.1 ih.1.2.1 rfl (fun _ _ => rfl),
      translate_stable u _ addr pa ih.2 ih.1.2.1 rfl rfl⟩
  | register u vm_pool _ ih =>
    exact ⟨wellFormed_of_dir_eq u _ ih.1 rfl rfl (fun _ _ => rfl),
      translate_stable u _ addr pa ih.2 rfl rfl rfl⟩

/-- The present directory entries of `exampleState` below the self-map are the entries 0
and 512. -/
theorem exampleState_dir (d : Nat) (hd : d < 1023)
    (hp : exampleState.mem (exampleState.cr3 + 4 * d) &&& 1 ≠ 0) : d = 0 ∨ d = 512 := by
  by_contra hn
  apply hp
  have e : exampleState.mem (exampleState.cr3 + 4 * d) = 2 := by
    show (if 0x1000 + 4 * d = 0x1000 then 0x2000 ||| 3
      else if 0x1000 + 4 * d = 0x1000 + 4 * 512 then 0x3000 ||| 3
      else if 0x1000 + 4 * d = 0x1000 + 4 * 1023 then 0x1000 ||| 3
      else if 0x2000 ≤ 0x1000 + 4 * d ∧ 0x1000 + 4 * d < 0x3000 ∧ (0x1000 + 4 * d) % 4 = 0 then
        ((0x1000 + 4 * d - 0x2000) / 4 * 4096) ||| 3
      else 2) = 2
    rw [if_neg (by omega), if_neg (by omega), if_neg (by omega), if_neg (by omega)]
  rw [e]
  decide

theorem exampleState_wellFormed : WellFormed exampleState := by
  refine ⟨exampleState_selfMapped, rfl, ?_, ?_⟩
  · intro d hd hp
    rcases exampleState_dir d hd hp with e | e <;> subst e <;> decide
  · intro d e hd he hne hpd hpe
    rcases exampleState_dir d hd hpd with e1 | e1 <;>
      rcases exampleState_dir e he hpe with e2 | e2 <;> subst e1 <;> subst e2
    · exact absurd rfl hne
    · decide
    · decide
    · exact absurd rfl hne

theorem exampleStateHigh_wellFormed : WellFormed exampleStateHigh :=
  wellFormed_of_dir_eq exampleState exampleStateHigh exampleState_wellFormed rfl rfl
    (fun _ _ => rfl)

theorem exampleState_fresh : FreshFrame exampleState 4 := by
  refine ⟨by decide, ?_⟩
  intro d hd hp
  rcases exampleState_dir d hd hp with e | e <;> subst e <;> decide

theorem exampleStateHigh_fault :
    handle_fault exampleStateHigh 0x80000000 = Exec.ok exampleStateMapped :=
  handle_fault_present exampleStateHigh 0x80000000 4 _ _ (by decide)
    exampleStateHigh_wellFormed.1 (by decide) exampleState_pool exampleState_get_frames

theorem exampleStateMapped_wellFormed : WellFormed exampleStateMapped := by
  obtain ⟨s', h1, h2, _⟩ := handle_fault_present_fault exampleStateHigh 0x80000000 4 _ _
    (by decide) exampleStateHigh_wellFormed (by decide) (by decide) exampleState_pool
    exampleState_get_frames (fun h => absurd h (by decide))
  rw [exampleStateHigh_fault] at h1
  injection h1 with h1
  rw [h1]
  exact h2

theorem exampleStateMapped_fresh : FreshFrame exampleStateMapped 5 := by
  refine ⟨by decide, ?_⟩
  intro d hd hp
  have e : exampleStateMapped.mem (exampleStateMapped.cr3 + 4 * d) =
      exampleState.mem (exampleState.cr3 + 4 * d) :=
    Function.update_noteq (by show 0x1000 + 4 * d ≠ 0x3000; omega) _ _
  rw [e] at hp ⊢
  rcases exampleState_dir d hd hp with e | e <;> subst e <;> decide

/-- A later state of `exampleStateMapped` that is not the state itself: the one after the
fault at `0x80001000`, which takes frame 5. -/
theorem exampleStateMapped_later :
    ∃ u, handle_fault exampleStateMapped 0x80001000 = Exec.ok u ∧
      LaterState 0x80000000 exampleStateMapped u := by
  have h := handle_fault_present exampleStateMapped 0x80001000 5 _ _ (by decide)
    exampleStateMapped_wellFormed.1 (by decide) rfl exampleState_get_frames_two
  refine ⟨_, h, LaterState.fault exampleStateMapped _ 0x80001000 LaterState.refl (by decide)
    (by decide) ?_ h⟩
  intro pool f pool' hp hg
  have e : pool = (((ContFramePool.pool8.mark_run 1 1).mark_run 2 1).mark_run 3 1).mark_run
      4 1 := by
    have hp' : some ((((ContFramePool.pool8.mark_run 1 1).mark_run 2 1).mark_run 3 1).mark_run
      4 1) = some pool := hp
    injection hp' with hp'
    exact hp'.symm
  rw [e, exampleState_get_frames_two] at hg
  injection hg with hg
  injection hg with hg _
  rw [← hg]
  exact exampleStateMapped_fresh

/-- The page directory that the constructor of MP4 builds is well formed once it is loaded
(the two frames handed out having different bases). -/
theorem construct_wellFormed (s : PagingState) (f1 f2 : Nat)
    (pool pool1 pool2 : ContFramePool)
    (hpool : s.pools.get? s.process_mem_pool = some pool)
    (hget1 : pool.get_frames 1 = Exec.ok (f1, pool1))
    (hget2 : pool1.get_frames 1 = Exec.ok (f2, pool2))
    (hne : mul32 f1 PAGE_SIZE ≠ mul32 f2 PAGE_SIZE) :
    ∃ s', construct s = Exec.ok s' ∧ WellFormed (load s') := by
  obtain ⟨s', h1, h2, _, _, k1, k2, _, _⟩ :=
    construct_result s f1 f2 pool pool1 pool2 hpool hget1 hget2 hne
  obtain ⟨he1, he2, _⟩ := entry_present f1
  obtain ⟨_, ht2, _⟩ := entry_present f2
  have k1023 := k2 1023 (by decide) (by decide)
  rw [if_pos rfl] at k1023
  have hnp : ∀ d, d < 1023 → s'.mem (s'.page_directory + 4 * d) &&& 1 ≠ 0 → d = 0 := by
    intro d hd hp
    by_contra hd0
    apply hp
    rw [h2, k2 d (by omega) (by omega), if_neg (by omega)]
    decide
  refine ⟨s', h1, ⟨?_, ?_⟩, rfl, ?_, ?_⟩
  · show s'.mem (s'.page_directory + 4 * 1023) &&& 1 ≠ 0
    rw [h2, k1023]
    exact he1
  · show s'.mem (s'.page_directory + 4 * 1023) &&& 0xFFFFF000 = s'.page_directory
    rw [h2, k1023]
    exact he2
  · intro d hd hp
    have e := hnp d hd hp
    subst e
    show s'.mem (s'.page_directory + 4 * 0) &&& 0xFFFFF000 ≠ s'.page_directory
    rw [h2, k1, ht2]
    exact Ne.symm hne
  · intro d e hd he hde hpd hpe
    exact absurd ((hnp d hd hpd).trans (hnp e he hpe).symm) hde

/-- C11 (amended). Let the page directory be well formed (`WellFormed`), let the access to
a 32-bit address fault, the address being legitimate in exactly one registered VM pool, and
let `get_frames(1)` on the process pool return `(F, pool')` with `F` a fresh frame
(`FreshFrame`).  Then the pool search of the handler finds the pool, and:
* if the directory entry of the address is present, then after `handle_fault` returns the
  page is present: its directory entry and its table entry are present and the address
  translates into frame `F`;
* if the directory entry is NotPresent, then after `handle_fault` returns the directory
  entry is present and the table entry is NotPresent: the page is not present, the repeated
  access faults again, and after that second `handle_fault` (taking a frame `F2`) the page
  is present;
* once present, the page stays present, with the same translation, in every later state
  (`LaterState`: further faults handled, `free_page` called for other pages, `load`,
  `register_pool`), until `free_page` is called for it: when that call returns, the page
  is not present. -/
theorem handle_fault_page_present (s : PagingState) (addr f : Nat)
    (pool pool' : ContFramePool) (haddr : addr < WORD)
    (hlegit : (s.vm_pools.filter (fun p => p.is_legitimate addr)).length = 1)
    (hwf : WellFormed s) (hfault : translate s addr = none)
    (hpool : s.pools.get? s.process_mem_pool = some pool)
    (hget : pool.get_frames 1 = Exec.ok (f, pool')) (hfresh : FreshFrame s f) :
    search_pools s.vm_pools addr = (true, true) ∧
    (s.mem (s.cr3 + 4 * (addr >>> 22)) &&& 1 ≠ 0 →
      ∃ s', handle_fault s addr = Exec.ok s' ∧
        s'.mem (s'.cr3 + 4 * (addr >>> 22)) &&& 1 ≠ 0 ∧
        s'.mem ((s'.mem (s'.cr3 + 4 * (addr >>> 22)) &&& 0xFFFFF000) +
          4 * ((addr >>> 12) &&& 0x3FF)) &&& 1 ≠ 0 ∧
        translate s' addr = some (mul32 f PAGE_SIZE + (addr &&& 0xFFF)) ∧
        ∀ u, LaterState addr s' u →
          u.mem (u.cr3 + 4 * (addr >>> 22)) &&& 1 ≠ 0 ∧
          u.mem ((u.mem (u.cr3 + 4 * (addr >>> 22)) &&& 0xFFFFF000) +
            4 * ((addr >>> 12) &&& 0x3FF)) &&& 1 ≠ 0 ∧
          translate u addr = some (mul32 f PAGE_SIZE + (addr &&& 0xFFF)) ∧
          ∀ u', free_page u addr = Exec.ok u' → translate u' addr = none) ∧
    (s.mem (s.cr3 + 4 * (addr >>> 22)) &&& 1 = 0 →
      ∃ s', handle_fault s addr = Exec.ok s' ∧
        s'.mem (s'.cr3 + 4 * (addr >>> 22)) &&& 1 ≠ 0 ∧
        s'.mem ((s'.mem (s'.cr3 + 4 * (addr >>> 22)) &&& 0xFFFFF000) +
          4 * ((addr >>> 12) &&& 0x3FF)) &&& 1 = 0 ∧
        translate s' addr = none ∧
        ∀ f2 pool2, pool'.get_frames 1 = Exec.ok (f2, pool2) →
          ∃ s2, handle_fault s' addr = Exec.ok s2 ∧
            s2.mem (s2.cr3 + 4 * (addr >>> 22)) &&& 1 ≠ 0 ∧
            s2.mem ((s2.mem (s2.cr3 + 4 * (addr >>> 22)) &&& 0xFFFFF000) +
              4 * ((addr >>> 12) &&& 0x3FF)) &&& 1 ≠ 0 ∧
            translate s2 addr = some (mul32 f2 PAGE_SIZE + (addr &&& 0xFFF)) ∧
            ∀ u, LaterState addr s2 u →
              u.mem (u.cr3 + 4 * (addr >>> 22)) &&& 1 ≠ 0 ∧
              u.mem ((u.mem (u.cr3 + 4 * (addr >>> 22)) &&& 0xFFFFF000) +
                4 * ((addr >>> 12) &&& 0x3FF)) &&& 1 ≠ 0 ∧
              translate u addr = some (mul32 f2 PAGE_SIZE + (addr &&& 0xFFF)) ∧
              ∀ u', free_page u addr = Exec.ok u' → translate u' addr = none) := by
  have key : ∀ (t : PagingState) (g : Nat) (q q' : ContFramePool), WellFormed t →
      translate t addr = none →
      t.pools.get? t.process_mem_pool = some q → q.get_frames 1 = Exec.ok (g, q') →
      t.mem (t.cr3 + 4 * (addr >>> 22)) &&& 1 ≠ 0 →
      (addr >>> 22 = 1023 → FreshFrame t g) →
      ∃ s', handle_fault t addr = Exec.ok s' ∧
        s'.mem (s'.cr3 + 4 * (addr >>> 22)) &&& 1 ≠ 0 ∧
        s'.mem ((s'.mem (s'.cr3 + 4 * (addr >>> 22)) &&& 0xFFFFF000) +
          4 * ((addr >>> 12) &&& 0x3FF)) &&& 1 ≠ 0 ∧
        translate s' addr = some (mul32 g PAGE_SIZE + (addr &&& 0xFFF)) ∧
        ∀ u, LaterState addr s' u →
          u.mem (u.cr3 + 4 * (addr >>> 22)) &&& 1 ≠ 0 ∧
          u.mem ((u.mem (u.cr3 + 4 * (addr >>> 22)) &&& 0xFFFFF000) +
            4 * ((addr >>> 12) &&& 0x3FF)) &&& 1 ≠ 0 ∧
          translate u addr = some (mul32 g PAGE_SIZE + (addr &&& 0xFFF)) ∧
          ∀ u', free_page u addr = Exec.ok u' → translate u' addr = none := by
    intro t g q q' ht hft hq hg hp hfr
    obtain ⟨s', h1, h2, _, _, h3, h4, h5⟩ :=
      handle_fault_present_fault t addr g q q' haddr ht hp hft hq hg hfr
    refine ⟨s', h1, h3, h4, h5, ?_⟩
    intro u hu
    obtain ⟨g1, g2⟩ := later_inv s' addr _ haddr h2 h5 u hu
    obtain ⟨g3, g4⟩ := translate_some_inv u addr _ g2
    exact ⟨g3, g4, g2, fun u' hfree => free_page_unmaps u u' addr _ haddr g1 g2 hfree⟩
  refine ⟨search_pools_found addr s.vm_pools (by rw [hlegit]; exact Nat.one_pos),
    fun hpres => key s f pool pool' hwf hfault hpool hget hpres (fun _ => hfresh), ?_⟩
  intro hnp
  have hd1023 : addr >>> 22 ≠ 1023 := by
    intro e
    rw [e] at hnp
    exact hwf.1.1 hnp
  obtain ⟨s', h1, h2, _, h3, _, _, h4, h5, h6⟩ :=
    handle_fault_not_present_wf s addr f pool pool' haddr hwf hnp hpool hget hfresh
  exact ⟨s', h1, h4, h5, h6, fun f2 pool2 hg2 =>
    key s' f2 pool' pool2 h2 h6 h3 hg2 h4 (fun e => absurd e hd1023)⟩

theorem handle_fault_page_present_witness :
    ((exampleStateHigh.vm_pools.filter (fun p => p.is_legitimate 0x80000000)).length = 1 ∧
      translate exampleStateHigh 0x80000000 = none ∧
      handle_fault exampleStateHigh 0x80000000 = Exec.ok exampleStateMapped ∧
      translate exampleStateMapped 0x80000000 = some 0x4000 ∧
      ∃ u, handle_fault exampleStateMapped 0x80001000 = Exec.ok u ∧
        translate u 0x80000000 = some 0x4000 ∧
        ∀ u', free_page u 0x80000000 = Exec.ok u' → translate u' 0x80000000 = none) ∧
    ((exampleState.vm_pools.filter (fun p => p.is_legitimate 0x40001234)).length = 1 ∧
      translate exampleState 0x40001234 = none ∧
      ∃ s' s2, handle_fault exampleState 0x40001234 = Exec.ok s' ∧
        translate s' 0x40001234 = none ∧ handle_fault s' 0x40001234 = Exec.ok s2 ∧
        translate s2 0x40001234 = some 0x5234 ∧
        ∀ u, LaterState 0x40001234 s2 u → translate u 0x40001234 = some 0x5234) := by
  obtain ⟨_, ha, _⟩ := handle_fault_page_present exampleStateHigh 0x80000000 4 _ _
    (by decide) (by decide) exampleStateHigh_wellFormed (by decide) exampleState_pool
    exampleState_get_frames exampleState_fresh
  obtain ⟨_, _, hb⟩ := handle_fault_page_present exampleState 0x40001234 4 _ _
    (by decide) (by decide) exampleState_wellFormed (by decide) exampleState_pool
    exampleState_get_frames exampleState_fresh
  constructor
  · obtain ⟨s', h1, _, _, h4, h5⟩ := ha (by decide)
    rw [exampleStateHigh_fault] at h1
    injection h1 with h1
    subst h1
    obtain ⟨u, g1, g2⟩ := exampleStateMapped_later
    exact ⟨by decide, by decide, exampleStateHigh_fault, h4, u, g1, (h5 u g2).2.2.1,
      (h5 u g2).2.2.2⟩
  · obtain ⟨s', h1, _, _, h4, h5⟩ := hb (by decide)
    obtain ⟨s2, g1, _, _, g4, g5⟩ := h5 5 _ exampleState_get_frames_two
    exact ⟨by decide, by decide, s', s2, h1, h4, g1, g4, fun u hu => (g5 u hu).2.2.1⟩

end PageTable
